import Mathlib

/-!
Verification of the jack_compiler front-end (tokenizer, symbol table, parser,
VM code generator).  Rust sources are shallowly embedded: pure functions become
Lean functions, `&mut self` methods thread the state explicitly, `panic!`
becomes `Except.error`, and the recursive tree walks take a fuel parameter.
-/

namespace Jack

/-! ### Decimal rendering of numbers (Rust `format!("{}", n)` on usize) -/

/-- The decimal digit character for a digit value 0..9. -/
def digitChar : Nat → Char
  | 0 => '0' | 1 => '1' | 2 => '2' | 3 => '3' | 4 => '4'
  | 5 => '5' | 6 => '6' | 7 => '7' | 8 => '8' | _ => '9'

/-- Numeric value of a decimal digit character (inverse of `digitChar`). -/
def digitVal (c : Char) : Nat := c.toNat - 48

/-- Most-significant-first decimal digit characters of `n` (empty for 0);
the fuel argument only bounds the recursion depth. -/
def natChars : Nat → Nat → List Char
  | 0, _ => []
  | _ + 1, 0 => []
  | fuel + 1, n + 1 => natChars fuel ((n + 1) / 10) ++ [digitChar ((n + 1) % 10)]

/-- Decimal rendering of a natural number, as Rust's `format!("{}", n)`. -/
def natStr (n : Nat) : String := if n = 0 then "0" else ⟨natChars n n⟩

/-- Decode a digit-character list back to a number. -/
def charsVal (cs : List Char) : Nat := cs.foldl (fun a c => a * 10 + digitVal c) 0

/-! ### Tokens (src/tokenizer.rs) -/

inductive TokenType where
  | String | Integer | Symbol | Identifier | Keyword | None
deriving DecidableEq, Repr

structure TokenItem where
  token_type : TokenType
  value : String
deriving DecidableEq, Repr

def TokenItem.new (value : String) (token_type : TokenType) : TokenItem :=
  ⟨token_type, value⟩

def TokenItem.get_type (t : TokenItem) : TokenType := t.token_type

def TokenItem.get_value (t : TokenItem) : String := t.value

/-! ### Symbol table (src/parser.rs) -/

inductive SymbolType where
  | Field | StaticType | Local | Argument
deriving DecidableEq, Repr

structure SymbolItem where
  id : Nat
  name : String
  symbol_type : SymbolType
  kind : String
  position : Nat
deriving DecidableEq, Repr

def SymbolItem.new (id : Nat) (name : String) (symbol_type : SymbolType)
    (kind : String) (position : Nat) : SymbolItem :=
  ⟨id, name, symbol_type, kind, position⟩

/-- `SymbolItem::get_type_as_str` (src/parser.rs lines 94-103). -/
def SymbolItem.get_type_as_str (s : SymbolItem) : String :=
  match s.symbol_type with
  | .Argument => "argument"
  | .Field => "field"
  | .Local => "local"
  | .StaticType => "static"

def SymbolItem.get_position (s : SymbolItem) : Nat := s.position

/-- The `indexes: HashMap<String, usize>` field, as an association list
(names are inserted at most once, so lookup order is immaterial). -/
def lookupIdx : List (String × Nat) → String → Option Nat
  | [], _ => none
  | (k, v) :: rest, n => if k = n then some v else lookupIdx rest n

/-- The `types: HashMap<SymbolType, usize>` field, as a total function
(`SymbolTable::new` seeds all four keys with 0). -/
structure SymbolTable where
  symbols : List SymbolItem
  indexes : List (String × Nat)
  types : SymbolType → Nat

def SymbolTable.new : SymbolTable := ⟨[], [], fun _ => 0⟩

/-- `clone` deep-copies all three substructures; pure values need no copy. -/
def SymbolTable.clone (st : SymbolTable) : SymbolTable := st

/-- The category-string match opening `SymbolTable::add`. -/
def parseSymbolType (symbol_type : String) : Except String SymbolType :=
  if symbol_type = "field" then .ok .Field
  else if symbol_type = "static" then .ok .StaticType
  else if symbol_type = "var" then .ok .Local
  else if symbol_type = "argument" then .ok .Argument
  else .error ("Invalid symbol type: " ++ symbol_type)

/-- `SymbolTable::add` (src/parser.rs lines 140-166); `panic!` is `.error`. -/
def SymbolTable.add (st : SymbolTable) (symbol_type kind name : String) :
    Except String SymbolTable :=
  match parseSymbolType symbol_type with
  | .error e => .error e
  | .ok sty =>
    if (lookupIdx st.indexes name).isSome then
      .error ("Symbol already exists on symbol table: " ++ name)
    else
      .ok ⟨st.symbols ++
            [SymbolItem.new st.symbols.length name sty kind (st.types sty)],
           (name, st.symbols.length) :: st.indexes,
           fun t => if t = sty then st.types t + 1 else st.types t⟩

/-- `SymbolTable::get`: `expect`/`unwrap` become errors. -/
def SymbolTable.get (st : SymbolTable) (name : String) : Except String SymbolItem :=
  match lookupIdx st.indexes name with
  | none => .error "Name nof found on indexes"
  | some i =>
    match st.symbols.get? i with
    | none => .error "unwrap on missing symbol"
    | some s => .ok s

def SymbolTable.get_pop (st : SymbolTable) (name : String) : Except String String := do
  let s ← st.get name
  .ok ("pop " ++ s.get_type_as_str ++ " " ++ natStr s.get_position)

def SymbolTable.get_push (st : SymbolTable) (name : String) : Except String String := do
  let s ← st.get name
  .ok ("push " ++ s.get_type_as_str ++ " " ++ natStr s.get_position)

/-- Modelled from the spec: `contains(name)`: boolean.  `SymbolTable::contains`
is called by the writer (src/writer.rs line 601) but its definition is missing
from src/. -/
def SymbolTable.contains (st : SymbolTable) (name : String) : Bool :=
  (lookupIdx st.indexes name).isSome

/-- Modelled from the spec: the symbol's type name, used for the call target
`<var.type>.name` of a resolved method call.  `SymbolTable::get_type` is called
by the writer (src/writer.rs line 603) but its definition is missing from
src/; following `get`, a missing name is a fatal error. -/
def SymbolTable.get_type (st : SymbolTable) (name : String) : Except String String := do
  let s ← st.get name
  .ok s.kind

/-- Modelled from the spec: `count_fields()`: the per-category counter for
`Field`.  `SymbolTable::count_fields` is called by the writer (src/writer.rs
line 177) but its definition is missing from src/. -/
def SymbolTable.count_fields (st : SymbolTable) : Nat :=
  st.types SymbolType.Field

/-! ### Parse tree nodes (src/parser.rs `TokenTreeItem`) -/

inductive TokenTreeItem where
  | mk : Option String → Option TokenItem → List TokenTreeItem →
      Option SymbolTable → TokenTreeItem

def TokenTreeItem.get_name : TokenTreeItem → Option String
  | .mk n _ _ _ => n

def TokenTreeItem.get_item : TokenTreeItem → Option TokenItem
  | .mk _ i _ _ => i

def TokenTreeItem.get_nodes : TokenTreeItem → List TokenTreeItem
  | .mk _ _ ns _ => ns

def TokenTreeItem.get_symbol_table : TokenTreeItem → Option SymbolTable
  | .mk _ _ _ st => st

def TokenTreeItem.new_root (name : String) : TokenTreeItem :=
  .mk (some name) none [] none

def TokenTreeItem.new (token : TokenItem) : TokenTreeItem :=
  .mk none (some token) [] none

/-- `push` appends a leaf child; the builders thread the node functionally. -/
def TokenTreeItem.push : TokenTreeItem → TokenItem → TokenTreeItem
  | .mk n i ns st, tok => .mk n i (ns ++ [TokenTreeItem.new tok]) st

def TokenTreeItem.push_item : TokenTreeItem → TokenTreeItem → TokenTreeItem
  | .mk n i ns st, item => .mk n i (ns ++ [item]) st

def TokenTreeItem.push_items (t : TokenTreeItem) (items : List TokenTreeItem) :
    TokenTreeItem :=
  items.foldl TokenTreeItem.push_item t

def TokenTreeItem.set_symbol_table : TokenTreeItem → SymbolTable → TokenTreeItem
  | .mk n i ns _, table => .mk n i ns (some table)

/-- `tree.get_nodes().get(i).unwrap()`. -/
def TokenTreeItem.getNode (t : TokenTreeItem) (i : Nat) : Except String TokenTreeItem :=
  match t.get_nodes.get? i with
  | none => .error "unwrap on missing node"
  | some n => .ok n

/-- `node.get_item().as_ref().unwrap().get_value()`. -/
def TokenTreeItem.itemValue (t : TokenTreeItem) : Except String String :=
  match t.get_item with
  | none => .error "unwrap on missing item"
  | some tok => .ok tok.get_value

/-- `tree.get_nodes().get(i).unwrap().get_item().as_ref().unwrap().get_value()`. -/
def TokenTreeItem.valueAt (t : TokenTreeItem) (i : Nat) : Except String String := do
  let n ← t.getNode i
  n.itemValue

/-! ### Tokenizer character scanner (src/tokenizer.rs) -/

/-- `is_symbol` (src/tokenizer.rs lines 226-233): `symbols.contains(&c)`. -/
def is_symbol (c : Char) : Bool :=
  decide (c ∈ ['{', '}', '(', ')', '[', ']', '.', ',', ';', '+', '-', '*', '/',
    '&', '|', '>', '<', '=', '~'])

/-- `is_keyword` (src/tokenizer.rs lines 235-261): `keywords.contains(&value)`. -/
def keywords : List String :=
  ["class", "constructor", "function", "method", "field", "static", "var",
   "int", "char", "boolean", "void", "true", "false", "null", "this", "let",
   "do", "if", "else", "while", "return"]

def is_keyword (value : String) : Bool := decide (value ∈ keywords)

/-- `is_string` (src/tokenizer.rs lines 263-274): a slice that starts with a
quote must also end with one, otherwise a fatal lex error. -/
def is_string (value : List Char) : Except String Bool :=
  if value.head? = some '"' then
    if value.getLast? = some '"' then .ok true
    else .error ("Incomplete string: starts with quote but not ends with quote")
  else .ok false

/-- Value of an all-digit lexeme. -/
def lexemeVal (value : List Char) : Nat := charsVal value

/-- `is_integer` (src/tokenizer.rs lines 276-293): all characters must be
digits; then `parse::<i16>()`, whose failure (value out of the 16-bit signed
range, or an empty slice) is a fatal lex error.  Rust's `char::is_numeric` is
modelled on the ASCII digits, which is all the accepted dialect produces. -/
def is_integer (value : List Char) : Except String Bool :=
  if value.all (·.isDigit) then
    if value.isEmpty ∨ 32767 < lexemeVal value then
      .error "Invalid numeric value: failed to parse to i16"
    else .ok true
  else .ok false

/-- `build_token` (src/tokenizer.rs lines 206-224) on a raw slice; the checks
run in source order and a `panic!` in one of them aborts the whole scan. -/
def build_token (value : List Char) : Except String TokenItem :=
  if value.length = 1 ∧ is_symbol (value.headD ' ') then
    .ok (TokenItem.new ⟨value⟩ TokenType.Symbol)
  else if is_keyword ⟨value⟩ then
    .ok (TokenItem.new ⟨value⟩ TokenType.Keyword)
  else
    match is_string value with
    | .error e => .error e
    | .ok true => .ok (TokenItem.new ⟨value.filter (· ≠ '"')⟩ TokenType.String)
    | .ok false =>
      match is_integer value with
      | .error e => .error e
      | .ok true => .ok (TokenItem.new ⟨value.filter (· ≠ '"')⟩ TokenType.Integer)
      | .ok false => .ok (TokenItem.new ⟨value⟩ TokenType.Identifier)

/-- `&code[start..j]` with character indices (the sources are ASCII, where
byte and character indices coincide). -/
def slice (all : List Char) (start j : Nat) : List Char :=
  (all.drop start).take (j - start)

/-- The body of `process_code`'s scanner loop (src/tokenizer.rs lines
132-204): `all` is the whole input, the remaining characters are walked with
their index `i`, `start` is the running token's start and `cur` its kind. -/
def pcLoop (all : List Char) :
    List Char → Nat → Nat → TokenType → Except String (List TokenItem)
  | [], _, start, _ =>
    if all.length - start > 0 then do
      let t ← build_token (slice all start all.length)
      .ok [t]
    else .ok []
  | c :: rest, i, start, cur => do
    if c = '"' then
      match cur with
      | TokenType.None =>
        -- opens a string; the `String` guard below then skips to the next char
        pcLoop all rest (i + 1) i TokenType.String
      | TokenType.String => do
        let t ← build_token (slice all start (i + 1))
        let ts ← pcLoop all rest (i + 1) (i + 1) TokenType.None
        .ok (t :: ts)
      | _ => .error "Invalid presence of quote inside a token"
    else if cur = TokenType.String then
      pcLoop all rest (i + 1) start cur
    else if c = ' ' then
      if i - start > 0 then do
        let t ← build_token (slice all start i)
        let ts ← pcLoop all rest (i + 1) (i + 1) TokenType.None
        .ok (t :: ts)
      else
        pcLoop all rest (i + 1) (i + 1) TokenType.None
    else if is_symbol c then
      if i - start > 0 then do
        let t ← build_token (slice all start i)
        let s ← build_token [c]
        let ts ← pcLoop all rest (i + 1) (i + 1) TokenType.None
        .ok (t :: s :: ts)
      else do
        let s ← build_token [c]
        let ts ← pcLoop all rest (i + 1) (i + 1) TokenType.None
        .ok (s :: ts)
    else
      -- digit/identifier bookkeeping, then fatal mixed-integer check
      let (start', cur') :=
        if c.isDigit ∧ cur = TokenType.None then (i, TokenType.Integer)
        else (start, cur)
      if cur' = TokenType.Integer ∧ ¬ c.isDigit then
        .error "Non numeric char mixed inside a Integer token"
      else
        let (start'', cur'') :=
          if cur' = TokenType.None then (i, TokenType.Identifier)
          else (start', cur')
        pcLoop all rest (i + 1) start'' cur''

/-- `process_code` (src/tokenizer.rs lines 132-204). -/
def process_code (code : String) : Except String (List TokenItem) :=
  pcLoop code.data code.data 0 0 TokenType.None

/-! ### Token stream cursor (src/tokenizer.rs `Tokenizer`) -/

structure Tokenizer where
  tokens : List TokenItem
  cursor : Nat
deriving DecidableEq, Repr

def Tokenizer.reset (tk : Tokenizer) : Tokenizer := { tk with cursor := 0 }

def Tokenizer.has_next (tk : Tokenizer) : Bool :=
  tk.cursor < tk.tokens.length

/-- `get_next` returns the token under the cursor and advances; past the end
it returns `none` and leaves the cursor alone. -/
def Tokenizer.get_next (tk : Tokenizer) : Option TokenItem × Tokenizer :=
  if tk.has_next then (tk.tokens.get? tk.cursor, { tk with cursor := tk.cursor + 1 })
  else (none, tk)

/-- `peek_next` returns the token under the cursor without advancing
(`&self`, so the state is untouched by construction). -/
def Tokenizer.peek_next (tk : Tokenizer) : Option TokenItem :=
  if tk.has_next then tk.tokens.get? tk.cursor else none

/-- `tokenizer.get_next().unwrap()` as the parser uses it. -/
def Tokenizer.get_next_ex (tk : Tokenizer) : Except String (TokenItem × Tokenizer) :=
  match tk.get_next with
  | (none, _) => .error "unwrap on empty token stream"
  | (some t, tk') => .ok (t, tk')

/-- `consume` checks the consumed token's value against the expected literal
(src/tokenizer.rs lines 38-48); the parser pushes the consumed token into the
tree, so the token is returned alongside the new cursor. -/
def Tokenizer.consume (tk : Tokenizer) (value : String) :
    Except String (TokenItem × Tokenizer) := do
  let (t, tk') ← tk.get_next_ex
  if t.get_value = value then .ok (t, tk')
  else .error ("Invalid token found. Expected " ++ value ++ " and received " ++ t.get_value)

/-- `retrieve` (src/tokenizer.rs lines 54-66), returning the consumed token. -/
def Tokenizer.retrieve (tk : Tokenizer) (expected : TokenType) :
    Except String (TokenItem × Tokenizer) := do
  let (t, tk') ← tk.get_next_ex
  if t.get_type = expected then .ok (t, tk')
  else .error "Invalid token type found"

def Tokenizer.retrieve_identifier (tk : Tokenizer) : Except String (TokenItem × Tokenizer) :=
  tk.retrieve TokenType.Identifier

def Tokenizer.retrieve_any (tk : Tokenizer) (expected : List TokenType) :
    Except String (TokenItem × Tokenizer) := do
  let (t, tk') ← tk.get_next_ex
  if expected.contains t.get_type then .ok (t, tk')
  else .error "Invalid token type found"

/-- `retrieve_type` (src/tokenizer.rs lines 68-83). -/
def Tokenizer.retrieve_type (tk : Tokenizer) : Except String (TokenItem × Tokenizer) := do
  let (t, tk') ← tk.retrieve_any [TokenType.Identifier, TokenType.Keyword]
  if t.get_type = TokenType.Keyword ∧ ¬ ["int", "char", "boolean"].contains t.get_value then
    .error ("Invalid keywork. Expected int, char or boolean, but found " ++ t.get_value)
  else .ok (t, tk')

/-- Modelled from the spec: `retrieve_identifier / retrieve_keyword — advance;
fail if kind mismatches`.  `Tokenizer::retrieve_keyword` is called by the
parser (src/parser.rs line 339) but its definition is missing from src/. -/
def Tokenizer.retrieve_keyword (tk : Tokenizer) : Except String (TokenItem × Tokenizer) :=
  tk.retrieve TokenType.Keyword

/-- Modelled from the spec: `UnaryOp: - ~`.  `UNARY_OP_SYMBOLS` is imported by
the parser from the tokenizer but its definition is missing from src/. -/
def UNARY_OP_SYMBOLS : List String := ["-", "~"]

/-- Modelled from the spec: `Op (binary): + - * / & | < > =` by exact symbol.
`TokenItem::is_op` is called by the parser (src/parser.rs line 551) but its
definition is missing from src/. -/
def TokenItem.is_op (t : TokenItem) : Bool :=
  t.get_type = TokenType.Symbol ∧
    ["+", "-", "*", "/", "&", "|", "<", ">", "="].contains t.get_value

/-- Modelled from the spec: `retrieve_op — advance; accept only operator
symbols`.  `Tokenizer::retrieve_op` is called by the parser (src/parser.rs
line 555) but its definition is missing from src/. -/
def Tokenizer.retrieve_op (tk : Tokenizer) : Except String (TokenItem × Tokenizer) := do
  let (t, tk') ← tk.get_next_ex
  if t.is_op then .ok (t, tk') else .error "Invalid op token"

/-! ### Recursive-descent parser (src/parser.rs)

Each builder threads the token stream (and, where the Rust takes `&mut`, the
symbol table) explicitly; the fuel argument only bounds recursion depth and
every call decrements it. -/

/-- The trailing `while let Some(token) = get_next` loop of
`VarDec::build_field`; returns the extra tree nodes in push order. -/
def VarDec.build_field_loop :
    Nat → Tokenizer → SymbolTable → String → String →
      Except String (List TokenTreeItem × SymbolTable × Tokenizer)
  | 0, _, _, _, _ => .error "out of fuel"
  | fuel + 1, tk, st, descriptor, kind =>
    match tk.get_next with
    | (none, tk') => .ok ([], st, tk')
    | (some token, tk') =>
      if token.get_value = "," then do
        let (identifier, tk2) ← tk'.retrieve_identifier
        let st' ← st.add descriptor kind identifier.get_value
        let (rest, st2, tk3) ← VarDec.build_field_loop fuel tk2 st' descriptor kind
        .ok (TokenTreeItem.new token :: TokenTreeItem.new identifier :: rest, st2, tk3)
      else if token.get_value = ";" then
        .ok ([TokenTreeItem.new token], st, tk')
      else .error ("Expecting ',' or ';', but retrieved " ++ token.get_value)

/-- `VarDec::build_field` (src/parser.rs lines 272-312). -/
def VarDec.build_field (fuel : Nat) (tk : Tokenizer) (name descriptor : String)
    (st : SymbolTable) : Except String (TokenTreeItem × SymbolTable × Tokenizer) := do
  let root := TokenTreeItem.new_root name
  let (d, tk1) ← tk.consume descriptor
  let (field_type, tk2) ← tk1.retrieve_type
  let kind := field_type.get_value
  let (identifier, tk3) ← tk2.retrieve_identifier
  let st1 ← st.add descriptor kind identifier.get_value
  let root := ((root.push d).push field_type).push identifier
  let (extra, st2, tk4) ← VarDec.build_field_loop fuel tk3 st1 descriptor kind
  .ok (root.push_items extra, st2, tk4)

/-- `VarDec::build_class` (src/parser.rs lines 224-249). -/
def VarDec.build_class :
    Nat → Tokenizer → SymbolTable →
      Except String (List TokenTreeItem × SymbolTable × Tokenizer)
  | 0, _, _ => .error "out of fuel"
  | fuel + 1, tk, st =>
    match tk.peek_next with
    | none => .ok ([], st, tk)
    | some t =>
      if t.get_value = "field" then do
        let (vd, st1, tk1) ← VarDec.build_field fuel tk "classVarDec" "field" st
        let (rest, st2, tk2) ← VarDec.build_class fuel tk1 st1
        .ok (vd :: rest, st2, tk2)
      else if t.get_value = "static" then do
        let (vd, st1, tk1) ← VarDec.build_field fuel tk "classVarDec" "static" st
        let (rest, st2, tk2) ← VarDec.build_class fuel tk1 st1
        .ok (vd :: rest, st2, tk2)
      else .ok ([], st, tk)

/-- `VarDec::build_var` (src/parser.rs lines 251-270). -/
def VarDec.build_var :
    Nat → Tokenizer → SymbolTable →
      Except String (List TokenTreeItem × SymbolTable × Tokenizer)
  | 0, _, _ => .error "out of fuel"
  | fuel + 1, tk, st =>
    match tk.peek_next with
    | none => .ok ([], st, tk)
    | some t =>
      if t.get_value = "var" then do
        let (vd, st1, tk1) ← VarDec.build_field fuel tk "varDec" "var" st
        let (rest, st2, tk2) ← VarDec.build_var fuel tk1 st1
        .ok (vd :: rest, st2, tk2)
      else .ok ([], st, tk)

mutual

/-- `Expression::build` (src/parser.rs lines 544-560). -/
def Expression.build : Nat → Tokenizer → Except String (TokenTreeItem × Tokenizer)
  | 0, _ => .error "out of fuel"
  | fuel + 1, tk => do
    let root := TokenTreeItem.new_root "expression"
    let (t, tk1) ← Term.build fuel tk
    let (rest, tk2) ← Expression.build_loop fuel tk1
    .ok ((root.push_item t).push_items rest, tk2)

/-- The `(Op term)*` loop of `Expression::build`. -/
def Expression.build_loop :
    Nat → Tokenizer → Except String (List TokenTreeItem × Tokenizer)
  | 0, _ => .error "out of fuel"
  | fuel + 1, tk =>
    match tk.peek_next with
    | none => .ok ([], tk)
    | some t =>
      if ¬ t.is_op then .ok ([], tk)
      else do
        let (op, tk1) ← tk.retrieve_op
        let (term, tk2) ← Term.build fuel tk1
        let (rest, tk3) ← Expression.build_loop fuel tk2
        .ok (TokenTreeItem.new op :: term :: rest, tk3)

/-- `SubroutineCall::build` (src/parser.rs lines 565-589): the nodes the Rust
pushes onto the caller's root are returned in order. -/
def SubroutineCall.build :
    Nat → Tokenizer → Except String (List TokenTreeItem × Tokenizer)
  | 0, _ => .error "out of fuel"
  | fuel + 1, tk => do
    match tk.peek_next with
    | none => .error "unwrap on empty token stream"
    | some t =>
      if t.get_type = TokenType.Symbol ∧ t.get_value = "(" then do
        let (o, tk1) ← tk.consume "("
        let (el, tk2) ← SubroutineCall.build_expression_list fuel tk1
        let (c, tk3) ← tk2.consume ")"
        .ok ([TokenTreeItem.new o, el, TokenTreeItem.new c], tk3)
      else if t.get_type = TokenType.Symbol ∧ t.get_value = "." then do
        let (dot, tk1) ← tk.consume "."
        let (id, tk2) ← tk1.retrieve_identifier
        let (o, tk3) ← tk2.consume "("
        let (el, tk4) ← SubroutineCall.build_expression_list fuel tk3
        let (c, tk5) ← tk4.consume ")"
        .ok ([TokenTreeItem.new dot, TokenTreeItem.new id, TokenTreeItem.new o,
              el, TokenTreeItem.new c], tk5)
      else .error "Invalid next token on building subroutine call"

/-- `SubroutineCall::build_expression_list` (src/parser.rs lines 591-615). -/
def SubroutineCall.build_expression_list :
    Nat → Tokenizer → Except String (TokenTreeItem × Tokenizer)
  | 0, _ => .error "out of fuel"
  | fuel + 1, tk => do
    let root := TokenTreeItem.new_root "expressionList"
    match tk.peek_next with
    | none => .ok (root, tk)
    | some t =>
      if t.get_value = ")" ∨ t.get_value = "]" then .ok (root, tk)
      else do
        let (e, tk1) ← Expression.build fuel tk
        let (rest, tk2) ← SubroutineCall.expression_list_loop fuel tk1
        .ok ((root.push_item e).push_items rest, tk2)

/-- The `("," expression)*` loop of `build_expression_list`. -/
def SubroutineCall.expression_list_loop :
    Nat → Tokenizer → Except String (List TokenTreeItem × Tokenizer)
  | 0, _ => .error "out of fuel"
  | fuel + 1, tk =>
    match tk.peek_next with
    | none => .ok ([], tk)
    | some t =>
      if t.get_type ≠ TokenType.Symbol ∨ t.get_value ≠ "," then .ok ([], tk)
      else do
        let (comma, tk1) ← tk.consume ","
        let (e, tk2) ← Expression.build fuel tk1
        let (rest, tk3) ← SubroutineCall.expression_list_loop fuel tk2
        .ok (TokenTreeItem.new comma :: e :: rest, tk3)

/-- `Term::build` (src/parser.rs lines 620-636). -/
def Term.build : Nat → Tokenizer → Except String (TokenTreeItem × Tokenizer)
  | 0, _ => .error "out of fuel"
  | fuel + 1, tk => do
    let (token, tk1) ← tk.get_next_ex
    let root := (TokenTreeItem.new_root "term").push token
    match token.get_type with
    | TokenType.Identifier => do
      let (extra, tk2) ← Term.build_identifier fuel tk1
      .ok (root.push_items extra, tk2)
    | TokenType.Symbol => do
      let (extra, tk2) ← Term.build_symbol fuel token.get_value tk1
      .ok (root.push_items extra, tk2)
    | _ => .ok (root, tk1)

/-- `Term::build_identifier` (src/parser.rs lines 638-658). -/
def Term.build_identifier :
    Nat → Tokenizer → Except String (List TokenTreeItem × Tokenizer)
  | 0, _ => .error "out of fuel"
  | fuel + 1, tk =>
    match tk.peek_next with
    | none => .ok ([], tk)
    | some t =>
      if t.get_value = "[" then do
        let (o, tk1) ← tk.consume "["
        let (e, tk2) ← Expression.build fuel tk1
        let (c, tk3) ← tk2.consume "]"
        .ok ([TokenTreeItem.new o, e, TokenTreeItem.new c], tk3)
      else if t.get_value = "." ∨ t.get_value = "(" then
        SubroutineCall.build fuel tk
      else .ok ([], tk)

/-- `Term::build_symbol` (src/parser.rs lines 660-675). -/
def Term.build_symbol :
    Nat → String → Tokenizer → Except String (List TokenTreeItem × Tokenizer)
  | 0, _, _ => .error "out of fuel"
  | fuel + 1, value, tk =>
    if value = "(" then do
      let (e, tk1) ← Expression.build fuel tk
      let (c, tk2) ← tk1.consume ")"
      .ok ([e, TokenTreeItem.new c], tk2)
    else if UNARY_OP_SYMBOLS.contains value then do
      let (t, tk1) ← Term.build fuel tk
      .ok ([t], tk1)
    else .error "Invalid symbol list inside an symbol call"

/-- `Statement::build_list` (src/parser.rs lines 409-421). -/
def Statement.build_list : Nat → Tokenizer → Except String (TokenTreeItem × Tokenizer)
  | 0, _ => .error "out of fuel"
  | fuel + 1, tk => do
    let (items, tk1) ← Statement.build_list_loop fuel tk
    .ok ((TokenTreeItem.new_root "statements").push_items items, tk1)

/-- The `while peek != "}"` loop of `Statement::build_list`. -/
def Statement.build_list_loop :
    Nat → Tokenizer → Except String (List TokenTreeItem × Tokenizer)
  | 0, _ => .error "out of fuel"
  | fuel + 1, tk =>
    match tk.peek_next with
    | none => .ok ([], tk)
    | some t =>
      if t.get_value = "\x7d" then .ok ([], tk)
      else do
        let (s, tk1) ← Statement.build fuel tk
        let (rest, tk2) ← Statement.build_list_loop fuel tk1
        .ok (s :: rest, tk2)

/-- `Statement::build` (src/parser.rs lines 423-442). -/
def Statement.build : Nat → Tokenizer → Except String (TokenTreeItem × Tokenizer)
  | 0, _ => .error "out of fuel"
  | fuel + 1, tk =>
    match tk.peek_next with
    | none => .error "unwrap on empty token stream"
    | some t =>
      if t.get_type ≠ TokenType.Keyword then
        .error ("Invalid token type on build of statement: " ++ t.get_value)
      else if t.get_value = "return" then Statement.build_return fuel tk
      else if t.get_value = "do" then Statement.build_do fuel tk
      else if t.get_value = "while" then Statement.build_while fuel tk
      else if t.get_value = "if" then Statement.build_if fuel tk
      else if t.get_value = "let" then Statement.build_let fuel tk
      else .error ("Invalid statement value: " ++ t.get_value)

/-- `Statement::build_return` (src/parser.rs lines 444-460). -/
def Statement.build_return : Nat → Tokenizer → Except String (TokenTreeItem × Tokenizer)
  | 0, _ => .error "out of fuel"
  | fuel + 1, tk => do
    let root := TokenTreeItem.new_root "returnStatement"
    let (r, tk1) ← tk.consume "return"
    let root := root.push r
    match tk1.peek_next with
    | none => .error "unwrap on empty token stream"
    | some t =>
      if t.get_value = ";" then do
        let (s, tk2) ← tk1.consume ";"
        .ok (root.push s, tk2)
      else do
        let (e, tk2) ← Expression.build fuel tk1
        let (s, tk3) ← tk2.consume ";"
        .ok ((root.push_item e).push s, tk3)

/-- `Statement::build_do` (src/parser.rs lines 462-473). -/
def Statement.build_do : Nat → Tokenizer → Except String (TokenTreeItem × Tokenizer)
  | 0, _ => .error "out of fuel"
  | fuel + 1, tk => do
    let root := TokenTreeItem.new_root "doStatement"
    let (d, tk1) ← tk.consume "do"
    let (id, tk2) ← tk1.retrieve_identifier
    let (extra, tk3) ← SubroutineCall.build fuel tk2
    let (s, tk4) ← tk3.consume ";"
    .ok ((((root.push d).push id).push_items extra).push s, tk4)

/-- `Statement::build_while` (src/parser.rs lines 475-487). -/
def Statement.build_while : Nat → Tokenizer → Except String (TokenTreeItem × Tokenizer)
  | 0, _ => .error "out of fuel"
  | fuel + 1, tk => do
    let root := TokenTreeItem.new_root "whileStatement"
    let (w, tk1) ← tk.consume "while"
    let (o, tk2) ← tk1.consume "("
    let (e, tk3) ← Expression.build fuel tk2
    let (c, tk4) ← tk3.consume ")"
    let (ob, tk5) ← tk4.consume "\x7b"
    let (stmts, tk6) ← Statement.build_list fuel tk5
    let (cb, tk7) ← tk6.consume "\x7d"
    .ok (((((((root.push w).push o).push_item e).push c).push ob).push_item
      stmts).push cb, tk7)

/-- `Statement::build_if` (src/parser.rs lines 489-518). -/
def Statement.build_if : Nat → Tokenizer → Except String (TokenTreeItem × Tokenizer)
  | 0, _ => .error "out of fuel"
  | fuel + 1, tk => do
    let root := TokenTreeItem.new_root "ifStatement"
    let (i, tk1) ← tk.consume "if"
    let (o, tk2) ← tk1.consume "("
    let (e, tk3) ← Expression.build fuel tk2
    let (c, tk4) ← tk3.consume ")"
    let (ob, tk5) ← tk4.consume "\x7b"
    let (stmts, tk6) ← Statement.build_list fuel tk5
    let (cb, tk7) ← tk6.consume "\x7d"
    let root := ((((((root.push i).push o).push_item e).push c).push
      ob).push_item stmts).push cb
    match tk7.peek_next with
    | none => .ok (root, tk7)
    | some t =>
      if t.get_value = "else" then do
        let (el, tk8) ← tk7.consume "else"
        let (ob2, tk9) ← tk8.consume "\x7b"
        let (stmts2, tk10) ← Statement.build_list fuel tk9
        let (cb2, tk11) ← tk10.consume "\x7d"
        .ok ((((root.push el).push ob2).push_item stmts2).push cb2, tk11)
      else .ok (root, tk7)

/-- `Statement::build_let` (src/parser.rs lines 520-539). -/
def Statement.build_let : Nat → Tokenizer → Except String (TokenTreeItem × Tokenizer)
  | 0, _ => .error "out of fuel"
  | fuel + 1, tk => do
    let root := TokenTreeItem.new_root "letStatement"
    let (l, tk1) ← tk.consume "let"
    let (id, tk2) ← tk1.retrieve_identifier
    let root := (root.push l).push id
    match tk2.peek_next with
    | none => .error "unwrap on empty token stream"
    | some t => do
      let (root, tk3) ←
        if t.get_value = "[" then do
          let (o, tka) ← tk2.consume "["
          let (e, tkb) ← Expression.build fuel tka
          let (c, tkc) ← tkb.consume "]"
          pure (((root.push o).push_item e).push c, tkc)
        else pure (root, tk2)
      let (eq, tk4) ← tk3.consume "="
      let (e2, tk5) ← Expression.build fuel tk4
      let (s, tk6) ← tk5.consume ";"
      .ok (((root.push eq).push_item e2).push s, tk6)

end

mutual

/-- `SubroutineDec::build` (src/parser.rs lines 318-330). -/
def SubroutineDec.build :
    Nat → Tokenizer → SymbolTable → Except String (List TokenTreeItem × Tokenizer)
  | 0, _, _ => .error "out of fuel"
  | fuel + 1, tk, st =>
    match tk.peek_next with
    | none => .ok ([], tk)
    | some t =>
      if t.get_value = "\x7d" then .ok ([], tk)
      else do
        let (s, tk1) ← SubroutineDec.build_subroutine fuel tk st
        let (rest, tk2) ← SubroutineDec.build fuel tk1 st
        .ok (s :: rest, tk2)

/-- `SubroutineDec::build_subroutine` (src/parser.rs lines 332-356). -/
def SubroutineDec.build_subroutine (fuel : Nat) (tk : Tokenizer) (st : SymbolTable) :
    Except String (TokenTreeItem × Tokenizer) :=
  match fuel with
  | 0 => .error "out of fuel"
  | fuel + 1 => do
    let st0 := st.clone
    let root := TokenTreeItem.new_root "subroutineDec"
    let (kw, tk1) ← tk.retrieve_keyword
    let (ty, tk2) ← tk1.retrieve_any [TokenType.Keyword, TokenType.Identifier]
    let (name, tk3) ← tk2.retrieve_identifier
    let (p1, tk4) ← tk3.consume "("
    let (params, st1, tk5) ← SubroutineDec.build_parameters fuel tk4 st0
    let (p2, tk6) ← tk5.consume ")"
    let (body, st2, tk7) ← SubroutineDec.build_body fuel tk6 st1
    let root := (((((((root.push kw).push ty).push name).push p1).push_item
      params).push p2).push_item body).set_symbol_table st2
    .ok (root, tk7)

/-- `SubroutineDec::build_body` (src/parser.rs lines 358-372). -/
def SubroutineDec.build_body (fuel : Nat) (tk : Tokenizer) (st : SymbolTable) :
    Except String (TokenTreeItem × SymbolTable × Tokenizer) :=
  match fuel with
  | 0 => .error "out of fuel"
  | fuel + 1 => do
    let root := TokenTreeItem.new_root "subroutineBody"
    let (ob, tk1) ← tk.consume "\x7b"
    let (vds, st1, tk2) ← VarDec.build_var fuel tk1 st
    let (stmts, tk3) ← Statement.build_list fuel tk2
    let (cb, tk4) ← tk3.consume "\x7d"
    .ok ((((root.push ob).push_items vds).push_item stmts).push cb, st1, tk4)

/-- `SubroutineDec::build_parameters` (src/parser.rs lines 374-403). -/
def SubroutineDec.build_parameters (fuel : Nat) (tk : Tokenizer) (st : SymbolTable) :
    Except String (TokenTreeItem × SymbolTable × Tokenizer) :=
  match fuel with
  | 0 => .error "out of fuel"
  | fuel + 1 => do
    let (items, st1, tk1) ← SubroutineDec.build_parameters_loop fuel tk st
    .ok ((TokenTreeItem.new_root "parameterList").push_items items, st1, tk1)

/-- The `while peek != ")"` loop of `build_parameters`. -/
def SubroutineDec.build_parameters_loop :
    Nat → Tokenizer → SymbolTable →
      Except String (List TokenTreeItem × SymbolTable × Tokenizer)
  | 0, _, _ => .error "out of fuel"
  | fuel + 1, tk, st =>
    match tk.peek_next with
    | none => .ok ([], st, tk)
    | some t =>
      if t.get_value = ")" then .ok ([], st, tk)
      else do
        let (commaNodes, tk1) ←
          if t.get_value = "," then do
            let (c, tka) ← tk.consume ","
            pure ([TokenTreeItem.new c], tka)
          else pure ([], tk)
        let (pt, tk2) ← tk1.retrieve_type
        let (id, tk3) ← tk2.retrieve_identifier
        let st1 ← st.add "argument" pt.get_value id.get_value
        let (rest, st2, tk4) ← SubroutineDec.build_parameters_loop fuel tk3 st1
        .ok (commaNodes ++ [TokenTreeItem.new pt, TokenTreeItem.new id] ++ rest,
          st2, tk4)

end

/-- `ClassNode::build` (src/parser.rs lines 194-218).  The class symbol table
is local to the parse and dropped afterwards, exactly as in the Rust. -/
def ClassNode.build (fuel : Nat) (tk : Tokenizer) :
    Except String (TokenTreeItem × Tokenizer) :=
  match fuel with
  | 0 => .error "out of fuel"
  | fuel + 1 => do
    let root := TokenTreeItem.new_root "class"
    let st := SymbolTable.new
    let tk := tk.reset
    let (c, tk1) ← tk.consume "class"
    let (id, tk2) ← tk1.retrieve_identifier
    let (ob, tk3) ← tk2.consume "\x7b"
    let (vds, st1, tk4) ← VarDec.build_class fuel tk3 st
    let (subs, tk5) ← SubroutineDec.build fuel tk4 st1
    let (cb, tk6) ← tk5.consume "\x7d"
    .ok ((((((root.push c).push id).push ob).push_items vds).push_items
      subs).push cb, tk6)

/-! ### VM code generator (src/writer.rs) -/

structure VmWriter where
  class_symbol_table : SymbolTable
  symbol_table : SymbolTable
  class_name : String
  current_id : Nat

def VmWriter.new : VmWriter := ⟨SymbolTable.new, SymbolTable.new, "", 0⟩

def VmWriter.get_class_symbol_table (w : VmWriter) : SymbolTable :=
  w.class_symbol_table

def VmWriter.get_symbol_table (w : VmWriter) : SymbolTable := w.symbol_table

def VmWriter.set_symbol_table (w : VmWriter) (st : SymbolTable) : VmWriter :=
  { w with symbol_table := st }

def VmWriter.get_class_name (w : VmWriter) : String := w.class_name

def VmWriter.set_class_name (w : VmWriter) (v : String) : VmWriter :=
  { w with class_name := v }

/-- `get_next_id` (src/writer.rs lines 43-48). -/
def VmWriter.get_next_id (w : VmWriter) : Nat × VmWriter :=
  (w.current_id, { w with current_id := w.current_id + 1 })

/-- `VmWriter::validate_name` (src/writer.rs lines 691-705). -/
def validate_name (t : TokenTreeItem) (name : String) : Except String Unit :=
  match t.get_name with
  | none => .error ("Missing name on TokenTreeItem. Expected " ++ name)
  | some n =>
    if n = name then .ok ()
    else .error ("Invalid name on TokenTreeItem. Expected " ++ name ++ ". Found " ++ n)

/-- `build_expression_op` (src/writer.rs lines 379-394). -/
def build_expression_op (op : TokenTreeItem) : Except String String := do
  let v ← op.itemValue
  if v = "+" then .ok "add"
  else if v = "-" then .ok "sub"
  else if v = "*" then .ok "call Math.multiply 2"
  else if v = "/" then .ok "call Math.divide 2"
  else if v = "&" then .ok "and"
  else if v = "|" then .ok "or"
  else if v = ">" then .ok "gt"
  else if v = "<" then .ok "lt"
  else if v = "=" then .ok "eq"
  else .error ("Invalid op on expression build: " ++ v)

/-- The writer's recursive entry point, abstracted over for the loop helpers. -/
def Builder : Type :=
  VmWriter → TokenTreeItem → Except String (List String × VmWriter)

/-- Sequential emission of every node of a list (the `build_statements` and
class/body walking loops). -/
def buildFold (bld : Builder) :
    VmWriter → List TokenTreeItem → Except String (List String × VmWriter)
  | w, [] => .ok ([], w)
  | w, t :: rest => do
    let (c, w1) ← bld w t
    let (cs, w2) ← buildFold bld w1 rest
    .ok (c ++ cs, w2)

/-- Emission of the nodes at even indices (the `i += 2` loop of
`build_expression_list`, which skips the comma leaves). -/
def buildEvens (bld : Builder) :
    VmWriter → List TokenTreeItem → Except String (List String × VmWriter)
  | w, [] => .ok ([], w)
  | w, [t] => do
    let (c, w1) ← bld w t
    .ok (c, w1)
  | w, t :: _ :: rest => do
    let (c, w1) ← bld w t
    let (cs, w2) ← buildEvens bld w1 rest
    .ok (c ++ cs, w2)

/-- The `(op, term)` pair loop of `build_expression` (src/writer.rs lines
364-374): the term at `i + 1` is emitted, then the operator at `i`; a
trailing operator with no following term is the `unwrap` panic. -/
def buildExprOps (bld : Builder) :
    VmWriter → List TokenTreeItem → Except String (List String × VmWriter)
  | w, [] => .ok ([], w)
  | _, [_] => .error "unwrap on missing node"
  | w, op :: term :: rest => do
    let (c, w1) ← bld w term
    let o ← build_expression_op op
    let (cs, w2) ← buildExprOps bld w1 rest
    .ok (c ++ [o] ++ cs, w2)

/-- The `position += 2` name loops of `build_class_var_dec` and
`build_var_dec` over the nodes from position 4 on. -/
def addNamesLoop (sty kind : String) :
    SymbolTable → List TokenTreeItem → Except String SymbolTable
  | st, [] => .ok st
  | st, [t] => do
    let name ← t.itemValue
    st.add sty kind name
  | st, t :: _ :: rest => do
    let name ← t.itemValue
    let st1 ← st.add sty kind name
    addNamesLoop sty kind st1 rest

/-- The `position += 3` loop of `build_parameter_list` over the nodes from
position 3 on: a type at `position`, a name at `position + 1` (its absence is
the `unwrap` panic), then a comma leaf is skipped. -/
def paramLoop : SymbolTable → List TokenTreeItem → Except String SymbolTable
  | st, [] => .ok st
  | _, [_] => .error "unwrap on missing node"
  | st, k :: n :: [] => do
    let kv ← k.itemValue
    let nv ← n.itemValue
    st.add "argument" kv nv
  | st, k :: n :: _ :: rest => do
    let kv ← k.itemValue
    let nv ← n.itemValue
    let st1 ← st.add "argument" kv nv
    paramLoop st1 rest

/-- The local-counting loop of `build_subroutine_dec` (src/writer.rs lines
152-164) over the body nodes from position 1 on: each leading `varDec` child
contributes `(nodes - 2) / 2` and the first non-`varDec` child stops it. -/
def countLocals : List TokenTreeItem → Except String Nat
  | [] => .ok 0
  | t :: rest =>
    match t.get_name with
    | none => .error "unwrap on missing name"
    | some n =>
      if n = "varDec" then do
        let r ← countLocals rest
        .ok ((t.get_nodes.length - 2) / 2 + r)
      else .ok 0

/-- `build_class_var_dec` (src/writer.rs lines 211-257); returns the extended
class symbol table. -/
def build_class_var_dec (t : TokenTreeItem) (st : SymbolTable) :
    Except String SymbolTable := do
  validate_name t "classVarDec"
  let symbol_type ← t.valueAt 0
  let kind ← t.valueAt 1
  let name ← t.valueAt 2
  let st1 ← st.add symbol_type kind name
  addNamesLoop symbol_type kind st1 (t.get_nodes.drop 4)

/-- `build_parameter_list` (src/writer.rs lines 259-311). -/
def build_parameter_list (t : TokenTreeItem) (st : SymbolTable) :
    Except String SymbolTable := do
  validate_name t "parameterList"
  let st := st.clone
  match t.get_nodes.get? 0 with
  | none => .ok st
  | some kindNode => do
    let kv ← kindNode.itemValue
    let nv ← t.valueAt 1
    let st1 ← st.add "argument" kv nv
    paramLoop st1 (t.get_nodes.drop 3)

/-- `build_var_dec` (src/writer.rs lines 313-354). -/
def build_var_dec (t : TokenTreeItem) (st : SymbolTable) :
    Except String SymbolTable := do
  validate_name t "varDec"
  let st := st.clone
  let kind ← t.valueAt 1
  let name ← t.valueAt 2
  let st1 ← st.add "var" kind name
  addNamesLoop "var" kind st1 (t.get_nodes.drop 4)

/-- `build_subroutine_call` (src/writer.rs lines 585-623). -/
def build_subroutine_callF (bld : Builder) (w : VmWriter) (t : TokenTreeItem)
    (identifier : String) (base_item : Nat) :
    Except String (List String × VmWriter) := do
  let another_identifier ← t.valueAt base_item
  let expression_list ← t.getNode (base_item + 2)
  let count0 := (expression_list.get_nodes.length + 1) / 2
  let (pushes1, name1, count1) ←
    if w.get_symbol_table.contains identifier then do
      let p ← w.get_symbol_table.get_push identifier
      let ty ← w.get_symbol_table.get_type identifier
      pure ([p], ty, count0 + 1)
    else pure (([] : List String), identifier, count0)
  let (pushes, name, count) :=
    if identifier.length = 0 then
      (pushes1 ++ ["push pointer 0"], w.get_class_name, count1 + 1)
    else (pushes1, name1, count1)
  let (cs, w1) ← bld w expression_list
  .ok (pushes ++ cs ++
    ["call " ++ name ++ "." ++ another_identifier ++ " " ++ natStr count], w1)

/-- `build_expression` (src/writer.rs lines 356-377). -/
def build_expressionF (bld : Builder) (w : VmWriter) (t : TokenTreeItem) :
    Except String (List String × VmWriter) := do
  validate_name t "expression"
  let t0 ← t.getNode 0
  let (c0, w1) ← bld w t0
  let (cs, w2) ← buildExprOps bld w1 (t.get_nodes.drop 1)
  .ok (c0 ++ cs, w2)

/-- `build_term` (src/writer.rs lines 396-482). -/
def build_termF (bld : Builder) (w : VmWriter) (t : TokenTreeItem) :
    Except String (List String × VmWriter) := do
  validate_name t "term"
  let n0 ← t.getNode 0
  match n0.get_item with
  | none => .error "unwrap on missing item"
  | some item =>
    match item.get_type with
    | TokenType.Integer => .ok (["push constant " ++ item.get_value], w)
    | TokenType.String =>
      let value := item.get_value
      .ok (["push constant " ++ natStr value.length, "call String.new 1"] ++
        value.data.flatMap (fun c =>
          ["push constant " ++ natStr c.toNat, "call String.appendChar 2"]), w)
    | TokenType.Identifier =>
      let identifier := item.get_value
      if t.get_nodes.length = 4 then do
        let s ← t.valueAt 1
        if s = "[" then do
          let p ← w.get_symbol_table.get_push identifier
          let t2 ← t.getNode 2
          let (c, w1) ← bld w t2
          .ok ([p] ++ c ++ ["add", "pop pointer 1", "push that 0"], w1)
        else build_subroutine_callF bld w t "" 0
      else if t.get_nodes.length = 6 then
        build_subroutine_callF bld w t identifier 2
      else do
        let p ← w.get_symbol_table.get_push identifier
        .ok ([p], w)
    | TokenType.Keyword =>
      let value := item.get_value
      if value = "false" then .ok (["push constant 0"], w)
      else if value = "true" then .ok (["push constant 0", "not"], w)
      else if value = "this" then .ok (["push pointer 0"], w)
      else if value = "null" then .ok (["push constant 0"], w)
      else .error ("Invalid keywork on term build: " ++ value)
    | TokenType.Symbol =>
      let value := item.get_value
      if value = "-" then do
        let t1 ← t.getNode 1
        let (c, w1) ← bld w t1
        .ok (c ++ ["neg"], w1)
      else if value = "~" then do
        let t1 ← t.getNode 1
        let (c, w1) ← bld w t1
        .ok (c ++ ["not"], w1)
      else if value = "(" then do
        let t1 ← t.getNode 1
        bld w t1
      else .error ("Invalid symbol on term build: " ++ value)
    | TokenType.None => .error "Unexpected term type"

/-- `build_statements` (src/writer.rs lines 484-493). -/
def build_statementsF (bld : Builder) (w : VmWriter) (t : TokenTreeItem) :
    Except String (List String × VmWriter) := do
  validate_name t "statements"
  buildFold bld w t.get_nodes

/-- `build_let` (src/writer.rs lines 495-542). -/
def build_letF (bld : Builder) (w : VmWriter) (t : TokenTreeItem) :
    Except String (List String × VmWriter) := do
  validate_name t "letStatement"
  if t.get_nodes.length = 5 then do
    let e ← t.getNode 3
    let (c, w1) ← bld w e
    let identifier ← t.valueAt 1
    let p ← w1.get_symbol_table.get_pop identifier
    .ok (c ++ [p], w1)
  else if t.get_nodes.length = 8 then do
    let identifier ← t.valueAt 1
    let p ← w.get_symbol_table.get_push identifier
    let e3 ← t.getNode 3
    let (c1, w1) ← bld w e3
    let e6 ← t.getNode 6
    let (c2, w2) ← bld w1 e6
    .ok ([p] ++ c1 ++ ["add"] ++ c2 ++
      ["pop temp 0", "pop pointer 1", "push temp 0", "pop that 0"], w2)
  else .error "Invalid number of arguments on build let statement"

/-- `build_return` (src/writer.rs lines 544-558). -/
def build_returnF (bld : Builder) (w : VmWriter) (t : TokenTreeItem) :
    Except String (List String × VmWriter) := do
  validate_name t "returnStatement"
  if t.get_nodes.length = 3 then do
    let e ← t.getNode 1
    let (c, w1) ← bld w e
    .ok (c ++ ["return"], w1)
  else .ok (["push constant 0", "return"], w)

/-- `build_do` (src/writer.rs lines 560-583). -/
def build_doF (bld : Builder) (w : VmWriter) (t : TokenTreeItem) :
    Except String (List String × VmWriter) := do
  validate_name t "doStatement"
  if t.get_nodes.length = 8 then do
    let class_name ← t.valueAt 1
    let (c, w1) ← build_subroutine_callF bld w t class_name 3
    .ok (c ++ ["pop temp 0"], w1)
  else do
    let (c, w1) ← build_subroutine_callF bld w t "" 1
    .ok (c ++ ["pop temp 0"], w1)

/-- `build_while` (src/writer.rs lines 625-645). -/
def build_whileF (bld : Builder) (w : VmWriter) (t : TokenTreeItem) :
    Except String (List String × VmWriter) := do
  validate_name t "whileStatement"
  let (count, w0) := w.get_next_id
  let e2 ← t.getNode 2
  let (c1, w1) ← bld w0 e2
  let e5 ← t.getNode 5
  let (c2, w2) ← bld w1 e5
  .ok (["label WHILE_EXP" ++ natStr count] ++ c1 ++
    ["not", "if-goto WHILE_END" ++ natStr count] ++ c2 ++
    ["goto WHILE_EXP" ++ natStr count, "label WHILE_END" ++ natStr count], w2)

/-- `build_if` (src/writer.rs lines 647-675). -/
def build_ifF (bld : Builder) (w : VmWriter) (t : TokenTreeItem) :
    Except String (List String × VmWriter) := do
  validate_name t "ifStatement"
  let (count, w0) := w.get_next_id
  let e2 ← t.getNode 2
  let (c1, w1) ← bld w0 e2
  let e5 ← t.getNode 5
  let (c2, w2) ← bld w1 e5
  if t.get_nodes.length = 7 then
    .ok (c1 ++ ["if-goto IF_TRUE" ++ natStr count, "goto IF_FALSE" ++ natStr count,
      "label IF_TRUE" ++ natStr count] ++ c2 ++
      ["label IF_FALSE" ++ natStr count], w2)
  else do
    let e9 ← t.getNode 9
    let (c3, w3) ← bld w2 e9
    .ok (c1 ++ ["if-goto IF_TRUE" ++ natStr count, "goto IF_FALSE" ++ natStr count,
      "label IF_TRUE" ++ natStr count] ++ c2 ++
      ["goto IF_END" ++ natStr count, "label IF_FALSE" ++ natStr count] ++ c3 ++
      ["label IF_END" ++ natStr count], w3)

/-- `build_expression_list` (src/writer.rs lines 677-689). -/
def build_expression_listF (bld : Builder) (w : VmWriter) (t : TokenTreeItem) :
    Except String (List String × VmWriter) := do
  validate_name t "expressionList"
  buildEvens bld w t.get_nodes

/-- `build_class` (src/writer.rs lines 96-125). -/
def build_classF (bld : Builder) (w : VmWriter) (t : TokenTreeItem) :
    Except String (List String × VmWriter) := do
  validate_name t "class"
  if t.get_nodes.length ≤ 4 then .ok ([], w)
  else do
    let class_name ← t.valueAt 1
    let w0 := w.set_class_name class_name
    buildFold bld w0 ((t.get_nodes.drop 3).dropLast)

/-- `build_subroutine_dec` (src/writer.rs lines 127-194). -/
def build_subroutine_decF (bld : Builder) (w : VmWriter) (t : TokenTreeItem) :
    Except String (List String × VmWriter) := do
  validate_name t "subroutineDec"
  let routine_type ← t.valueAt 0
  let name ← t.valueAt 2
  let arguments ← t.getNode 4
  let body ← t.getNode 6
  let count_fields ← countLocals (body.get_nodes.drop 1)
  let header := "function " ++ w.get_class_name ++ "." ++ name ++ " " ++
    natStr count_fields
  let prologue ←
    if routine_type = "constructor" then
      .ok ["push constant " ++ natStr w.get_class_symbol_table.count_fields,
        "call Memory.alloc 1", "pop pointer 0"]
    else if routine_type = "function" then .ok ([] : List String)
    else if routine_type = "method" then
      .ok ["push argument 0", "pop pointer 0"]
    else .error ("Invalid routine type: " ++ routine_type)
  let (ca, w1) ← bld w arguments
  let (cb, w2) ← bld w1 body
  .ok (header :: (prologue ++ ca ++ cb), w2)

/-- `build_subroutine_body` (src/writer.rs lines 196-210). -/
def build_subroutine_bodyF (bld : Builder) (w : VmWriter) (t : TokenTreeItem) :
    Except String (List String × VmWriter) := do
  validate_name t "subroutineBody"
  buildFold bld w ((t.get_nodes.drop 1).dropLast)

/-- `VmWriter::build` (src/writer.rs lines 50-94): dispatch on the node's
group label; the fuel only bounds the tree-walk depth. -/
def VmWriter.build : Nat → VmWriter → TokenTreeItem →
    Except String (List String × VmWriter)
  | 0, _, _ => .error "out of fuel"
  | fuel + 1, w, t =>
    match t.get_name with
    | none => .ok ([], w)
    | some group =>
      if group = "expression" then build_expressionF (VmWriter.build fuel) w t
      else if group = "term" then build_termF (VmWriter.build fuel) w t
      else if group = "statements" then build_statementsF (VmWriter.build fuel) w t
      else if group = "letStatement" then build_letF (VmWriter.build fuel) w t
      else if group = "returnStatement" then build_returnF (VmWriter.build fuel) w t
      else if group = "doStatement" then build_doF (VmWriter.build fuel) w t
      else if group = "whileStatement" then build_whileF (VmWriter.build fuel) w t
      else if group = "ifStatement" then build_ifF (VmWriter.build fuel) w t
      else if group = "expressionList" then
        build_expression_listF (VmWriter.build fuel) w t
      else if group = "class" then build_classF (VmWriter.build fuel) w t
      else if group = "classVarDec" then do
        let st ← build_class_var_dec t w.class_symbol_table
        .ok ([], { w with class_symbol_table := st })
      else if group = "subroutineDec" then
        build_subroutine_decF (VmWriter.build fuel) w t
      else if group = "parameterList" then do
        let st ← build_parameter_list t w.get_class_symbol_table
        .ok ([], w.set_symbol_table st)
      else if group = "varDec" then do
        let st ← build_var_dec t w.get_symbol_table
        .ok ([], w.set_symbol_table st)
      else if group = "subroutineBody" then
        build_subroutine_bodyF (VmWriter.build fuel) w t
      else .error ("Unexpected token: " ++ group)

/-! ### Support definitions for the concrete runs used below -/

instance {ε α : Type} [DecidableEq ε] [DecidableEq α] : DecidableEq (Except ε α) :=
  fun a b =>
    match a, b with
    | .ok x, .ok y =>
      if h : x = y then isTrue (by rw [h]) else isFalse (by simp [h])
    | .error x, .error y =>
      if h : x = y then isTrue (by rw [h]) else isFalse (by simp [h])
    | .ok _, .error _ => isFalse (by simp)
    | .error _, .ok _ => isFalse (by simp)

/-- A leaf node holding a token with the given value and kind. -/
def leafV (v : String) (ty : TokenType) : TokenTreeItem :=
  TokenTreeItem.new (TokenItem.new v ty)

/-- A group node with the given label and children. -/
def groupNode (name : String) (nodes : List TokenTreeItem) : TokenTreeItem :=
  .mk (some name) none nodes none

/-- The children the parser gives a `parameterList` node for the declared
parameters `ps` (type/name pairs, comma leaves between entries). -/
def paramListNodes : List (String × String) → List TokenTreeItem
  | [] => []
  | (ty, nm) :: rest =>
    leafV ty TokenType.Identifier :: leafV nm TokenType.Identifier ::
      rest.flatMap (fun p =>
        [leafV "," TokenType.Symbol, leafV p.1 TokenType.Identifier,
         leafV p.2 TokenType.Identifier])

def paramListTree (ps : List (String × String)) : TokenTreeItem :=
  groupNode "parameterList" (paramListNodes ps)

/-- Adding the declared parameters, in order, as `Argument` symbols —
what the claimed receiver prepending would have to precede. -/
def addParams (st : SymbolTable) (ps : List (String × String)) :
    Except String SymbolTable :=
  ps.foldlM (fun st p => st.add "argument" p.1 p.2) st

/-- The subroutine-table snapshot the parser attaches for a method of a class
with one field, mirroring the repo's own `build_method` test program. -/
def c1snapshot : Except String SymbolTable := do
  let ts ← process_code "method int move(int size) { return size; }"
  let st0 ← SymbolTable.new.add "field" "int" "x"
  let (root, _) ← SubroutineDec.build_subroutine 100 ⟨ts, 0⟩ st0
  match root.get_symbol_table with
  | none => .error "no snapshot"
  | some st => .ok st

/-- The table feeding scenario S2. -/
def s2table : Except String SymbolTable := do
  let st ← SymbolTable.new.add "var" "int" "x"
  st.add "var" "Array" "a"

/-- Scenario S1: tokenize, parse and emit the expression `1 + 4 - 3`. -/
def s1code : Except String (List String) := do
  let ts ← process_code "1 + 4 - 3"
  let (tree, _) ← Expression.build 50 ⟨ts, 0⟩
  let (code, _) ← VmWriter.build 50 VmWriter.new tree
  pure code

/-- Scenario S2: tokenize, parse and emit `let a[x + 1] = 5;` under
`{x: Local int 0, a: Local Array 1}`. -/
def s2code : Except String (List String) := do
  let ts ← process_code "let a[x + 1] = 5;"
  let (tree, _) ← Statement.build 50 ⟨ts, 0⟩
  let st ← s2table
  let (code, _) ← VmWriter.build 50 { VmWriter.new with symbol_table := st } tree
  pure code

/-- A table built by the four kinds of `add`, one symbol each. -/
def c2table : Except String SymbolTable := do
  let st ← SymbolTable.new.add "static" "int" "s"
  let st ← st.add "field" "int" "f"
  let st ← st.add "argument" "int" "a"
  st.add "var" "int" "l"

def c10tok : Tokenizer := ⟨[TokenItem.new "x" TokenType.Identifier], 0⟩

/-- The children an `expression` node carries after its first term:
`(operator, term)` pairs in source order. -/
def opsTermsNodes : List (TokenTreeItem × TokenTreeItem) → List TokenTreeItem
  | [] => []
  | (op, tm) :: rest => op :: tm :: opsTermsNodes rest

/-- An `expression` node: first term, then `(Op term)*`. -/
def exprTree (t0 : TokenTreeItem) (pairs : List (TokenTreeItem × TokenTreeItem)) :
    TokenTreeItem :=
  groupNode "expression" (t0 :: opsTermsNodes pairs)

/-- Reference emission of the `(Op term)*` tail: per pair, the term's code
followed by the operator's instruction, left to right. -/
def exprEmitPairs (bld : Builder) :
    VmWriter → List (TokenTreeItem × TokenTreeItem) →
      Except String (List String × VmWriter)
  | w, [] => .ok ([], w)
  | w, (op, tm) :: rest =>
    bld w tm >>= fun (c, w1) =>
      build_expression_op op >>= fun o =>
        exprEmitPairs bld w1 rest >>= fun (cs, w2) =>
          .ok ((c ++ [o]) ++ cs, w2)

/-- The children of an `expressionList` node for the argument expressions
`es`: the expressions with comma leaves between them. -/
def exprListNodes : List TokenTreeItem → List TokenTreeItem
  | [] => []
  | e :: rest => e :: rest.flatMap (fun e2 => [leafV "," TokenType.Symbol, e2])

/-- The children of a `varDec` node: keyword, type, names separated by
commas, semicolon. -/
def varDecNodes (kw ty : String) : List String → List TokenTreeItem
  | [] => [leafV kw TokenType.Keyword, leafV ty TokenType.Identifier,
           leafV ";" TokenType.Symbol]
  | n1 :: rest =>
    leafV kw TokenType.Keyword :: leafV ty TokenType.Identifier ::
      leafV n1 TokenType.Identifier ::
      (rest.flatMap (fun nm =>
        [leafV "," TokenType.Symbol, leafV nm TokenType.Identifier]) ++
       [leafV ";" TokenType.Symbol])

def varDecTree (ty : String) (names : List String) : TokenTreeItem :=
  groupNode "varDec" (varDecNodes "var" ty names)

/-- Adding the declared locals, in order, as `Local` symbols. -/
def addLocals (st : SymbolTable) (ty : String) (names : List String) :
    Except String SymbolTable :=
  names.foldlM (fun st nm => st.add "var" ty nm) st

/-- A `[name, separator]*` child list — the shape the name loops of
`build_class_var_dec` / `build_var_dec` walk with `position += 2`. -/
def interleave : List String → List TokenTreeItem → List TokenTreeItem
  | [], _ => []
  | n :: nr, [] => [leafV n TokenType.Identifier]
  | n :: nr, s :: sr => leafV n TokenType.Identifier :: s :: interleave nr sr

/-- A `term` node holding one integer constant. -/
def intTerm (v : String) : TokenTreeItem :=
  groupNode "term" [leafV v TokenType.Integer]

/-- An `expression` node holding one integer-constant term. -/
def intExpr (v : String) : TokenTreeItem :=
  groupNode "expression" [intTerm v]

/-- A table holding only `a : Local Array` at slot 0, and a writer using it. -/
def c6table : SymbolTable :=
  ⟨[SymbolItem.new 0 "a" SymbolType.Local "Array" 0], [("a", 0)],
   fun t => if t = SymbolType.Local then 1 else 0⟩

def c6writer : VmWriter := { VmWriter.new with symbol_table := c6table }

/-- A hand-built array-form `letStatement` node: `let a[2] = 5;`. -/
def c6tree : TokenTreeItem :=
  groupNode "letStatement"
    [leafV "let" TokenType.Keyword, leafV "a" TokenType.Identifier,
     leafV "[" TokenType.Symbol, intExpr "2", leafV "]" TokenType.Symbol,
     leafV "=" TokenType.Symbol, intExpr "5", leafV ";" TokenType.Symbol]

/-- A table holding only `p : Local Point` at slot 0, and a writer using it. -/
def c3table : SymbolTable :=
  ⟨[SymbolItem.new 0 "p" SymbolType.Local "Point" 0], [("p", 0)],
   fun t => if t = SymbolType.Local then 1 else 0⟩

def c3writer : VmWriter := { VmWriter.new with symbol_table := c3table }

/-- A hand-built `doStatement` node: `do p.print(5);`. -/
def c3tree : TokenTreeItem :=
  groupNode "doStatement"
    [leafV "do" TokenType.Keyword, leafV "p" TokenType.Identifier,
     leafV "." TokenType.Symbol, leafV "print" TokenType.Identifier,
     leafV "(" TokenType.Symbol,
     groupNode "expressionList" [intExpr "5"],
     leafV ")" TokenType.Symbol, leafV ";" TokenType.Symbol]

/-- A class table with two fields, a writer for class `Test`, and a
hand-built constructor `subroutineDec` with one local and `return;`. -/
def c4classTable : SymbolTable :=
  ⟨[SymbolItem.new 0 "a" SymbolType.Field "int" 0,
    SymbolItem.new 1 "b" SymbolType.Field "int" 1],
   [("b", 1), ("a", 0)], fun t => if t = SymbolType.Field then 2 else 0⟩

def c4writer : VmWriter := ⟨c4classTable, SymbolTable.new, "Test", 0⟩

def c4body : TokenTreeItem :=
  groupNode "subroutineBody"
    [leafV "\x7b" TokenType.Symbol,
     varDecTree "boolean" ["exit"],
     groupNode "statements"
       [groupNode "returnStatement"
         [leafV "return" TokenType.Keyword, leafV ";" TokenType.Symbol]],
     leafV "\x7d" TokenType.Symbol]

def c4tree : TokenTreeItem :=
  groupNode "subroutineDec"
    [leafV "constructor" TokenType.Keyword, leafV "Test" TokenType.Identifier,
     leafV "new" TokenType.Identifier, leafV "(" TokenType.Symbol,
     groupNode "parameterList" [], leafV ")" TokenType.Symbol, c4body]

/-! Support for the label claims: payload extraction from emitted lines. -/

/-- The texts `L` of the emitted `label L` lines, in order. -/
def labelPayloads (code : List String) : List (List Char) :=
  code.filterMap fun s =>
    if s.data.take 6 = "label ".data then some (s.data.drop 6) else none

/-- The targets of the emitted `goto L` and `if-goto L` lines, in order. -/
def gotoPayloads (code : List String) : List (List Char) :=
  code.filterMap fun s =>
    if s.data.take 5 = "goto ".data then some (s.data.drop 5)
    else if s.data.take 8 = "if-goto ".data then some (s.data.drop 8)
    else none

def famWE (k : Nat) : List Char := "WHILE_EXP".data ++ (natStr k).data
def famWEnd (k : Nat) : List Char := "WHILE_END".data ++ (natStr k).data
def famIT (k : Nat) : List Char := "IF_TRUE".data ++ (natStr k).data
def famIF (k : Nat) : List Char := "IF_FALSE".data ++ (natStr k).data
def famIE (k : Nat) : List Char := "IF_END".data ++ (natStr k).data

/-- The five label texts the generator can mint from counter value `k`. -/
def labelFam (k : Nat) : List (List Char) :=
  [famWE k, famWEnd k, famIT k, famIF k, famIE k]

/-- Decode a label text into its template index and digit characters. -/
def stripTag (p : List Char) : Option (Nat × List Char) :=
  if p.take 9 = "WHILE_EXP".data then some (0, p.drop 9)
  else if p.take 9 = "WHILE_END".data then some (1, p.drop 9)
  else if p.take 7 = "IF_TRUE".data then some (2, p.drop 7)
  else if p.take 8 = "IF_FALSE".data then some (3, p.drop 8)
  else if p.take 6 = "IF_END".data then some (4, p.drop 6)
  else none

/-- Emitted code is label-sound for the counter interval `[a, b)`: its label
texts are pairwise distinct, each is minted from a counter value in the
interval, and every goto/if-goto target occurs among its label texts. -/
def GoodCode (a b : Nat) (code : List String) : Prop :=
  (labelPayloads code).Nodup ∧
  (∀ p ∈ labelPayloads code, ∃ k, a ≤ k ∧ k < b ∧ p ∈ labelFam k) ∧
  (∀ p ∈ gotoPayloads code, p ∈ labelPayloads code)

/-- A line that is neither a label nor a goto/if-goto. -/
def PlainLine (s : String) : Prop :=
  labelPayloads [s] = [] ∧ gotoPayloads [s] = []

/-- The invariant carried through the recursive walk: any successful build
only moves the label counter forward and emits label-sound code for the
traversed counter interval. -/
def BuilderOk (bld : Builder) : Prop :=
  ∀ w t code w', bld w t = .ok (code, w') →
    w.current_id ≤ w'.current_id ∧ GoodCode w.current_id w'.current_id code

/-- A `while (true) { }` statement tree, used to exercise the label claims. -/
def c7cond : TokenTreeItem :=
  groupNode "expression" [groupNode "term" [leafV "true" TokenType.Keyword]]

def c7body : TokenTreeItem := groupNode "statements" []

def c7tree : TokenTreeItem :=
  groupNode "whileStatement"
    [leafV "while" TokenType.Keyword, leafV "(" TokenType.Symbol, c7cond,
     leafV ")" TokenType.Symbol, leafV "\x7b" TokenType.Symbol, c7body,
     leafV "\x7d" TokenType.Symbol]

def c7code : List String :=
  ["label WHILE_EXP0", "push constant 0", "not", "not", "if-goto WHILE_END0",
   "goto WHILE_EXP0", "label WHILE_END0"]

def c7writerEnd : VmWriter := { VmWriter.new with current_id := 1 }

/-! ## Theorems

First the arithmetic facts about the decimal rendering, then the claims. -/

theorem ok_bind {ε α β : Type} (a : α) (f : α → Except ε β) :
    (Except.ok a >>= f) = f a := rfl

theorem error_bind {ε α β : Type} (e : ε) (f : α → Except ε β) :
    ((Except.error e : Except ε α) >>= f) = Except.error e := rfl

theorem pure_eq_ok {ε α : Type} (a : α) : (pure a : Except ε α) = Except.ok a := rfl

theorem validate_name_of {t : TokenTreeItem} {n : String}
    (h : t.get_name = some n) : validate_name t n = .ok () := by
  simp [validate_name, h]

/-- A successful `add` appends the new symbol with slot = the current
per-category counter, records its index, and bumps that counter. -/
theorem add_eq_ok {st : SymbolTable} {c k n : String} {sty : SymbolType}
    (hc : parseSymbolType c = .ok sty)
    (hn : (lookupIdx st.indexes n).isSome = false) :
    st.add c k n =
      .ok ⟨st.symbols ++
            [SymbolItem.new st.symbols.length n sty k (st.types sty)],
           (n, st.symbols.length) :: st.indexes,
           fun t => if t = sty then st.types t + 1 else st.types t⟩ := by
  simp [SymbolTable.add, hc, hn]

theorem add_ok_cases {st st' : SymbolTable} {c k n : String}
    (h : st.add c k n = .ok st') :
    ∃ sty, parseSymbolType c = .ok sty ∧
      (lookupIdx st.indexes n).isSome = false ∧
      st' = ⟨st.symbols ++
              [SymbolItem.new st.symbols.length n sty k (st.types sty)],
             (n, st.symbols.length) :: st.indexes,
             fun t => if t = sty then st.types t + 1 else st.types t⟩ := by
  cases hp : parseSymbolType c with
  | error e =>
    simp only [SymbolTable.add, hp] at h
    exact absurd h (by simp)
  | ok sty =>
    simp only [SymbolTable.add, hp] at h
    by_cases hl : (lookupIdx st.indexes n).isSome = true
    · rw [if_pos hl] at h
      exact absurd h (by simp)
    · rw [if_neg hl] at h
      exact ⟨sty, rfl, by simpa using hl, (Except.ok.inj h).symm⟩

/-- `add` fails exactly on a name already present (for a valid category). -/
theorem add_duplicate {st : SymbolTable} {c k n : String} {sty : SymbolType}
    (hc : parseSymbolType c = .ok sty)
    (hn : (lookupIdx st.indexes n).isSome = true) :
    st.add c k n = .error ("Symbol already exists on symbol table: " ++ n) := by
  simp [SymbolTable.add, hc, hn]

theorem digitVal_digitChar {d : Nat} (h : d < 10) : digitVal (digitChar d) = d := by
  interval_cases d <;> decide

theorem charsVal_append_digit (cs : List Char) (c : Char) :
    charsVal (cs ++ [c]) = charsVal cs * 10 + digitVal c := by
  simp [charsVal, List.foldl_append]

theorem charsVal_natChars : ∀ fuel n, n ≤ fuel → charsVal (natChars fuel n) = n := by
  intro fuel
  induction fuel with
  | zero => intro n h; interval_cases n; simp [natChars, charsVal]
  | succ f ih =>
    intro n h
    match n with
    | 0 => simp [natChars, charsVal]
    | m + 1 =>
      have hdiv : (m + 1) / 10 ≤ f := by
        have h1 : (m + 1) / 10 < m + 1 := Nat.div_lt_self (Nat.succ_pos m) (by omega)
        omega
      rw [natChars, charsVal_append_digit, ih _ hdiv,
        digitVal_digitChar (Nat.mod_lt _ (by omega))]
      omega

theorem charsVal_natStr (k : Nat) : charsVal (natStr k).data = k := by
  by_cases hk : k = 0
  · subst hk; simp [natStr]; decide
  · simp only [natStr, if_neg hk]
    exact charsVal_natChars k k le_rfl

theorem natStr_inj {m n : Nat} (h : natStr m = natStr n) : m = n := by
  have := charsVal_natStr m
  rw [h, charsVal_natStr n] at this
  omega

/-! ### C2 — category-to-segment mapping of `get_push` / `get_pop` -/

/-- C2: the claim (and the spec's VM grammar, and the repo's own
`build_constructor` / `build_method` writer tests) maps `Field` to the VM
segment `this`, but `SymbolItem::get_type_as_str` renders a Field symbol as
the nonexistent segment `field`; the other three categories map as claimed.
This theorem evaluates the code at the failing input: a table holding one
symbol of each category. -/
theorem C2_field_maps_to_field_not_this :
    (c2table.bind (fun st => st.get_push "s")) = .ok "push static 0" ∧
    (c2table.bind (fun st => st.get_push "a")) = .ok "push argument 0" ∧
    (c2table.bind (fun st => st.get_push "l")) = .ok "push local 0" ∧
    (c2table.bind (fun st => st.get_push "f")) = .ok "push field 0" ∧
    (c2table.bind (fun st => st.get_pop "f")) = .ok "pop field 0" ∧
    "push field 0" ≠ "push this 0" ∧ "pop field 0" ≠ "pop this 0" := by
  decide

/-! ### C9 — integer lexeme range checking -/

theorem is_symbol_eq_false_of_isDigit {c : Char} (h : c.isDigit = true) :
    is_symbol c = false := by
  rw [is_symbol, decide_eq_false_iff_not]
  intro hmem
  fin_cases hmem <;> simp_all

theorem not_keyword_of_digits {cs : List Char} (h : ∀ c ∈ cs, c.isDigit = true) :
    is_keyword ⟨cs⟩ = false := by
  rw [is_keyword, decide_eq_false_iff_not]
  intro hmem
  simp only [keywords, List.mem_cons, List.not_mem_nil, or_false] at hmem
  rcases hmem with hs | hs | hs | hs | hs | hs | hs | hs | hs | hs | hs | hs |
    hs | hs | hs | hs | hs | hs | hs | hs | hs <;>
  · have hdata : cs = _ := congrArg String.data hs
    subst hdata
    exact absurd h (by decide)

theorem is_string_of_digits {cs : List Char} (h1 : cs ≠ [])
    (h2 : ∀ c ∈ cs, c.isDigit = true) : is_string cs = .ok false := by
  match cs, h1 with
  | c :: rest, _ =>
    have hc := h2 c (List.mem_cons_self _ _)
    have hne : c ≠ '"' := by
      intro h
      subst h
      exact absurd hc (by decide)
    simp [is_string, hne]

theorem is_integer_of_digits {cs : List Char} (h1 : cs ≠ [])
    (h2 : ∀ c ∈ cs, c.isDigit = true) :
    is_integer cs =
      if 32767 < lexemeVal cs then
        .error "Invalid numeric value: failed to parse to i16"
      else .ok true := by
  have hall : cs.all (·.isDigit) = true := List.all_eq_true.mpr h2
  have hemp : cs.isEmpty = false := by
    cases cs with
    | nil => exact absurd rfl h1
    | cons a l => rfl
  simp [is_integer, hall, hemp]

theorem filter_quote_of_digits {cs : List Char} (h : ∀ c ∈ cs, c.isDigit = true) :
    cs.filter (· ≠ '"') = cs := by
  apply List.filter_eq_self.mpr
  intro a ha
  have := h a ha
  simp only [ne_eq, decide_eq_true_eq]
  intro hq
  subst hq
  exact absurd this (by decide)

/-- C9: an all-digit lexeme is classified as an `Integer` token exactly when
its value is at most 32767; a larger value is a fatal lex error, so the
tokenizer never emits an out-of-range Integer token. -/
theorem C9_integer_lexeme_range (cs : List Char) (h1 : cs ≠ [])
    (h2 : ∀ c ∈ cs, c.isDigit = true) :
    (lexemeVal cs ≤ 32767 →
      build_token cs = .ok (TokenItem.new ⟨cs⟩ TokenType.Integer)) ∧
    (32767 < lexemeVal cs →
      build_token cs = .error "Invalid numeric value: failed to parse to i16") := by
  have hsym : ¬ (cs.length = 1 ∧ is_symbol (cs.headD ' ') = true) := by
    rintro ⟨-, habs⟩
    match cs, h1 with
    | c :: rest, _ =>
      have hc := h2 c (List.mem_cons_self _ _)
      rw [List.headD_cons, is_symbol_eq_false_of_isDigit hc] at habs
      exact Bool.false_ne_true habs
  have hkw := not_keyword_of_digits h2
  have hstr := is_string_of_digits h1 h2
  have hint := is_integer_of_digits h1 h2
  have hfil := filter_quote_of_digits h2
  constructor
  · intro hle
    have hlt : ¬ 32767 < lexemeVal cs := by omega
    rw [build_token, if_neg hsym, if_neg (by simp [hkw]), hstr, hint,
      if_neg hlt, hfil]
  · intro hgt
    rw [build_token, if_neg hsym, if_neg (by simp [hkw]), hstr, hint,
      if_pos hgt]

theorem C9_witness :
    build_token "32767".data = .ok (TokenItem.new ⟨"32767".data⟩ TokenType.Integer) ∧
    build_token "32768".data = .error "Invalid numeric value: failed to parse to i16" :=
  ⟨(C9_integer_lexeme_range "32767".data (by decide) (by decide)).1 (by decide),
   (C9_integer_lexeme_range "32768".data (by decide) (by decide)).2 (by decide)⟩

/-! ### C10 — cursor discipline of `peek_next` / `get_next` -/

/-- C10: `peek_next` is a pure function of the unchanged stream (so repeated
peeks agree); when it returns a token, `get_next` returns the same token and
advances the cursor by exactly one; both return `none` exactly when the cursor
is at or past the end, and then `get_next` leaves the state untouched. -/
theorem C10_peek_get_next_agree (tk : Tokenizer) :
    (∀ t, tk.peek_next = some t →
      tk.get_next = (some t, { tk with cursor := tk.cursor + 1 })) ∧
    (tk.peek_next = none ↔ tk.tokens.length ≤ tk.cursor) ∧
    ((tk.get_next).1 = none ↔ tk.tokens.length ≤ tk.cursor) ∧
    (tk.tokens.length ≤ tk.cursor → tk.get_next = (none, tk)) := by
  have hnext : tk.has_next = decide (tk.cursor < tk.tokens.length) := by
    simp [Tokenizer.has_next]
  by_cases h : tk.cursor < tk.tokens.length
  · have hsome : ∃ t, tk.tokens.get? tk.cursor = some t := by
      rw [List.get?_eq_get h]
      exact ⟨_, rfl⟩
    obtain ⟨t0, ht0⟩ := hsome
    refine ⟨?_, ?_, ?_, ?_⟩
    · intro t ht
      rw [Tokenizer.peek_next, hnext, if_pos (by simpa using h)] at ht
      rw [Tokenizer.get_next, hnext, if_pos (by simpa using h), ht]
    · rw [Tokenizer.peek_next, hnext, if_pos (by simpa using h), ht0]
      simp
      omega
    · rw [Tokenizer.get_next, hnext, if_pos (by simpa using h), ht0]
      simp
      omega
    · intro hc
      omega
  · have hc : tk.tokens.length ≤ tk.cursor := by omega
    refine ⟨?_, ?_, ?_, ?_⟩
    · intro t ht
      rw [Tokenizer.peek_next, hnext, if_neg (by simpa using h)] at ht
      exact absurd ht (by simp)
    · rw [Tokenizer.peek_next, hnext, if_neg (by simpa using h)]
      simp [hc]
    · rw [Tokenizer.get_next, hnext, if_neg (by simpa using h)]
      simp [hc]
    · intro _
      rw [Tokenizer.get_next, hnext, if_neg (by simpa using h)]

theorem C10_witness :
    c10tok.get_next =
      (some (TokenItem.new "x" TokenType.Identifier),
        ⟨[TokenItem.new "x" TokenType.Identifier], 1⟩) :=
  (C10_peek_get_next_agree c10tok).1 (TokenItem.new "x" TokenType.Identifier)
    (by decide)

/-! ### C1 — no synthetic `this` receiver is ever prepended -/

set_option maxRecDepth 10000 in
/-- C1 counterexample: for the method `method int move(int size)` of a class
with one field (the repo's own `build_method` test program), the symbol-table
snapshot attached to the `subroutineDec` node contains no `this` entry at all,
and the first declared parameter `size` occupies argument slot 0, not 1 —
exactly as the repo's parser test `build_subroutine_with_argumants_and_vars`
asserts. -/
theorem C1_counterexample :
    (c1snapshot.map (fun st => st.contains "this")) = .ok false ∧
    ((c1snapshot.bind (fun st => st.get "size")).map
      (fun s => (s.symbol_type, s.position))) = .ok (SymbolType.Argument, 0) := by
  decide

theorem itemValue_leafV (v : String) (ty : TokenType) :
    (leafV v ty).itemValue = .ok v := rfl

theorem paramLoop_paramListNodes (ps : List (String × String)) :
    ∀ st, paramLoop st (paramListNodes ps) = addParams st ps := by
  induction ps with
  | nil => intro st; rfl
  | cons p rest ih =>
    intro st
    obtain ⟨ty, nm⟩ := p
    cases rest with
    | nil =>
      have hL : paramLoop st (paramListNodes [(ty, nm)]) =
          st.add "argument" ty nm := rfl
      have hR : addParams st [(ty, nm)] =
          (st.add "argument" ty nm >>= fun s' => pure s') := rfl
      rw [hL, hR]
      cases hadd : st.add "argument" ty nm with
      | error e => rw [error_bind]
      | ok st1 => rw [ok_bind]; rfl
    | cons q r =>
      obtain ⟨a, b⟩ := q
      have hL : paramLoop st (paramListNodes ((ty, nm) :: (a, b) :: r)) =
          (st.add "argument" ty nm >>= fun st1 =>
            paramLoop st1 (paramListNodes ((a, b) :: r))) := rfl
      have hR : addParams st ((ty, nm) :: (a, b) :: r) =
          (st.add "argument" ty nm >>= fun st1 =>
            addParams st1 ((a, b) :: r)) := rfl
      rw [hL, hR]
      cases hadd : st.add "argument" ty nm with
      | error e => rw [error_bind, error_bind]
      | ok st1 => rw [ok_bind, ok_bind, ih st1]

set_option maxRecDepth 10000 in
/-- C1 amended: parameter building prepends nothing for any subroutine kind.
(1) The writer's `build_parameter_list` performs exactly the adds of the
declared parameters, in order, as `Argument` symbols over the cloned class
table; (2) a successful `add` of an argument assigns slot = the table's
current Argument counter, so with a class table (whose Argument counter is 0
by (4) and (5)) the first declared parameter occupies slot 0; (3) no `this`
binding appears unless one is declared or was already present; (6) concretely,
the parser-side snapshot for a method holds the first declared parameter at
Argument slot 0 with its declared type. -/
theorem C1_amended_no_receiver_prepended :
    (∀ (st : SymbolTable) (ps : List (String × String)),
      build_parameter_list (paramListTree ps) st = addParams st ps) ∧
    (∀ (st : SymbolTable) (ty nm : String), st.contains nm = false →
      st.add "argument" ty nm =
        .ok ⟨st.symbols ++
              [SymbolItem.new st.symbols.length nm SymbolType.Argument ty
                (st.types SymbolType.Argument)],
             (nm, st.symbols.length) :: st.indexes,
             fun t => if t = SymbolType.Argument then st.types t + 1
               else st.types t⟩) ∧
    (∀ (st st' : SymbolTable) (ps : List (String × String)),
      addParams st ps = .ok st' → (∀ p ∈ ps, p.2 ≠ "this") →
      st'.contains "this" = st.contains "this") ∧
    (∀ (st st' : SymbolTable) (ty nm : String),
      st.add "field" ty nm = .ok st' ∨ st.add "static" ty nm = .ok st' →
      st'.types SymbolType.Argument = st.types SymbolType.Argument) ∧
    SymbolTable.new.types SymbolType.Argument = 0 ∧
    (((c1snapshot.bind (fun st => st.get "size")).map
        (fun s => (s.symbol_type, s.kind, s.position))) =
      .ok (SymbolType.Argument, "int", 0) ∧
      (c1snapshot.map (fun st => st.contains "this")) = .ok false) := by
  refine ⟨?_, ?_, ?_, ?_, rfl, by decide⟩
  · intro st ps
    match ps with
    | [] => rfl
    | (ty, nm) :: rest =>
      have hdrop : (paramListNodes ((ty, nm) :: rest)).drop 3 =
          paramListNodes rest := by
        match rest with
        | [] => rfl
        | q :: r => simp [paramListNodes]
      have hbody : build_parameter_list (paramListTree ((ty, nm) :: rest)) st =
          (st.add "argument" ty nm >>= fun st1 =>
            paramLoop st1 ((paramListNodes ((ty, nm) :: rest)).drop 3)) := rfl
      have hR : addParams st ((ty, nm) :: rest) =
          (st.add "argument" ty nm >>= fun st1 => addParams st1 rest) := rfl
      rw [hbody, hdrop, hR]
      cases hadd : st.add "argument" ty nm with
      | error e => rw [error_bind, error_bind]
      | ok st1 => rw [ok_bind, ok_bind, paramLoop_paramListNodes]
  · intro st ty nm hc
    exact add_eq_ok rfl hc
  · intro st st' ps
    induction ps generalizing st with
    | nil =>
      intro h _
      simp [addParams, List.foldlM, pure, Except.pure] at h
      rw [h]
    | cons p rest ih =>
      intro h hnm
      have hrest : ∀ q ∈ rest, q.2 ≠ "this" := fun q hq =>
        hnm q (List.mem_cons_of_mem _ hq)
      have hp : p.2 ≠ "this" := hnm p (List.mem_cons_self _ _)
      have hfold : addParams st (p :: rest) =
          (st.add "argument" p.1 p.2 >>= fun st1 => addParams st1 rest) := rfl
      rw [hfold] at h
      cases hadd : st.add "argument" p.1 p.2 with
      | error e => rw [hadd, error_bind] at h; exact absurd h (by simp)
      | ok st1 =>
        rw [hadd, ok_bind] at h
        have hpres : st1.contains "this" = st.contains "this" := by
          obtain ⟨sty, -, -, hst1⟩ := add_ok_cases hadd
          rw [hst1]
          simp [SymbolTable.contains, lookupIdx, hp]
        rw [ih st1 h hrest, hpres]
  · intro st st' ty nm h
    have : ∃ c sty, parseSymbolType c = Except.ok sty ∧ sty ≠ SymbolType.Argument ∧
        st.add c ty nm = .ok st' := by
      rcases h with h | h
      · exact ⟨"field", SymbolType.Field, rfl, by decide, h⟩
      · exact ⟨"static", SymbolType.StaticType, rfl, by decide, h⟩
    obtain ⟨c, sty, hc, hne, hadd⟩ := this
    obtain ⟨sty', hc', -, hst'⟩ := add_ok_cases hadd
    rw [hc] at hc'
    have hsty : sty' = sty := (Except.ok.inj hc').symm
    subst hsty
    rw [hst']
    simp [Ne.symm hne]

theorem C1_witness :
    ∃ st', SymbolTable.new.add "argument" "int" "size" = .ok st' ∧
      st'.symbols = [SymbolItem.new 0 "size" SymbolType.Argument "int" 0] := by
  refine ⟨_, (C1_amended_no_receiver_prepended).2.1 SymbolTable.new "int" "size"
    rfl, ?_⟩
  rfl

/-! ### C8 — symbol-table insertion invariants -/

/-- Tables reachable from `SymbolTable::new` by successful `add`s — every
table the parser or the writer ever builds. -/
inductive Reachable : SymbolTable → Prop where
  | new : Reachable SymbolTable.new
  | add {st st' : SymbolTable} {c k n : String} :
      Reachable st → st.add c k n = .ok st' → Reachable st'

/-- The slots of the symbols of category `c`, in insertion order. -/
def categorySlots (st : SymbolTable) (c : SymbolType) : List Nat :=
  (st.symbols.filter (fun s => s.symbol_type = c)).map SymbolItem.position

/-- The internal consistency invariant of a symbol table. -/
def WF (st : SymbolTable) : Prop :=
  (∀ c, categorySlots st c = List.range (st.types c)) ∧
  (st.symbols.map SymbolItem.name).Nodup ∧
  (∀ n, (lookupIdx st.indexes n = none → ∀ s ∈ st.symbols, s.name ≠ n) ∧
    (∀ i, lookupIdx st.indexes n = some i →
      ∃ s, st.symbols.get? i = some s ∧ s.name = n))

theorem WF_new : WF SymbolTable.new := by
  refine ⟨fun c => rfl, by simp [SymbolTable.new], fun n => ⟨?_, ?_⟩⟩
  · intro _ s hs
    simp [SymbolTable.new] at hs
  · intro i hi
    simp [SymbolTable.new, lookupIdx] at hi

theorem WF_add {st st' : SymbolTable} {c k n : String}
    (hwf : WF st) (h : st.add c k n = .ok st') : WF st' := by
  obtain ⟨sty, hc, hl, hst⟩ := add_ok_cases h
  obtain ⟨h1, h2, h4⟩ := hwf
  have hlnone : lookupIdx st.indexes n = none := by
    cases hlk : lookupIdx st.indexes n with
    | none => rfl
    | some i => rw [hlk] at hl; simp at hl
  have hnotin : ∀ s ∈ st.symbols, s.name ≠ n := (h4 n).1 hlnone
  subst hst
  refine ⟨?_, ?_, fun m => ⟨?_, ?_⟩⟩
  · intro cc
    by_cases hcs : cc = sty
    · subst hcs
      have h1cc := h1 cc
      simp only [categorySlots] at h1cc ⊢
      simp only [List.filter_append, List.map_append, h1cc]
      have hfil : List.filter (fun s => decide (s.symbol_type = cc))
          [SymbolItem.new st.symbols.length n cc k (st.types cc)] =
          [SymbolItem.new st.symbols.length n cc k (st.types cc)] := by
        simp [SymbolItem.new]
      rw [hfil]
      simp [SymbolItem.new, List.range_succ]
    · have h1cc := h1 cc
      simp only [categorySlots] at h1cc ⊢
      simp only [List.filter_append, List.map_append, h1cc]
      have hne2 : (SymbolItem.new st.symbols.length n sty k
          (st.types sty)).symbol_type ≠ cc := by
        simp only [SymbolItem.new]
        exact fun hh => hcs hh.symm
      have hfil : List.filter (fun s => decide (s.symbol_type = cc))
          [SymbolItem.new st.symbols.length n sty k (st.types sty)] = [] := by
        rw [List.filter_cons]
        simp [hne2]
      rw [hfil]
      simp [hcs]
  · simp only [List.map_append]
    rw [List.nodup_append]
    refine ⟨h2, by simp, ?_⟩
    intro a ha hb
    simp [SymbolItem.new] at hb
    subst hb
    obtain ⟨s, hs, hsn⟩ := List.mem_map.mp ha
    exact hnotin s hs hsn
  · intro hlk s hs
    simp only [lookupIdx] at hlk
    by_cases hm : n = m
    · rw [if_pos hm] at hlk
      exact absurd hlk (by simp)
    · rw [if_neg hm] at hlk
      rcases List.mem_append.mp hs with hold | hnew
      · exact (h4 m).1 hlk s hold
      · have : s = SymbolItem.new st.symbols.length n sty k (st.types sty) := by
          simpa using hnew
        rw [this]
        exact hm
  · intro i hlk
    simp only [lookupIdx] at hlk
    by_cases hm : n = m
    · rw [if_pos hm] at hlk
      have hi : i = st.symbols.length := (Option.some.inj hlk).symm
      subst hi
      refine ⟨SymbolItem.new st.symbols.length n sty k (st.types sty),
        List.get?_concat_length _ _, ?_⟩
      simpa [SymbolItem.new] using hm
    · rw [if_neg hm] at hlk
      obtain ⟨s, hgs, hns⟩ := (h4 m).2 i hlk
      have hilt : i < st.symbols.length := by
        by_contra hge
        rw [List.get?_eq_none.mpr (by omega)] at hgs
        exact absurd hgs (by simp)
      exact ⟨s, by rw [List.get?_append hilt]; exact hgs, hns⟩

theorem WF_reachable {st : SymbolTable} (h : Reachable st) : WF st := by
  induction h with
  | new => exact WF_new
  | add _ hadd ih => exact WF_add ih hadd

theorem types_eq_count {st : SymbolTable} (h : WF st) (c : SymbolType) :
    st.types c = (st.symbols.filter (fun s => s.symbol_type = c)).length := by
  have := congrArg List.length (h.1 c)
  simpa [categorySlots] using this.symm

theorem get_of_mem {st : SymbolTable} (hwf : WF st) {s : SymbolItem}
    (hs : s ∈ st.symbols) : st.get s.name = .ok s := by
  obtain ⟨h1, h2, h4⟩ := hwf
  cases hlk : lookupIdx st.indexes s.name with
  | none => exact absurd rfl ((h4 s.name).1 hlk s hs)
  | some i =>
    obtain ⟨s', hgs', hns'⟩ := (h4 s.name).2 i hlk
    have hs'mem : s' ∈ st.symbols := List.get?_mem hgs'
    have heq : s' = s := List.inj_on_of_nodup_map h2 hs'mem hs hns'
    subst heq
    simp only [SymbolTable.get, hlk, hgs']

/-- C8: `add` fails exactly on a duplicate name; a fresh name is appended
with slot = the number of prior insertions of the same category; hence in
every reachable table the slots of each category are exactly `0..count-1`
in insertion order, names are unique, and `get` returns each symbol's
unique binding. -/
theorem C8_add_slot_unique_lookup :
    (∀ (st : SymbolTable) (c k n : String) (sty : SymbolType), Reachable st →
      parseSymbolType c = .ok sty →
      ((st.contains n = true →
        st.add c k n = .error ("Symbol already exists on symbol table: " ++ n)) ∧
       (st.contains n = false → ∃ st', st.add c k n = .ok st' ∧
         st'.symbols = st.symbols ++
           [SymbolItem.new st.symbols.length n sty k
             ((st.symbols.filter (fun s => s.symbol_type = sty)).length)]))) ∧
    (∀ st : SymbolTable, Reachable st → ∀ c,
      categorySlots st c =
        List.range ((st.symbols.filter (fun s => s.symbol_type = c)).length) ∧
      (st.symbols.map SymbolItem.name).Nodup) ∧
    (∀ st : SymbolTable, Reachable st → ∀ s ∈ st.symbols,
      st.get s.name = .ok s) := by
  refine ⟨?_, ?_, ?_⟩
  · intro st c k n sty hr hc
    have hwf := WF_reachable hr
    constructor
    · intro hcon
      exact add_duplicate hc hcon
    · intro hncon
      refine ⟨_, add_eq_ok hc hncon, ?_⟩
      rw [types_eq_count hwf]
  · intro st hr c
    have hwf := WF_reachable hr
    exact ⟨by rw [hwf.1 c, types_eq_count hwf], hwf.2.1⟩
  · intro st hr s hs
    exact get_of_mem (WF_reachable hr) hs

theorem C8_witness :
    ∃ st', SymbolTable.new.add "field" "int" "x" = .ok st' ∧
      st'.symbols = [SymbolItem.new 0 "x" SymbolType.Field "int" 0] := by
  obtain ⟨st', ha, hsyms⟩ := (C8_add_slot_unique_lookup.1 SymbolTable.new "field"
    "int" "x" SymbolType.Field Reachable.new rfl).2 rfl
  exact ⟨st', ha, by simpa using hsyms⟩

/-! ### Dispatch lemmas for `VmWriter.build` -/

theorem build_eq_none {fuel : Nat} {w : VmWriter} {t : TokenTreeItem}
    (h : t.get_name = none) : VmWriter.build (fuel + 1) w t = .ok ([], w) := by
  simp [VmWriter.build, h]

theorem build_eq_expression {fuel : Nat} {w : VmWriter} {t : TokenTreeItem}
    (h : t.get_name = some "expression") :
    VmWriter.build (fuel + 1) w t = build_expressionF (VmWriter.build fuel) w t := by
  simp [VmWriter.build, h]

theorem build_eq_term {fuel : Nat} {w : VmWriter} {t : TokenTreeItem}
    (h : t.get_name = some "term") :
    VmWriter.build (fuel + 1) w t = build_termF (VmWriter.build fuel) w t := by
  simp [VmWriter.build, h]

theorem build_eq_statements {fuel : Nat} {w : VmWriter} {t : TokenTreeItem}
    (h : t.get_name = some "statements") :
    VmWriter.build (fuel + 1) w t = build_statementsF (VmWriter.build fuel) w t := by
  simp [VmWriter.build, h]

theorem build_eq_let {fuel : Nat} {w : VmWriter} {t : TokenTreeItem}
    (h : t.get_name = some "letStatement") :
    VmWriter.build (fuel + 1) w t = build_letF (VmWriter.build fuel) w t := by
  simp [VmWriter.build, h]

theorem build_eq_return {fuel : Nat} {w : VmWriter} {t : TokenTreeItem}
    (h : t.get_name = some "returnStatement") :
    VmWriter.build (fuel + 1) w t = build_returnF (VmWriter.build fuel) w t := by
  simp [VmWriter.build, h]

theorem build_eq_do {fuel : Nat} {w : VmWriter} {t : TokenTreeItem}
    (h : t.get_name = some "doStatement") :
    VmWriter.build (fuel + 1) w t = build_doF (VmWriter.build fuel) w t := by
  simp [VmWriter.build, h]

theorem build_eq_while {fuel : Nat} {w : VmWriter} {t : TokenTreeItem}
    (h : t.get_name = some "whileStatement") :
    VmWriter.build (fuel + 1) w t = build_whileF (VmWriter.build fuel) w t := by
  simp [VmWriter.build, h]

theorem build_eq_if {fuel : Nat} {w : VmWriter} {t : TokenTreeItem}
    (h : t.get_name = some "ifStatement") :
    VmWriter.build (fuel + 1) w t = build_ifF (VmWriter.build fuel) w t := by
  simp [VmWriter.build, h]

theorem build_eq_expression_list {fuel : Nat} {w : VmWriter} {t : TokenTreeItem}
    (h : t.get_name = some "expressionList") :
    VmWriter.build (fuel + 1) w t =
      build_expression_listF (VmWriter.build fuel) w t := by
  simp [VmWriter.build, h]

theorem build_eq_class {fuel : Nat} {w : VmWriter} {t : TokenTreeItem}
    (h : t.get_name = some "class") :
    VmWriter.build (fuel + 1) w t = build_classF (VmWriter.build fuel) w t := by
  simp [VmWriter.build, h]

theorem build_eq_class_var_dec {fuel : Nat} {w : VmWriter} {t : TokenTreeItem}
    (h : t.get_name = some "classVarDec") :
    VmWriter.build (fuel + 1) w t =
      (build_class_var_dec t w.class_symbol_table >>= fun st =>
        .ok ([], { w with class_symbol_table := st })) := by
  simp [VmWriter.build, h]

theorem build_eq_subroutine_dec {fuel : Nat} {w : VmWriter} {t : TokenTreeItem}
    (h : t.get_name = some "subroutineDec") :
    VmWriter.build (fuel + 1) w t =
      build_subroutine_decF (VmWriter.build fuel) w t := by
  simp [VmWriter.build, h]

theorem build_eq_parameter_list {fuel : Nat} {w : VmWriter} {t : TokenTreeItem}
    (h : t.get_name = some "parameterList") :
    VmWriter.build (fuel + 1) w t =
      (build_parameter_list t w.get_class_symbol_table >>= fun st =>
        .ok ([], w.set_symbol_table st)) := by
  simp [VmWriter.build, h]

theorem build_eq_var_dec {fuel : Nat} {w : VmWriter} {t : TokenTreeItem}
    (h : t.get_name = some "varDec") :
    VmWriter.build (fuel + 1) w t =
      (build_var_dec t w.get_symbol_table >>= fun st =>
        .ok ([], w.set_symbol_table st)) := by
  simp [VmWriter.build, h]

theorem build_eq_subroutine_body {fuel : Nat} {w : VmWriter} {t : TokenTreeItem}
    (h : t.get_name = some "subroutineBody") :
    VmWriter.build (fuel + 1) w t =
      build_subroutine_bodyF (VmWriter.build fuel) w t := by
  simp [VmWriter.build, h]

theorem build_eq_other {fuel : Nat} {w : VmWriter} {t : TokenTreeItem}
    {g : String} (h : t.get_name = some g)
    (hg : g ∉ ["expression", "term", "statements", "letStatement",
      "returnStatement", "doStatement", "whileStatement", "ifStatement",
      "expressionList", "class", "classVarDec", "subroutineDec",
      "parameterList", "varDec", "subroutineBody"]) :
    VmWriter.build (fuel + 1) w t = .error ("Unexpected token: " ++ g) := by
  simp only [List.mem_cons, List.not_mem_nil, or_false, not_or] at hg
  obtain ⟨g1, g2, g3, g4, g5, g6, g7, g8, g9, g10, g11, g12, g13, g14, g15⟩ := hg
  simp [VmWriter.build, h, g1, g2, g3, g4, g5, g6, g7, g8, g9, g10, g11, g12,
    g13, g14, g15]

/-! ### C5 — left-to-right expression emission and the operator table -/

theorem buildExprOps_opsTerms (bld : Builder)
    (pairs : List (TokenTreeItem × TokenTreeItem)) :
    ∀ w, buildExprOps bld w (opsTermsNodes pairs) = exprEmitPairs bld w pairs := by
  induction pairs with
  | nil => intro w; rfl
  | cons p rest ih =>
    intro w
    obtain ⟨op, tm⟩ := p
    cases hb : bld w tm with
    | error e =>
      simp only [opsTermsNodes, buildExprOps, exprEmitPairs, hb, error_bind]
    | ok cw =>
      obtain ⟨c, w1⟩ := cw
      simp only [opsTermsNodes, buildExprOps, exprEmitPairs, hb, ok_bind]
      cases ho : build_expression_op op with
      | error e => simp only [ho, error_bind]
      | ok o =>
        simp only [ho, ok_bind, ih w1]

/-- C5: expression code is emitted left to right without precedence — the
first term's code, then per `(operator, term)` pair the term's code followed
by the operator's instruction — with the operator table `+ -> add`,
`- -> sub`, `* -> call Math.multiply 2`, `/ -> call Math.divide 2`,
`& -> and`, `| -> or`, `< -> lt`, `> -> gt`, `= -> eq`; on the concrete
input `1 + 4 - 3` the full pipeline yields the claimed five lines. -/
theorem C5_expression_left_to_right :
    (build_expression_op (leafV "+" TokenType.Symbol) = .ok "add" ∧
     build_expression_op (leafV "-" TokenType.Symbol) = .ok "sub" ∧
     build_expression_op (leafV "*" TokenType.Symbol) = .ok "call Math.multiply 2" ∧
     build_expression_op (leafV "/" TokenType.Symbol) = .ok "call Math.divide 2" ∧
     build_expression_op (leafV "&" TokenType.Symbol) = .ok "and" ∧
     build_expression_op (leafV "|" TokenType.Symbol) = .ok "or" ∧
     build_expression_op (leafV "<" TokenType.Symbol) = .ok "lt" ∧
     build_expression_op (leafV ">" TokenType.Symbol) = .ok "gt" ∧
     build_expression_op (leafV "=" TokenType.Symbol) = .ok "eq") ∧
    (∀ (fuel : Nat) (w : VmWriter) (t0 : TokenTreeItem)
      (pairs : List (TokenTreeItem × TokenTreeItem)),
      VmWriter.build (fuel + 1) w (exprTree t0 pairs) =
        (VmWriter.build fuel w t0 >>= fun (c0, w1) =>
          exprEmitPairs (VmWriter.build fuel) w1 pairs >>= fun (cs, w2) =>
            .ok (c0 ++ cs, w2))) ∧
    s1code = .ok ["push constant 1", "push constant 4", "add",
      "push constant 3", "sub"] := by
  refine ⟨by decide, ?_, by decide⟩
  intro fuel w t0 pairs
  have hname : (exprTree t0 pairs).get_name = some "expression" := rfl
  rw [build_eq_expression hname]
  have hL : build_expressionF (VmWriter.build fuel) w (exprTree t0 pairs) =
      (VmWriter.build fuel w t0 >>= fun (c0, w1) =>
        buildExprOps (VmWriter.build fuel) w1
          (opsTermsNodes pairs) >>= fun (cs, w2) =>
          .ok (c0 ++ cs, w2)) := rfl
  rw [hL]
  cases hb : VmWriter.build fuel w t0 with
  | error e => simp only [hb, error_bind]
  | ok cw =>
    obtain ⟨c0, w1⟩ := cw
    simp only [hb, ok_bind, buildExprOps_opsTerms]

/-! ### C6 — array-form let statement template -/

/-- C6: for a `letStatement` node in array form (8 children), the emission is
the push of the target's segment/slot, the index code, `add`, the
right-hand-side code, then `pop temp 0`, `pop pointer 1`, `push temp 0`,
`pop that 0`, in exactly that order; scenario S2 is reproduced end to end. -/
theorem C6_let_array_template :
    (∀ (fuel : Nat) (w : VmWriter) (t : TokenTreeItem) (a : String)
      (I E : TokenTreeItem),
      t.get_name = some "letStatement" → t.get_nodes.length = 8 →
      t.valueAt 1 = .ok a → t.getNode 3 = .ok I → t.getNode 6 = .ok E →
      VmWriter.build (fuel + 1) w t =
        (w.get_symbol_table.get_push a >>= fun p =>
          VmWriter.build fuel w I >>= fun (c1, w1) =>
            VmWriter.build fuel w1 E >>= fun (c2, w2) =>
              .ok ([p] ++ c1 ++ ["add"] ++ c2 ++
                ["pop temp 0", "pop pointer 1", "push temp 0", "pop that 0"],
                w2))) ∧
    s2code = .ok ["push local 1", "push local 0", "push constant 1", "add",
      "add", "push constant 5", "pop temp 0", "pop pointer 1", "push temp 0",
      "pop that 0"] := by
  refine ⟨?_, by decide⟩
  intro fuel w t a I E hname hlen hva hI hE
  rw [build_eq_let hname]
  have h85 : ¬ (t.get_nodes.length = 5) := by omega
  simp only [build_letF, validate_name_of hname, ok_bind, error_bind, h85,
    hlen, hva, hI, hE, if_false, if_true, eq_self_iff_true, ite_false,
    ite_true]
  rw [if_neg (show ¬ (8 = 5) by omega)]

set_option maxRecDepth 4000 in
theorem C6_witness :
    (VmWriter.build 3 c6writer c6tree).map Prod.fst =
      .ok ["push local 0", "push constant 2", "add", "push constant 5",
        "pop temp 0", "pop pointer 1", "push temp 0", "pop that 0"] := by
  have h := C6_let_array_template.1 2 c6writer c6tree "a" (intExpr "2")
    (intExpr "5") rfl rfl rfl rfl rfl
  rw [h]
  decide

/-! ### C3 — subroutine-call shapes, receiver pushes and argument counts -/

theorem flatMap_pair_length (rest : List TokenTreeItem) :
    (rest.flatMap (fun e2 => [leafV "," TokenType.Symbol, e2])).length =
      2 * rest.length := by
  induction rest with
  | nil => rfl
  | cons e r ih =>
    simp only [List.flatMap_cons, List.length_append, List.length_cons,
      List.length_nil, ih]
    omega

theorem flatMap_nmpair_length (rest : List String) :
    (rest.flatMap (fun nm =>
      [leafV "," TokenType.Symbol, leafV nm TokenType.Identifier])).length =
      2 * rest.length := by
  induction rest with
  | nil => rfl
  | cons e r ih =>
    simp only [List.flatMap_cons, List.length_append, List.length_cons,
      List.length_nil, ih]
    omega

theorem exprListNodes_count (es : List TokenTreeItem) :
    ((exprListNodes es).length + 1) / 2 = es.length := by
  cases es with
  | nil => rfl
  | cons e rest =>
    simp only [exprListNodes, List.length_cons, flatMap_pair_length]
    omega

theorem buildEvens_exprList (bld : Builder) (es : List TokenTreeItem) :
    ∀ w, buildEvens bld w (exprListNodes es) = buildFold bld w es := by
  induction es with
  | nil => intro w; rfl
  | cons e rest ih =>
    intro w
    cases rest with
    | nil =>
      cases hb : bld w e with
      | error e2 =>
        simp only [exprListNodes, List.flatMap_nil, buildEvens, buildFold,
          hb, error_bind]
      | ok cw =>
        obtain ⟨c, w1⟩ := cw
        simp only [exprListNodes, List.flatMap_nil, buildEvens, buildFold,
          hb, ok_bind, List.append_nil]
    | cons e2 r2 =>
      have hshape : exprListNodes (e :: e2 :: r2) =
          e :: leafV "," TokenType.Symbol :: exprListNodes (e2 :: r2) := by
        simp [exprListNodes]
      rw [hshape]
      cases hb : bld w e with
      | error e3 =>
        simp only [buildEvens, buildFold, hb, error_bind]
      | ok cw =>
        obtain ⟨c, w1⟩ := cw
        simp only [buildEvens, buildFold, hb, ok_bind, ih w1]

/-- C3: the three call shapes of `build_subroutine_call`.  A bare call
(empty qualifier) pushes `pointer 0`, targets `<className>.name` and passes
n+1 arguments; a qualifier bound in the symbol table pushes the variable and
targets `<its type>.name` with n+1 arguments; an unbound qualifier pushes no
receiver and targets `<qualifier>.name` with n arguments.  In each shape the
receiver push (when present) precedes the argument code, which precedes the
`call` line, and an `expressionList` node emits its expressions left to
right. -/
theorem C3_call_shapes :
    (∀ (fuel : Nat) (w : VmWriter) (t : TokenTreeItem) (base : Nat)
      (fname : String) (el : TokenTreeItem) (es : List TokenTreeItem),
      t.valueAt base = .ok fname → t.getNode (base + 2) = .ok el →
      el.get_nodes = exprListNodes es →
      w.get_symbol_table.contains "" = false →
      build_subroutine_callF (VmWriter.build fuel) w t "" base =
        (VmWriter.build fuel w el >>= fun (cs, w1) =>
          .ok (["push pointer 0"] ++ cs ++
            ["call " ++ w.get_class_name ++ "." ++ fname ++ " " ++
              natStr (es.length + 1)], w1))) ∧
    (∀ (fuel : Nat) (w : VmWriter) (t : TokenTreeItem) (base : Nat)
      (idf fname : String) (el : TokenTreeItem) (es : List TokenTreeItem)
      (p ty : String),
      t.valueAt base = .ok fname → t.getNode (base + 2) = .ok el →
      el.get_nodes = exprListNodes es → idf.length ≠ 0 →
      w.get_symbol_table.contains idf = true →
      w.get_symbol_table.get_push idf = .ok p →
      w.get_symbol_table.get_type idf = .ok ty →
      build_subroutine_callF (VmWriter.build fuel) w t idf base =
        (VmWriter.build fuel w el >>= fun (cs, w1) =>
          .ok ([p] ++ cs ++
            ["call " ++ ty ++ "." ++ fname ++ " " ++
              natStr (es.length + 1)], w1))) ∧
    (∀ (fuel : Nat) (w : VmWriter) (t : TokenTreeItem) (base : Nat)
      (idf fname : String) (el : TokenTreeItem) (es : List TokenTreeItem),
      t.valueAt base = .ok fname → t.getNode (base + 2) = .ok el →
      el.get_nodes = exprListNodes es → idf.length ≠ 0 →
      w.get_symbol_table.contains idf = false →
      build_subroutine_callF (VmWriter.build fuel) w t idf base =
        (VmWriter.build fuel w el >>= fun (cs, w1) =>
          .ok (cs ++
            ["call " ++ idf ++ "." ++ fname ++ " " ++ natStr es.length],
            w1))) ∧
    (∀ (fuel : Nat) (w : VmWriter) (el : TokenTreeItem)
      (es : List TokenTreeItem),
      el.get_name = some "expressionList" → el.get_nodes = exprListNodes es →
      VmWriter.build (fuel + 1) w el = buildFold (VmWriter.build fuel) w es) := by
  refine ⟨?_, ?_, ?_, ?_⟩
  · intro fuel w t base fname el es hfn hel hnodes hc
    simp only [build_subroutine_callF, hfn, hel, ok_bind]
    rw [if_neg (by simp [hc]), pure_eq_ok, ok_bind]
    simp only [show (String.length "" = 0) = True by simp, ite_true,
      List.nil_append, hnodes, exprListNodes_count]
  · intro fuel w t base idf fname el es p ty hfn hel hnodes hlen hc hp hty
    simp only [build_subroutine_callF, hfn, hel, ok_bind]
    rw [if_pos (by simp [hc]), hp, ok_bind, hty, ok_bind, pure_eq_ok, ok_bind]
    simp only [eq_false hlen, ite_false, hnodes, exprListNodes_count]
  · intro fuel w t base idf fname el es hfn hel hnodes hlen hc
    simp only [build_subroutine_callF, hfn, hel, ok_bind]
    rw [if_neg (by simp [hc]), pure_eq_ok, ok_bind]
    simp only [eq_false hlen, ite_false, List.nil_append, hnodes,
      exprListNodes_count]
  · intro fuel w el es hname hnodes
    rw [build_eq_expression_list hname]
    have hL : build_expression_listF (VmWriter.build fuel) w el =
        buildEvens (VmWriter.build fuel) w el.get_nodes := by
      simp only [build_expression_listF, validate_name_of hname, ok_bind]
    rw [hL, hnodes, buildEvens_exprList]

set_option maxRecDepth 4000 in
theorem C3_witness :
    (build_subroutine_callF (VmWriter.build 3) c3writer c3tree "p" 3).map
      Prod.fst =
      .ok ["push local 0", "push constant 5", "call Point.print 2"] := by
  have h := C3_call_shapes.2.1 3 c3writer c3tree 3 "p" "print"
    (groupNode "expressionList" [intExpr "5"]) [intExpr "5"] "push local 0"
    "Point" rfl rfl rfl (by decide) rfl rfl rfl
  rw [h]
  decide

/-! ### C4 — subroutine header and prologues -/

theorem addNamesLoop_interleave (sty k : String) :
    ∀ (names : List String) (seps : List TokenTreeItem) (st : SymbolTable),
      seps.length = names.length →
      addNamesLoop sty k st (interleave names seps) =
        names.foldlM (fun st nm => st.add sty k nm) st := by
  intro names
  induction names with
  | nil => intro seps st _; rfl
  | cons n nr ih =>
    intro seps st hlen
    cases seps with
    | nil => simp at hlen
    | cons s sr =>
      have hsr : sr.length = nr.length := by
        simpa using hlen
      cases hnr : nr with
      | nil =>
        subst hnr
        have hsrnil : sr = [] := List.length_eq_zero.mp (by simpa using hsr)
        subst hsrnil
        cases hadd : st.add sty k n with
        | error e =>
          simp only [interleave, addNamesLoop, TokenTreeItem.itemValue,
            leafV, TokenTreeItem.new, TokenTreeItem.get_item,
            TokenItem.get_value, TokenItem.new, ok_bind, List.foldlM, hadd,
            error_bind]
        | ok st1 =>
          simp only [interleave, addNamesLoop, TokenTreeItem.itemValue,
            leafV, TokenTreeItem.new, TokenTreeItem.get_item,
            TokenItem.get_value, TokenItem.new, ok_bind, List.foldlM, hadd]
          rfl
      | cons n2 r2 =>
        rw [← hnr]
        have hL : addNamesLoop sty k st (interleave (n :: nr) (s :: sr)) =
            (st.add sty k n >>= fun st1 =>
              addNamesLoop sty k st1 (interleave nr sr)) := by
          subst hnr
          cases sr with
          | nil => simp at hsr
          | cons s2 sr2 => rfl
        have hR : (n :: nr).foldlM (fun st nm => st.add sty k nm) st =
            (st.add sty k n >>= fun st1 =>
              nr.foldlM (fun st nm => st.add sty k nm) st1) := rfl
        rw [hL, hR]
        cases hadd : st.add sty k n with
        | error e => rw [error_bind, error_bind]
        | ok st1 => rw [ok_bind, ok_bind, ih sr st1 hsr]

/-- C4: the first emitted line of a `subroutineDec` is
`function <className>.<name> <nLocals>`; a constructor then emits
`push constant <nFields>` / `call Memory.alloc 1` / `pop pointer 0` with
`nFields` the class table's Field counter; a method emits
`push argument 0` / `pop pointer 0`; a function emits no prologue.
`nLocals` is the count the header loop reads off the `varDec` children,
which equals the number of Local symbols those children add to the
generator's subroutine table. -/
theorem C4_subroutine_header_prologue :
    (∀ (fuel : Nat) (w : VmWriter) (t : TokenTreeItem) (name : String)
      (args body : TokenTreeItem) (nL : Nat),
      t.get_name = some "subroutineDec" →
      t.valueAt 0 = .ok "constructor" → t.valueAt 2 = .ok name →
      t.getNode 4 = .ok args → t.getNode 6 = .ok body →
      countLocals (body.get_nodes.drop 1) = .ok nL →
      VmWriter.build (fuel + 1) w t =
        (VmWriter.build fuel w args >>= fun (ca, w1) =>
          VmWriter.build fuel w1 body >>= fun (cb, w2) =>
            .ok (("function " ++ w.get_class_name ++ "." ++ name ++ " " ++
              natStr nL) ::
              (["push constant " ++
                  natStr w.get_class_symbol_table.count_fields,
                "call Memory.alloc 1", "pop pointer 0"] ++ ca ++ cb),
              w2))) ∧
    (∀ (fuel : Nat) (w : VmWriter) (t : TokenTreeItem) (name : String)
      (args body : TokenTreeItem) (nL : Nat),
      t.get_name = some "subroutineDec" →
      t.valueAt 0 = .ok "function" → t.valueAt 2 = .ok name →
      t.getNode 4 = .ok args → t.getNode 6 = .ok body →
      countLocals (body.get_nodes.drop 1) = .ok nL →
      VmWriter.build (fuel + 1) w t =
        (VmWriter.build fuel w args >>= fun (ca, w1) =>
          VmWriter.build fuel w1 body >>= fun (cb, w2) =>
            .ok (("function " ++ w.get_class_name ++ "." ++ name ++ " " ++
              natStr nL) :: (ca ++ cb), w2))) ∧
    (∀ (fuel : Nat) (w : VmWriter) (t : TokenTreeItem) (name : String)
      (args body : TokenTreeItem) (nL : Nat),
      t.get_name = some "subroutineDec" →
      t.valueAt 0 = .ok "method" → t.valueAt 2 = .ok name →
      t.getNode 4 = .ok args → t.getNode 6 = .ok body →
      countLocals (body.get_nodes.drop 1) = .ok nL →
      VmWriter.build (fuel + 1) w t =
        (VmWriter.build fuel w args >>= fun (ca, w1) =>
          VmWriter.build fuel w1 body >>= fun (cb, w2) =>
            .ok (("function " ++ w.get_class_name ++ "." ++ name ++ " " ++
              natStr nL) ::
              (["push argument 0", "pop pointer 0"] ++ ca ++ cb), w2))) ∧
    (∀ (t : TokenTreeItem) (st : SymbolTable) (ty n1 : String)
      (names : List String) (seps : List TokenTreeItem),
      t.get_name = some "varDec" → t.valueAt 1 = .ok ty →
      t.valueAt 2 = .ok n1 → t.get_nodes.drop 4 = interleave names seps →
      seps.length = names.length →
      build_var_dec t st = addLocals st ty (n1 :: names)) ∧
    (∀ (t : TokenTreeItem) (rest : List TokenTreeItem) (r : Nat),
      t.get_name = some "varDec" → countLocals rest = .ok r →
      countLocals (t :: rest) = .ok ((t.get_nodes.length - 2) / 2 + r)) ∧
    (∀ (t : TokenTreeItem) (rest : List TokenTreeItem),
      t.get_name = some "statements" → countLocals (t :: rest) = .ok 0) ∧
    (∀ (ty : String) (names : List String), names ≠ [] →
      ((varDecTree ty names).get_nodes.length - 2) / 2 = names.length) ∧
    (∀ (st st' : SymbolTable) (ty : String) (names : List String),
      addLocals st ty names = .ok st' →
      st'.types SymbolType.Local = st.types SymbolType.Local + names.length) := by
  refine ⟨?_, ?_, ?_, ?_, ?_, ?_, ?_, ?_⟩
  · intro fuel w t name args body nL hname hk hn hargs hbody hcount
    rw [build_eq_subroutine_dec hname]
    simp only [build_subroutine_decF, validate_name_of hname, ok_bind,
      hk, hn, hargs, hbody, hcount]
    simp
  · intro fuel w t name args body nL hname hk hn hargs hbody hcount
    rw [build_eq_subroutine_dec hname]
    simp only [build_subroutine_decF, validate_name_of hname, ok_bind,
      hk, hn, hargs, hbody, hcount]
    simp
  · intro fuel w t name args body nL hname hk hn hargs hbody hcount
    rw [build_eq_subroutine_dec hname]
    simp only [build_subroutine_decF, validate_name_of hname, ok_bind,
      hk, hn, hargs, hbody, hcount]
    simp
  · intro t st ty n1 names seps hname hty hn1 hdrop hlen
    simp only [build_var_dec, validate_name_of hname, ok_bind,
      SymbolTable.clone, hty, hn1, hdrop]
    cases hadd : st.add "var" ty n1 with
    | error e =>
      simp only [hadd, error_bind]
      have hR : addLocals st ty (n1 :: names) =
          (st.add "var" ty n1 >>= fun st1 => addLocals st1 ty names) := rfl
      rw [hR, hadd, error_bind]
    | ok st1 =>
      simp only [hadd, ok_bind]
      have hR : addLocals st ty (n1 :: names) =
          (st.add "var" ty n1 >>= fun st1 => addLocals st1 ty names) := rfl
      rw [hR, hadd, ok_bind, addNamesLoop_interleave "var" ty names seps st1
        hlen]
      rfl
  · intro t rest r hname hrest
    simp only [countLocals, hname, hrest, ok_bind]
    simp
  · intro t rest hname
    simp only [countLocals, hname]
    rw [if_neg (by decide)]
  · intro ty names hne
    cases names with
    | nil => exact absurd rfl hne
    | cons n1 rest =>
      have hnodes : (varDecTree ty (n1 :: rest)).get_nodes =
          leafV "var" TokenType.Keyword :: leafV ty TokenType.Identifier ::
            leafV n1 TokenType.Identifier ::
            (rest.flatMap (fun nm => [leafV "," TokenType.Symbol,
              leafV nm TokenType.Identifier]) ++
             [leafV ";" TokenType.Symbol]) := rfl
      rw [hnodes]
      simp only [List.length_cons, List.length_append, flatMap_nmpair_length,
        List.length_nil]
      omega
  · intro st st' ty names h
    induction names generalizing st with
    | nil =>
      have hst : st = st' := Except.ok.inj h
      rw [← hst]
      simp
    | cons n rest ih =>
      have hR : addLocals st ty (n :: rest) =
          (st.add "var" ty n >>= fun st1 => addLocals st1 ty rest) := rfl
      rw [hR] at h
      cases hadd : st.add "var" ty n with
      | error e => rw [hadd, error_bind] at h; exact absurd h (by simp)
      | ok st1 =>
        rw [hadd, ok_bind] at h
        obtain ⟨sty, hps, -, hst1⟩ := add_ok_cases hadd
        have hsty : sty = SymbolType.Local := by
          have hv : parseSymbolType "var" = Except.ok SymbolType.Local := rfl
          rw [hv] at hps
          exact (Except.ok.inj hps).symm
        subst hsty
        have hc1 : st1.types SymbolType.Local = st.types SymbolType.Local + 1 := by
          rw [hst1]
          simp
        have := ih st1 h
        rw [this, hc1]
        simp only [List.length_cons]
        omega

set_option maxRecDepth 4000 in
theorem C4_witness :
    (VmWriter.build 4 c4writer c4tree).map Prod.fst =
      .ok ["function Test.new 1", "push constant 2", "call Memory.alloc 1",
        "pop pointer 0", "push constant 0", "return"] := by
  have h := C4_subroutine_header_prologue.1 3 c4writer c4tree "new"
    (groupNode "parameterList" []) c4body 1 rfl rfl rfl rfl rfl (by decide)
  rw [h]
  decide

/-! ### C7 — payload computation lemmas -/

theorem labelPayloads_nil : labelPayloads [] = [] := rfl

theorem gotoPayloads_nil : gotoPayloads [] = [] := rfl

theorem labelPayloads_append (a b : List String) :
    labelPayloads (a ++ b) = labelPayloads a ++ labelPayloads b := by
  unfold labelPayloads
  exact List.filterMap_append a b _

theorem gotoPayloads_append (a b : List String) :
    gotoPayloads (a ++ b) = gotoPayloads a ++ gotoPayloads b := by
  unfold gotoPayloads
  exact List.filterMap_append a b _

theorem labelPayloads_pair (s t : String) :
    labelPayloads [s, t] = labelPayloads [s] ++ labelPayloads [t] :=
  labelPayloads_append [s] [t]

theorem gotoPayloads_pair (s t : String) :
    gotoPayloads [s, t] = gotoPayloads [s] ++ gotoPayloads [t] :=
  gotoPayloads_append [s] [t]

theorem labelPayloads_triple (s t u : String) :
    labelPayloads [s, t, u] =
      labelPayloads [s] ++ (labelPayloads [t] ++ labelPayloads [u]) := by
  rw [show ([s, t, u] : List String) = [s] ++ [t, u] from rfl,
    labelPayloads_append, labelPayloads_pair]

theorem gotoPayloads_triple (s t u : String) :
    gotoPayloads [s, t, u] =
      gotoPayloads [s] ++ (gotoPayloads [t] ++ gotoPayloads [u]) := by
  rw [show ([s, t, u] : List String) = [s] ++ [t, u] from rfl,
    gotoPayloads_append, gotoPayloads_pair]

theorem labelPayloads_single (s : String) :
    labelPayloads [s] =
      if s.data.take 6 = "label ".data then [s.data.drop 6] else [] := by
  by_cases h : s.data.take 6 = "label ".data <;> simp [labelPayloads, h]

theorem gotoPayloads_single (s : String) :
    gotoPayloads [s] =
      if s.data.take 5 = "goto ".data then [s.data.drop 5]
      else if s.data.take 8 = "if-goto ".data then [s.data.drop 8]
      else [] := by
  by_cases h5 : s.data.take 5 = "goto ".data
  · simp [gotoPayloads, h5]
  · by_cases h8 : s.data.take 8 = "if-goto ".data <;> simp [gotoPayloads, h5, h8]

theorem labelPayloads_pre (pre m : String) (hl : 6 ≤ pre.data.length) :
    labelPayloads [pre ++ m] =
      if pre.data.take 6 = "label ".data then [pre.data.drop 6 ++ m.data]
      else [] := by
  rw [labelPayloads_single, String.data_append, List.take_append_eq_append_take,
    List.drop_append_eq_append_drop]
  have h6 : 6 - pre.data.length = 0 := by omega
  rw [h6]
  simp

theorem gotoPayloads_pre (pre m : String) (hl : 8 ≤ pre.data.length) :
    gotoPayloads [pre ++ m] =
      if pre.data.take 5 = "goto ".data then [pre.data.drop 5 ++ m.data]
      else if pre.data.take 8 = "if-goto ".data then [pre.data.drop 8 ++ m.data]
      else [] := by
  rw [gotoPayloads_single, String.data_append, List.take_append_eq_append_take,
    List.take_append_eq_append_take, List.drop_append_eq_append_drop,
    List.drop_append_eq_append_drop]
  have h5 : 5 - pre.data.length = 0 := by omega
  have h8 : 8 - pre.data.length = 0 := by omega
  rw [h5, h8]
  simp

theorem lp_labelWE (k : Nat) :
    labelPayloads ["label WHILE_EXP" ++ natStr k] = [famWE k] := by
  rw [labelPayloads_pre _ _ (by decide), if_pos (by decide)]
  simp [famWE, (by decide : "label WHILE_EXP".data.drop 6 = "WHILE_EXP".data)]

theorem gp_labelWE (k : Nat) :
    gotoPayloads ["label WHILE_EXP" ++ natStr k] = [] := by
  rw [gotoPayloads_pre _ _ (by decide), if_neg (by decide), if_neg (by decide)]

theorem lp_labelWEnd (k : Nat) :
    labelPayloads ["label WHILE_END" ++ natStr k] = [famWEnd k] := by
  rw [labelPayloads_pre _ _ (by decide), if_pos (by decide)]
  simp [famWEnd, (by decide : "label WHILE_END".data.drop 6 = "WHILE_END".data)]

theorem gp_labelWEnd (k : Nat) :
    gotoPayloads ["label WHILE_END" ++ natStr k] = [] := by
  rw [gotoPayloads_pre _ _ (by decide), if_neg (by decide), if_neg (by decide)]

theorem lp_igWEnd (k : Nat) :
    labelPayloads ["if-goto WHILE_END" ++ natStr k] = [] := by
  rw [labelPayloads_pre _ _ (by decide), if_neg (by decide)]

theorem gp_igWEnd (k : Nat) :
    gotoPayloads ["if-goto WHILE_END" ++ natStr k] = [famWEnd k] := by
  rw [gotoPayloads_pre _ _ (by decide), if_neg (by decide), if_pos (by decide)]
  simp [famWEnd, (by decide : "if-goto WHILE_END".data.drop 8 = "WHILE_END".data)]

theorem lp_gWE (k : Nat) :
    labelPayloads ["goto WHILE_EXP" ++ natStr k] = [] := by
  rw [labelPayloads_pre _ _ (by decide), if_neg (by decide)]

theorem gp_gWE (k : Nat) :
    gotoPayloads ["goto WHILE_EXP" ++ natStr k] = [famWE k] := by
  rw [gotoPayloads_pre _ _ (by decide), if_pos (by decide)]
  simp [famWE, (by decide : "goto WHILE_EXP".data.drop 5 = "WHILE_EXP".data)]

theorem lp_not : labelPayloads ["not"] = [] := by decide

theorem gp_not : gotoPayloads ["not"] = [] := by decide

theorem lp_igIT (k : Nat) :
    labelPayloads ["if-goto IF_TRUE" ++ natStr k] = [] := by
  rw [labelPayloads_pre _ _ (by decide), if_neg (by decide)]

theorem gp_igIT (k : Nat) :
    gotoPayloads ["if-goto IF_TRUE" ++ natStr k] = [famIT k] := by
  rw [gotoPayloads_pre _ _ (by decide), if_neg (by decide), if_pos (by decide)]
  simp [famIT, (by decide : "if-goto IF_TRUE".data.drop 8 = "IF_TRUE".data)]

theorem lp_gIF (k : Nat) :
    labelPayloads ["goto IF_FALSE" ++ natStr k] = [] := by
  rw [labelPayloads_pre _ _ (by decide), if_neg (by decide)]

theorem gp_gIF (k : Nat) :
    gotoPayloads ["goto IF_FALSE" ++ natStr k] = [famIF k] := by
  rw [gotoPayloads_pre _ _ (by decide), if_pos (by decide)]
  simp [famIF, (by decide : "goto IF_FALSE".data.drop 5 = "IF_FALSE".data)]

theorem lp_labelIT (k : Nat) :
    labelPayloads ["label IF_TRUE" ++ natStr k] = [famIT k] := by
  rw [labelPayloads_pre _ _ (by decide), if_pos (by decide)]
  simp [famIT, (by decide : "label IF_TRUE".data.drop 6 = "IF_TRUE".data)]

theorem gp_labelIT (k : Nat) :
    gotoPayloads ["label IF_TRUE" ++ natStr k] = [] := by
  rw [gotoPayloads_pre _ _ (by decide), if_neg (by decide), if_neg (by decide)]

theorem lp_labelIF (k : Nat) :
    labelPayloads ["label IF_FALSE" ++ natStr k] = [famIF k] := by
  rw [labelPayloads_pre _ _ (by decide), if_pos (by decide)]
  simp [famIF, (by decide : "label IF_FALSE".data.drop 6 = "IF_FALSE".data)]

theorem gp_labelIF (k : Nat) :
    gotoPayloads ["label IF_FALSE" ++ natStr k] = [] := by
  rw [gotoPayloads_pre _ _ (by decide), if_neg (by decide), if_neg (by decide)]

theorem lp_gIE (k : Nat) :
    labelPayloads ["goto IF_END" ++ natStr k] = [] := by
  rw [labelPayloads_pre _ _ (by decide), if_neg (by decide)]

theorem gp_gIE (k : Nat) :
    gotoPayloads ["goto IF_END" ++ natStr k] = [famIE k] := by
  rw [gotoPayloads_pre _ _ (by decide), if_pos (by decide)]
  simp [famIE, (by decide : "goto IF_END".data.drop 5 = "IF_END".data)]

theorem lp_labelIE (k : Nat) :
    labelPayloads ["label IF_END" ++ natStr k] = [famIE k] := by
  rw [labelPayloads_pre _ _ (by decide), if_pos (by decide)]
  simp [famIE, (by decide : "label IF_END".data.drop 6 = "IF_END".data)]

theorem gp_labelIE (k : Nat) :
    gotoPayloads ["label IF_END" ++ natStr k] = [] := by
  rw [gotoPayloads_pre _ _ (by decide), if_neg (by decide), if_neg (by decide)]

/-! ### C7 — label-text disambiguation and the code soundness invariant -/

theorem fam_take_eq {A B d e : List Char} (he : A ++ d = B ++ e) (n : Nat)
    (ha : n ≤ A.length) (hb : n ≤ B.length) : A.take n = B.take n := by
  have h := congrArg (List.take n) he
  rw [List.take_append_eq_append_take, List.take_append_eq_append_take,
    Nat.sub_eq_zero_of_le ha, Nat.sub_eq_zero_of_le hb] at h
  simpa using h

theorem labelFam_inj {p : List Char} {k k' : Nat}
    (h1 : p ∈ labelFam k) (h2 : p ∈ labelFam k') : k = k' := by
  simp only [labelFam, List.mem_cons, List.not_mem_nil, or_false] at h1 h2
  rcases h1 with h1 | h1 | h1 | h1 | h1 <;> rcases h2 with h2 | h2 | h2 | h2 | h2 <;>
    (have he := h1.symm.trans h2
     simp only [famWE, famWEnd, famIT, famIF, famIE] at he) <;>
    first
      | (have hv := congrArg charsVal (List.append_cancel_left he)
         rwa [charsVal_natStr, charsVal_natStr] at hv)
      | exact absurd (fam_take_eq he 6 (by decide) (by decide)) (by decide)
      | exact absurd (fam_take_eq he 8 (by decide) (by decide)) (by decide)

theorem famWE_mem (k : Nat) : famWE k ∈ labelFam k := by simp [labelFam]

theorem famWEnd_mem (k : Nat) : famWEnd k ∈ labelFam k := by simp [labelFam]

theorem famIT_mem (k : Nat) : famIT k ∈ labelFam k := by simp [labelFam]

theorem famIF_mem (k : Nat) : famIF k ∈ labelFam k := by simp [labelFam]

theorem famIE_mem (k : Nat) : famIE k ∈ labelFam k := by simp [labelFam]

theorem famWE_ne_famWEnd (k : Nat) : famWE k ≠ famWEnd k := by
  intro he
  simp only [famWE, famWEnd] at he
  exact absurd (fam_take_eq he 8 (by decide) (by decide)) (by decide)

theorem famIT_ne_famIF (k : Nat) : famIT k ≠ famIF k := by
  intro he
  simp only [famIT, famIF] at he
  exact absurd (fam_take_eq he 6 (by decide) (by decide)) (by decide)

theorem famIT_ne_famIE (k : Nat) : famIT k ≠ famIE k := by
  intro he
  simp only [famIT, famIE] at he
  exact absurd (fam_take_eq he 6 (by decide) (by decide)) (by decide)

theorem famIF_ne_famIE (k : Nat) : famIF k ≠ famIE k := by
  intro he
  simp only [famIF, famIE] at he
  exact absurd (fam_take_eq he 6 (by decide) (by decide)) (by decide)

theorem goodCode_nil (a b : Nat) : GoodCode a b [] := by
  refine ⟨List.nodup_nil, ?_, ?_⟩ <;> intro p hp <;>
    simp [labelPayloads_nil, gotoPayloads_nil] at hp

theorem goodCode_mono {a b a' b' : Nat} {code : List String}
    (h : GoodCode a b code) (ha : a' ≤ a) (hb : b ≤ b') : GoodCode a' b' code := by
  obtain ⟨h1, h2, h3⟩ := h
  refine ⟨h1, ?_, h3⟩
  intro p hp
  obtain ⟨k, hk1, hk2, hk3⟩ := h2 p hp
  exact ⟨k, by omega, by omega, hk3⟩

theorem labels_disjoint {a b a' b' : Nat} {c1 c2 : List String}
    (h1 : GoodCode a b c1) (h2 : GoodCode a' b' c2) (hd : b ≤ a') :
    List.Disjoint (labelPayloads c1) (labelPayloads c2) := by
  intro p hp1 hp2
  obtain ⟨k, hk1, hk2, hk3⟩ := h1.2.1 p hp1
  obtain ⟨k', hl1, hl2, hl3⟩ := h2.2.1 p hp2
  have := labelFam_inj hk3 hl3
  omega

theorem label_notMem {a b k : Nat} {p : List Char} {code : List String}
    (h : GoodCode a b code) (hp : p ∈ labelFam k) (hk : k < a ∨ b ≤ k) :
    p ∉ labelPayloads code := by
  intro hmem
  obtain ⟨k', hk1, hk2, hk3⟩ := h.2.1 p hmem
  have := labelFam_inj hp hk3
  omega

theorem goodCode_append {a b c : Nat} {c1 c2 : List String}
    (h1 : GoodCode a b c1) (h2 : GoodCode b c c2) (hab : a ≤ b) (hbc : b ≤ c) :
    GoodCode a c (c1 ++ c2) := by
  refine ⟨?_, ?_, ?_⟩
  · rw [labelPayloads_append, List.nodup_append]
    exact ⟨h1.1, h2.1, labels_disjoint h1 h2 le_rfl⟩
  · intro p hp
    rw [labelPayloads_append, List.mem_append] at hp
    rcases hp with hp | hp
    · obtain ⟨k, hk1, hk2, hk3⟩ := h1.2.1 p hp
      exact ⟨k, hk1, by omega, hk3⟩
    · obtain ⟨k, hk1, hk2, hk3⟩ := h2.2.1 p hp
      exact ⟨k, by omega, hk2, hk3⟩
  · intro p hp
    rw [gotoPayloads_append, List.mem_append] at hp
    rw [labelPayloads_append, List.mem_append]
    rcases hp with hp | hp
    · exact Or.inl (h1.2.2 p hp)
    · exact Or.inr (h2.2.2 p hp)

theorem goodCode_plain (a b : Nat) {s : String} (hs : PlainLine s) :
    GoodCode a b [s] := by
  refine ⟨?_, ?_, ?_⟩
  · rw [hs.1]
    exact List.nodup_nil
  · intro p hp
    rw [hs.1] at hp
    simp at hp
  · intro p hp
    rw [hs.2] at hp
    simp at hp

theorem goodCode_plain_cons {a b : Nat} {s : String} {code : List String}
    (hs : PlainLine s) (h : GoodCode a b code) (hab : a ≤ b) :
    GoodCode a b (s :: code) :=
  goodCode_append (goodCode_plain a a hs) h le_rfl hab

theorem goodCode_plains {a b : Nat} {code : List String} (ps : List String)
    (hps : ∀ s ∈ ps, PlainLine s) (h : GoodCode a b code) (hab : a ≤ b) :
    GoodCode a b (ps ++ code) := by
  induction ps with
  | nil => simpa using h
  | cons s rest ih =>
    rw [show (s :: rest) ++ code = s :: (rest ++ code) from rfl]
    exact goodCode_plain_cons (hps s (List.mem_cons_self s rest))
      (ih (fun x hx => hps x (List.mem_cons_of_mem s hx))) hab

theorem goodCode_all_plain (a b : Nat) (ps : List String)
    (hps : ∀ s ∈ ps, PlainLine s) (hab : a ≤ b) : GoodCode a b ps := by
  have h := goodCode_plains ps hps (goodCode_nil a b) hab
  simpa using h

theorem goodCode_snoc_plain {a b : Nat} {s : String} {code : List String}
    (h : GoodCode a b code) (hs : PlainLine s) (hab : a ≤ b) :
    GoodCode a b (code ++ [s]) :=
  goodCode_append h (goodCode_plain b b hs) hab le_rfl

/-! ### C7 — every non-control emitted line is plain -/

theorem plainLine_concrete {s : String}
    (h1 : labelPayloads [s] = []) (h2 : gotoPayloads [s] = []) : PlainLine s :=
  ⟨h1, h2⟩

theorem plainLine_of_head {s : String} {c : Char} {tl : List Char}
    (hd : s.data = c :: tl) (h1 : c ≠ 'l') (h2 : c ≠ 'g') (h3 : c ≠ 'i') :
    PlainLine s := by
  have hL : ¬ s.data.take 6 = "label ".data := by
    rw [hd]
    show ¬ c :: tl.take 5 = "label ".data
    intro he
    rw [(by decide : "label ".data = 'l' :: "abel ".data)] at he
    injection he with he1 he2
    exact h1 he1
  have hG : ¬ s.data.take 5 = "goto ".data := by
    rw [hd]
    show ¬ c :: tl.take 4 = "goto ".data
    intro he
    rw [(by decide : "goto ".data = 'g' :: "oto ".data)] at he
    injection he with he1 he2
    exact h2 he1
  have hI : ¬ s.data.take 8 = "if-goto ".data := by
    rw [hd]
    show ¬ c :: tl.take 7 = "if-goto ".data
    intro he
    rw [(by decide : "if-goto ".data = 'i' :: "f-goto ".data)] at he
    injection he with he1 he2
    exact h3 he1
  exact ⟨by rw [labelPayloads_single, if_neg hL],
    by rw [gotoPayloads_single, if_neg hG, if_neg hI]⟩

theorem head_app {a : String} {c : Char} {tl : List Char} (b : String)
    (h : a.data = c :: tl) : (a ++ b).data = c :: (tl ++ b.data) := by
  rw [String.data_append, h]
  rfl

theorem push_constant_plain (v : String) : PlainLine ("push constant " ++ v) := by
  have h1 := head_app v
    ((by decide : "push constant ".data = 'p' :: "ush constant ".data))
  exact plainLine_of_head h1 (by decide) (by decide) (by decide)

theorem get_push_plain {st : SymbolTable} {n p : String}
    (h : st.get_push n = .ok p) : PlainLine p := by
  unfold SymbolTable.get_push at h
  cases hg : st.get n with
  | error e =>
    rw [hg, error_bind] at h
    exact absurd h (by simp)
  | ok s =>
    rw [hg, ok_bind] at h
    injection h with h2
    rw [← h2]
    have h0 : "push ".data = 'p' :: "ush ".data := by decide
    have ha := head_app s.get_type_as_str h0
    have hb := head_app " " ha
    have hc := head_app (natStr s.get_position) hb
    exact plainLine_of_head hc (by decide) (by decide) (by decide)

theorem get_pop_plain {st : SymbolTable} {n p : String}
    (h : st.get_pop n = .ok p) : PlainLine p := by
  unfold SymbolTable.get_pop at h
  cases hg : st.get n with
  | error e =>
    rw [hg, error_bind] at h
    exact absurd h (by simp)
  | ok s =>
    rw [hg, ok_bind] at h
    injection h with h2
    rw [← h2]
    have h0 : "pop ".data = 'p' :: "op ".data := by decide
    have ha := head_app s.get_type_as_str h0
    have hb := head_app " " ha
    have hc := head_app (natStr s.get_position) hb
    exact plainLine_of_head hc (by decide) (by decide) (by decide)

theorem call_line_plain (n ai c : String) :
    PlainLine ("call " ++ n ++ "." ++ ai ++ " " ++ c) := by
  have h0 : "call ".data = 'c' :: "all ".data := by decide
  have h1 := head_app n h0
  have h2 := head_app "." h1
  have h3 := head_app ai h2
  have h4 := head_app " " h3
  have h5 := head_app c h4
  exact plainLine_of_head h5 (by decide) (by decide) (by decide)

theorem function_line_plain (cn nm c : String) :
    PlainLine ("function " ++ cn ++ "." ++ nm ++ " " ++ c) := by
  have h0 : "function ".data = 'f' :: "unction ".data := by decide
  have h1 := head_app cn h0
  have h2 := head_app "." h1
  have h3 := head_app nm h2
  have h4 := head_app " " h3
  have h5 := head_app c h4
  exact plainLine_of_head h5 (by decide) (by decide) (by decide)

theorem exprOp_plain {op : TokenTreeItem} {o : String}
    (h : build_expression_op op = .ok o) : PlainLine o := by
  unfold build_expression_op at h
  cases hv : op.itemValue with
  | error e =>
    rw [hv, error_bind] at h
    exact absurd h (by simp)
  | ok v =>
    rw [hv, ok_bind] at h
    split_ifs at h
    all_goals
      injection h with h2
      rw [← h2]
      exact plainLine_concrete (by decide) (by decide)

/-! ### C7 — the walking loops preserve label soundness -/

theorem buildFold_ok {bld : Builder} (hb : BuilderOk bld) :
    ∀ (l : List TokenTreeItem) (w : VmWriter) (code : List String) (w' : VmWriter),
      buildFold bld w l = .ok (code, w') →
      w.current_id ≤ w'.current_id ∧ GoodCode w.current_id w'.current_id code
  | [], w, code, w', h => by
    unfold buildFold at h
    injection h with h2
    injection h2 with hc hw
    subst hc
    subst hw
    exact ⟨le_rfl, goodCode_nil _ _⟩
  | t :: rest, w, code, w', h => by
    unfold buildFold at h
    cases h1 : bld w t with
    | error e =>
      simp only [h1, error_bind] at h
      exact absurd h (by simp)
    | ok p =>
      obtain ⟨c1, w1⟩ := p
      simp only [h1, ok_bind] at h
      cases h2 : buildFold bld w1 rest with
      | error e =>
        simp only [h2, error_bind] at h
        exact absurd h (by simp)
      | ok q =>
        obtain ⟨cs, w2⟩ := q
        simp only [h2, ok_bind] at h
        injection h with h3
        injection h3 with hc hw
        subst hc
        subst hw
        obtain ⟨le1, g1⟩ := hb w t c1 w1 h1
        obtain ⟨le2, g2⟩ := buildFold_ok hb rest w1 cs w2 h2
        exact ⟨le_trans le1 le2, goodCode_append g1 g2 le1 le2⟩

theorem buildEvens_ok {bld : Builder} (hb : BuilderOk bld) :
    ∀ (l : List TokenTreeItem) (w : VmWriter) (code : List String) (w' : VmWriter),
      buildEvens bld w l = .ok (code, w') →
      w.current_id ≤ w'.current_id ∧ GoodCode w.current_id w'.current_id code
  | [], w, code, w', h => by
    unfold buildEvens at h
    injection h with h2
    injection h2 with hc hw
    subst hc
    subst hw
    exact ⟨le_rfl, goodCode_nil _ _⟩
  | [t], w, code, w', h => by
    unfold buildEvens at h
    cases h1 : bld w t with
    | error e =>
      simp only [h1, error_bind] at h
      exact absurd h (by simp)
    | ok p =>
      obtain ⟨c1, w1⟩ := p
      simp only [h1, ok_bind] at h
      injection h with h3
      injection h3 with hc hw
      subst hc
      subst hw
      exact hb w t c1 w1 h1
  | t :: u :: rest, w, code, w', h => by
    unfold buildEvens at h
    cases h1 : bld w t with
    | error e =>
      simp only [h1, error_bind] at h
      exact absurd h (by simp)
    | ok p =>
      obtain ⟨c1, w1⟩ := p
      simp only [h1, ok_bind] at h
      cases h2 : buildEvens bld w1 rest with
      | error e =>
        simp only [h2, error_bind] at h
        exact absurd h (by simp)
      | ok q =>
        obtain ⟨cs, w2⟩ := q
        simp only [h2, ok_bind] at h
        injection h with h3
        injection h3 with hc hw
        subst hc
        subst hw
        obtain ⟨le1, g1⟩ := hb w t c1 w1 h1
        obtain ⟨le2, g2⟩ := buildEvens_ok hb rest w1 cs w2 h2
        exact ⟨le_trans le1 le2, goodCode_append g1 g2 le1 le2⟩

theorem buildExprOps_ok {bld : Builder} (hb : BuilderOk bld) :
    ∀ (l : List TokenTreeItem) (w : VmWriter) (code : List String) (w' : VmWriter),
      buildExprOps bld w l = .ok (code, w') →
      w.current_id ≤ w'.current_id ∧ GoodCode w.current_id w'.current_id code
  | [], w, code, w', h => by
    unfold buildExprOps at h
    injection h with h2
    injection h2 with hc hw
    subst hc
    subst hw
    exact ⟨le_rfl, goodCode_nil _ _⟩
  | [t], w, code, w', h => by
    unfold buildExprOps at h
    exact absurd h (by simp)
  | op :: term :: rest, w, code, w', h => by
    unfold buildExprOps at h
    cases h1 : bld w term with
    | error e =>
      simp only [h1, error_bind] at h
      exact absurd h (by simp)
    | ok p =>
      obtain ⟨c1, w1⟩ := p
      simp only [h1, ok_bind] at h
      cases ho : build_expression_op op with
      | error e =>
        simp only [ho, error_bind] at h
        exact absurd h (by simp)
      | ok o =>
        simp only [ho, ok_bind] at h
        cases h2 : buildExprOps bld w1 rest with
        | error e =>
          simp only [h2, error_bind] at h
          exact absurd h (by simp)
        | ok q =>
          obtain ⟨cs, w2⟩ := q
          simp only [h2, ok_bind] at h
          injection h with h3
          injection h3 with hc hw
          subst hc
          subst hw
          obtain ⟨le1, g1⟩ := hb w term c1 w1 h1
          obtain ⟨le2, g2⟩ := buildExprOps_ok hb rest w1 cs w2 h2
          refine ⟨le_trans le1 le2, ?_⟩
          rw [List.append_assoc]
          exact goodCode_append g1
            (goodCode_plains [o] (by
              intro s hs
              rw [List.mem_singleton] at hs
              rw [hs]
              exact exprOp_plain ho) g2 le2) le1 le2

theorem callF_assemble {a b : Nat} (ps cs : List String) (n ai cnt : String)
    (hps : ∀ s ∈ ps, PlainLine s) (hcs : GoodCode a b cs) (hab : a ≤ b) :
    GoodCode a b (ps ++ cs ++ ["call " ++ n ++ "." ++ ai ++ " " ++ cnt]) := by
  rw [List.append_assoc]
  exact goodCode_plains ps hps
    (goodCode_snoc_plain hcs (call_line_plain n ai cnt) hab) hab

theorem subroutine_callF_ok {bld : Builder} (hb : BuilderOk bld) {w : VmWriter}
    {t : TokenTreeItem} {idt : String} {bi : Nat} {code : List String}
    {w' : VmWriter} (h : build_subroutine_callF bld w t idt bi = .ok (code, w')) :
    w.current_id ≤ w'.current_id ∧ GoodCode w.current_id w'.current_id code := by
  unfold build_subroutine_callF at h
  cases hai : t.valueAt bi with
  | error e =>
    simp only [hai, error_bind] at h
    exact absurd h (by simp)
  | ok ai =>
  simp only [hai, ok_bind] at h
  cases hel : t.getNode (bi + 2) with
  | error e =>
    simp only [hel, error_bind] at h
    exact absurd h (by simp)
  | ok el =>
  simp only [hel, ok_bind] at h
  by_cases hc : w.get_symbol_table.contains idt = true
  · rw [if_pos hc] at h
    cases hp : w.get_symbol_table.get_push idt with
    | error e =>
      simp only [hp, error_bind] at h
      exact absurd h (by simp)
    | ok p =>
    simp only [hp, ok_bind] at h
    cases hty : w.get_symbol_table.get_type idt with
    | error e =>
      simp only [hty, error_bind] at h
      exact absurd h (by simp)
    | ok ty =>
    simp only [hty, pure_eq_ok, ok_bind] at h
    by_cases hl : idt.length = 0
    · rw [if_pos hl] at h
      cases hcs : bld w el with
      | error e =>
        simp only [hcs, error_bind] at h
        exact absurd h (by simp)
      | ok q =>
      obtain ⟨cs, w1⟩ := q
      simp only [hcs, ok_bind] at h
      injection h with h3
      injection h3 with hcode hw
      subst hcode
      subst hw
      obtain ⟨le1, g1⟩ := hb w el cs w1 hcs
      refine ⟨le1, callF_assemble _ _ _ _ _ ?_ g1 le1⟩
      intro s hs
      simp only [List.mem_append, List.mem_cons, List.not_mem_nil, or_false] at hs
      rcases hs with hs | hs
      · rw [hs]
        exact get_push_plain hp
      · rw [hs]
        exact plainLine_concrete (by decide) (by decide)
    · rw [if_neg hl] at h
      cases hcs : bld w el with
      | error e =>
        simp only [hcs, error_bind] at h
        exact absurd h (by simp)
      | ok q =>
      obtain ⟨cs, w1⟩ := q
      simp only [hcs, ok_bind] at h
      injection h with h3
      injection h3 with hcode hw
      subst hcode
      subst hw
      obtain ⟨le1, g1⟩ := hb w el cs w1 hcs
      refine ⟨le1, callF_assemble _ _ _ _ _ ?_ g1 le1⟩
      intro s hs
      simp only [List.mem_cons, List.not_mem_nil, or_false] at hs
      rw [hs]
      exact get_push_plain hp
  · rw [if_neg hc] at h
    simp only [pure_eq_ok, ok_bind] at h
    by_cases hl : idt.length = 0
    · rw [if_pos hl] at h
      cases hcs : bld w el with
      | error e =>
        simp only [hcs, error_bind] at h
        exact absurd h (by simp)
      | ok q =>
      obtain ⟨cs, w1⟩ := q
      simp only [hcs, ok_bind] at h
      injection h with h3
      injection h3 with hcode hw
      subst hcode
      subst hw
      obtain ⟨le1, g1⟩ := hb w el cs w1 hcs
      refine ⟨le1, callF_assemble _ _ _ _ _ ?_ g1 le1⟩
      intro s hs
      simp only [List.nil_append, List.mem_cons, List.not_mem_nil, or_false] at hs
      rw [hs]
      exact plainLine_concrete (by decide) (by decide)
    · rw [if_neg hl] at h
      cases hcs : bld w el with
      | error e =>
        simp only [hcs, error_bind] at h
        exact absurd h (by simp)
      | ok q =>
      obtain ⟨cs, w1⟩ := q
      simp only [hcs, ok_bind] at h
      injection h with h3
      injection h3 with hcode hw
      subst hcode
      subst hw
      obtain ⟨le1, g1⟩ := hb w el cs w1 hcs
      refine ⟨le1, callF_assemble _ _ _ _ _ ?_ g1 le1⟩
      intro s hs
      simp at hs

/-! ### C7 — each dispatch branch preserves label soundness -/

theorem expressionF_ok {bld : Builder} (hb : BuilderOk bld) {w : VmWriter}
    {t : TokenTreeItem} {code : List String} {w' : VmWriter}
    (h : build_expressionF bld w t = .ok (code, w')) :
    w.current_id ≤ w'.current_id ∧ GoodCode w.current_id w'.current_id code := by
  unfold build_expressionF at h
  cases hv : validate_name t "expression" with
  | error e =>
    simp only [hv, error_bind] at h
    exact absurd h (by simp)
  | ok u =>
  simp only [hv, ok_bind] at h
  cases h0 : t.getNode 0 with
  | error e =>
    simp only [h0, error_bind] at h
    exact absurd h (by simp)
  | ok t0 =>
  simp only [h0, ok_bind] at h
  cases h1 : bld w t0 with
  | error e =>
    simp only [h1, error_bind] at h
    exact absurd h (by simp)
  | ok p =>
  obtain ⟨c0, w1⟩ := p
  simp only [h1, ok_bind] at h
  cases h2 : buildExprOps bld w1 (t.get_nodes.drop 1) with
  | error e =>
    simp only [h2, error_bind] at h
    exact absurd h (by simp)
  | ok q =>
  obtain ⟨cs, w2⟩ := q
  simp only [h2, ok_bind] at h
  injection h with h3
  injection h3 with hcode hw
  subst hcode
  subst hw
  obtain ⟨le1, g1⟩ := hb w t0 c0 w1 h1
  obtain ⟨le2, g2⟩ := buildExprOps_ok hb _ w1 cs w2 h2
  exact ⟨le_trans le1 le2, goodCode_append g1 g2 le1 le2⟩

theorem statementsF_ok {bld : Builder} (hb : BuilderOk bld) {w : VmWriter}
    {t : TokenTreeItem} {code : List String} {w' : VmWriter}
    (h : build_statementsF bld w t = .ok (code, w')) :
    w.current_id ≤ w'.current_id ∧ GoodCode w.current_id w'.current_id code := by
  unfold build_statementsF at h
  cases hv : validate_name t "statements" with
  | error e =>
    simp only [hv, error_bind] at h
    exact absurd h (by simp)
  | ok u =>
  simp only [hv, ok_bind] at h
  exact buildFold_ok hb _ w code w' h

theorem expression_listF_ok {bld : Builder} (hb : BuilderOk bld) {w : VmWriter}
    {t : TokenTreeItem} {code : List String} {w' : VmWriter}
    (h : build_expression_listF bld w t = .ok (code, w')) :
    w.current_id ≤ w'.current_id ∧ GoodCode w.current_id w'.current_id code := by
  unfold build_expression_listF at h
  cases hv : validate_name t "expressionList" with
  | error e =>
    simp only [hv, error_bind] at h
    exact absurd h (by simp)
  | ok u =>
  simp only [hv, ok_bind] at h
  exact buildEvens_ok hb _ w code w' h

theorem subroutine_bodyF_ok {bld : Builder} (hb : BuilderOk bld) {w : VmWriter}
    {t : TokenTreeItem} {code : List String} {w' : VmWriter}
    (h : build_subroutine_bodyF bld w t = .ok (code, w')) :
    w.current_id ≤ w'.current_id ∧ GoodCode w.current_id w'.current_id code := by
  unfold build_subroutine_bodyF at h
  cases hv : validate_name t "subroutineBody" with
  | error e =>
    simp only [hv, error_bind] at h
    exact absurd h (by simp)
  | ok u =>
  simp only [hv, ok_bind] at h
  exact buildFold_ok hb _ w code w' h

theorem returnF_ok {bld : Builder} (hb : BuilderOk bld) {w : VmWriter}
    {t : TokenTreeItem} {code : List String} {w' : VmWriter}
    (h : build_returnF bld w t = .ok (code, w')) :
    w.current_id ≤ w'.current_id ∧ GoodCode w.current_id w'.current_id code := by
  unfold build_returnF at h
  cases hv : validate_name t "returnStatement" with
  | error e =>
    simp only [hv, error_bind] at h
    exact absurd h (by simp)
  | ok u =>
  simp only [hv, ok_bind] at h
  by_cases h3 : t.get_nodes.length = 3
  · rw [if_pos h3] at h
    cases he : t.getNode 1 with
    | error e =>
      simp only [he, error_bind] at h
      exact absurd h (by simp)
    | ok e1 =>
    simp only [he, ok_bind] at h
    cases h1 : bld w e1 with
    | error e =>
      simp only [h1, error_bind] at h
      exact absurd h (by simp)
    | ok p =>
    obtain ⟨c, w1⟩ := p
    simp only [h1, ok_bind] at h
    injection h with h4
    injection h4 with hcode hw
    subst hcode
    subst hw
    obtain ⟨le1, g1⟩ := hb w e1 c w1 h1
    exact ⟨le1, goodCode_snoc_plain g1
      (plainLine_concrete (by decide) (by decide)) le1⟩
  · rw [if_neg h3] at h
    injection h with h4
    injection h4 with hcode hw
    subst hcode
    subst hw
    refine ⟨le_rfl, goodCode_all_plain _ _ _ ?_ le_rfl⟩
    intro s hs
    simp only [List.mem_cons, List.not_mem_nil, or_false] at hs
    rcases hs with hs | hs <;> rw [hs] <;>
      exact plainLine_concrete (by decide) (by decide)

theorem doF_ok {bld : Builder} (hb : BuilderOk bld) {w : VmWriter}
    {t : TokenTreeItem} {code : List String} {w' : VmWriter}
    (h : build_doF bld w t = .ok (code, w')) :
    w.current_id ≤ w'.current_id ∧ GoodCode w.current_id w'.current_id code := by
  unfold build_doF at h
  cases hv : validate_name t "doStatement" with
  | error e =>
    simp only [hv, error_bind] at h
    exact absurd h (by simp)
  | ok u =>
  simp only [hv, ok_bind] at h
  by_cases h8 : t.get_nodes.length = 8
  · rw [if_pos h8] at h
    cases hcn : t.valueAt 1 with
    | error e =>
      simp only [hcn, error_bind] at h
      exact absurd h (by simp)
    | ok cn =>
    simp only [hcn, ok_bind] at h
    cases hcall : build_subroutine_callF bld w t cn 3 with
    | error e =>
      simp only [hcall, error_bind] at h
      exact absurd h (by simp)
    | ok q =>
    obtain ⟨c, w1⟩ := q
    simp only [hcall, ok_bind] at h
    injection h with h4
    injection h4 with hcode hw
    subst hcode
    subst hw
    obtain ⟨le1, g1⟩ := subroutine_callF_ok hb hcall
    exact ⟨le1, goodCode_snoc_plain g1
      (plainLine_concrete (by decide) (by decide)) le1⟩
  · rw [if_neg h8] at h
    cases hcall : build_subroutine_callF bld w t "" 1 with
    | error e =>
      simp only [hcall, error_bind] at h
      exact absurd h (by simp)
    | ok q =>
    obtain ⟨c, w1⟩ := q
    simp only [hcall, ok_bind] at h
    injection h with h4
    injection h4 with hcode hw
    subst hcode
    subst hw
    obtain ⟨le1, g1⟩ := subroutine_callF_ok hb hcall
    exact ⟨le1, goodCode_snoc_plain g1
      (plainLine_concrete (by decide) (by decide)) le1⟩

theorem letF_ok {bld : Builder} (hb : BuilderOk bld) {w : VmWriter}
    {t : TokenTreeItem} {code : List String} {w' : VmWriter}
    (h : build_letF bld w t = .ok (code, w')) :
    w.current_id ≤ w'.current_id ∧ GoodCode w.current_id w'.current_id code := by
  unfold build_letF at h
  cases hv : validate_name t "letStatement" with
  | error e =>
    simp only [hv, error_bind] at h
    exact absurd h (by simp)
  | ok u =>
  simp only [hv, ok_bind] at h
  by_cases h5 : t.get_nodes.length = 5
  · rw [if_pos h5] at h
    cases he : t.getNode 3 with
    | error e =>
      simp only [he, error_bind] at h
      exact absurd h (by simp)
    | ok e3 =>
    simp only [he, ok_bind] at h
    cases h1 : bld w e3 with
    | error e =>
      simp only [h1, error_bind] at h
      exact absurd h (by simp)
    | ok p =>
    obtain ⟨c, w1⟩ := p
    simp only [h1, ok_bind] at h
    cases hid : t.valueAt 1 with
    | error e =>
      simp only [hid, error_bind] at h
      exact absurd h (by simp)
    | ok idn =>
    simp only [hid, ok_bind] at h
    cases hp : w1.get_symbol_table.get_pop idn with
    | error e =>
      simp only [hp, error_bind] at h
      exact absurd h (by simp)
    | ok pp =>
    simp only [hp, ok_bind] at h
    injection h with h4
    injection h4 with hcode hw
    subst hcode
    subst hw
    obtain ⟨le1, g1⟩ := hb w e3 c w1 h1
    exact ⟨le1, goodCode_snoc_plain g1 (get_pop_plain hp) le1⟩
  · rw [if_neg h5] at h
    by_cases h8 : t.get_nodes.length = 8
    · rw [if_pos h8] at h
      cases hid : t.valueAt 1 with
      | error e =>
        simp only [hid, error_bind] at h
        exact absurd h (by simp)
      | ok idn =>
      simp only [hid, ok_bind] at h
      cases hp : w.get_symbol_table.get_push idn with
      | error e =>
        simp only [hp, error_bind] at h
        exact absurd h (by simp)
      | ok pp =>
      simp only [hp, ok_bind] at h
      cases he3 : t.getNode 3 with
      | error e =>
        simp only [he3, error_bind] at h
        exact absurd h (by simp)
      | ok e3 =>
      simp only [he3, ok_bind] at h
      cases h1 : bld w e3 with
      | error e =>
        simp only [h1, error_bind] at h
        exact absurd h (by simp)
      | ok p =>
      obtain ⟨c1, w1⟩ := p
      simp only [h1, ok_bind] at h
      cases he6 : t.getNode 6 with
      | error e =>
        simp only [he6, error_bind] at h
        exact absurd h (by simp)
      | ok e6 =>
      simp only [he6, ok_bind] at h
      cases h2 : bld w1 e6 with
      | error e =>
        simp only [h2, error_bind] at h
        exact absurd h (by simp)
      | ok q =>
      obtain ⟨c2, w2⟩ := q
      simp only [h2, ok_bind] at h
      injection h with h4
      injection h4 with hcode hw
      subst hcode
      subst hw
      obtain ⟨le1, g1⟩ := hb w e3 c1 w1 h1
      obtain ⟨le2, g2⟩ := hb w1 e6 c2 w2 h2
      refine ⟨le_trans le1 le2, ?_⟩
      simp only [List.append_assoc]
      refine goodCode_plains [pp] ?_ ?_ (le_trans le1 le2)
      · intro s hs
        simp only [List.mem_cons, List.not_mem_nil, or_false] at hs
        rw [hs]
        exact get_push_plain hp
      · refine goodCode_append g1 ?_ le1 le2
        refine goodCode_plains ["add"] ?_ ?_ le2
        · intro s hs
          simp only [List.mem_cons, List.not_mem_nil, or_false] at hs
          rw [hs]
          exact plainLine_concrete (by decide) (by decide)
        · refine goodCode_append g2 (goodCode_all_plain _ _ _ ?_ le_rfl) le2 le_rfl
          intro s hs
          simp only [List.mem_cons, List.not_mem_nil, or_false] at hs
          rcases hs with hs | hs | hs | hs <;> rw [hs] <;>
            exact plainLine_concrete (by decide) (by decide)
    · rw [if_neg h8] at h
      exact absurd h (by simp)

theorem termF_ok {bld : Builder} (hb : BuilderOk bld) {w : VmWriter}
    {t : TokenTreeItem} {code : List String} {w' : VmWriter}
    (h : build_termF bld w t = .ok (code, w')) :
    w.current_id ≤ w'.current_id ∧ GoodCode w.current_id w'.current_id code := by
  unfold build_termF at h
  cases hv : validate_name t "term" with
  | error e =>
    simp only [hv, error_bind] at h
    exact absurd h (by simp)
  | ok u =>
  simp only [hv, ok_bind] at h
  cases hn0 : t.getNode 0 with
  | error e =>
    simp only [hn0, error_bind] at h
    exact absurd h (by simp)
  | ok n0 =>
  simp only [hn0, ok_bind] at h
  cases hit : n0.get_item with
  | none =>
    simp only [hit] at h
    exact absurd h (by simp)
  | some item =>
  simp only [hit] at h
  cases hty : item.get_type with
  | Integer =>
    simp only [hty] at h
    injection h with h4
    injection h4 with hcode hw
    subst hcode
    subst hw
    refine ⟨le_rfl, goodCode_all_plain _ _ _ ?_ le_rfl⟩
    intro s hs
    simp only [List.mem_cons, List.not_mem_nil, or_false] at hs
    rw [hs]
    exact push_constant_plain _
  | String =>
    simp only [hty] at h
    injection h with h4
    injection h4 with hcode hw
    subst hcode
    subst hw
    refine ⟨le_rfl, goodCode_all_plain _ _ _ ?_ le_rfl⟩
    intro s hs
    rw [List.mem_append] at hs
    rcases hs with hs | hs
    · simp only [List.mem_cons, List.not_mem_nil, or_false] at hs
      rcases hs with hs | hs
      · rw [hs]
        exact push_constant_plain _
      · rw [hs]
        exact plainLine_concrete (by decide) (by decide)
    · rw [List.mem_flatMap] at hs
      obtain ⟨ch, hch, hmem⟩ := hs
      simp only [List.mem_cons, List.not_mem_nil, or_false] at hmem
      rcases hmem with hm | hm
      · rw [hm]
        exact push_constant_plain _
      · rw [hm]
        exact plainLine_concrete (by decide) (by decide)
  | Identifier =>
    simp only [hty] at h
    by_cases h4 : t.get_nodes.length = 4
    · rw [if_pos h4] at h
      cases hs1 : t.valueAt 1 with
      | error e =>
        simp only [hs1, error_bind] at h
        exact absurd h (by simp)
      | ok s1 =>
      simp only [hs1, ok_bind] at h
      by_cases hbr : s1 = "["
      · rw [if_pos hbr] at h
        cases hp : w.get_symbol_table.get_push item.get_value with
        | error e =>
          simp only [hp, error_bind] at h
          exact absurd h (by simp)
        | ok p =>
        simp only [hp, ok_bind] at h
        cases hn2 : t.getNode 2 with
        | error e =>
          simp only [hn2, error_bind] at h
          exact absurd h (by simp)
        | ok t2 =>
        simp only [hn2, ok_bind] at h
        cases h1 : bld w t2 with
        | error e =>
          simp only [h1, error_bind] at h
          exact absurd h (by simp)
        | ok q =>
        obtain ⟨c, w1⟩ := q
        simp only [h1, ok_bind] at h
        injection h with h5
        injection h5 with hcode hw
        subst hcode
        subst hw
        obtain ⟨le1, g1⟩ := hb w t2 c w1 h1
        refine ⟨le1, ?_⟩
        simp only [List.append_assoc]
        refine goodCode_plains [p] ?_ ?_ le1
        · intro s hs
          simp only [List.mem_cons, List.not_mem_nil, or_false] at hs
          rw [hs]
          exact get_push_plain hp
        · refine goodCode_append g1 (goodCode_all_plain _ _ _ ?_ le_rfl) le1 le_rfl
          intro s hs
          simp only [List.mem_cons, List.not_mem_nil, or_false] at hs
          rcases hs with hs | hs | hs <;> rw [hs] <;>
            exact plainLine_concrete (by decide) (by decide)
      · rw [if_neg hbr] at h
        exact subroutine_callF_ok hb h
    · rw [if_neg h4] at h
      by_cases h6 : t.get_nodes.length = 6
      · rw [if_pos h6] at h
        exact subroutine_callF_ok hb h
      · rw [if_neg h6] at h
        cases hp : w.get_symbol_table.get_push item.get_value with
        | error e =>
          simp only [hp, error_bind] at h
          exact absurd h (by simp)
        | ok p =>
        simp only [hp, ok_bind] at h
        injection h with h5
        injection h5 with hcode hw
        subst hcode
        subst hw
        refine ⟨le_rfl, goodCode_all_plain _ _ _ ?_ le_rfl⟩
        intro s hs
        simp only [List.mem_cons, List.not_mem_nil, or_false] at hs
        rw [hs]
        exact get_push_plain hp
  | Keyword =>
    simp only [hty] at h
    split_ifs at h
    all_goals first
      | (injection h with h4
         injection h4 with hcode hw
         subst hcode
         subst hw
         refine ⟨le_rfl, goodCode_all_plain _ _ _ ?_ le_rfl⟩
         intro s hs
         simp only [List.mem_cons, List.not_mem_nil, or_false] at hs
         first
           | (rcases hs with hs | hs <;> rw [hs] <;>
              exact plainLine_concrete (by decide) (by decide))
           | (rw [hs]
              exact plainLine_concrete (by decide) (by decide)))
      | exact absurd h (by simp)
  | Symbol =>
    simp only [hty] at h
    by_cases hm : item.get_value = "-"
    · rw [if_pos hm] at h
      cases hn1 : t.getNode 1 with
      | error e =>
        simp only [hn1, error_bind] at h
        exact absurd h (by simp)
      | ok t1 =>
      simp only [hn1, ok_bind] at h
      cases h1 : bld w t1 with
      | error e =>
        simp only [h1, error_bind] at h
        exact absurd h (by simp)
      | ok q =>
      obtain ⟨c, w1⟩ := q
      simp only [h1, ok_bind] at h
      injection h with h5
      injection h5 with hcode hw
      subst hcode
      subst hw
      obtain ⟨le1, g1⟩ := hb w t1 c w1 h1
      exact ⟨le1, goodCode_snoc_plain g1
        (plainLine_concrete (by decide) (by decide)) le1⟩
    · rw [if_neg hm] at h
      by_cases hti : item.get_value = "~"
      · rw [if_pos hti] at h
        cases hn1 : t.getNode 1 with
        | error e =>
          simp only [hn1, error_bind] at h
          exact absurd h (by simp)
        | ok t1 =>
        simp only [hn1, ok_bind] at h
        cases h1 : bld w t1 with
        | error e =>
          simp only [h1, error_bind] at h
          exact absurd h (by simp)
        | ok q =>
        obtain ⟨c, w1⟩ := q
        simp only [h1, ok_bind] at h
        injection h with h5
        injection h5 with hcode hw
        subst hcode
        subst hw
        obtain ⟨le1, g1⟩ := hb w t1 c w1 h1
        exact ⟨le1, goodCode_snoc_plain g1
          (plainLine_concrete (by decide) (by decide)) le1⟩
      · rw [if_neg hti] at h
        by_cases hpa : item.get_value = "("
        · rw [if_pos hpa] at h
          cases hn1 : t.getNode 1 with
          | error e =>
            simp only [hn1, error_bind] at h
            exact absurd h (by simp)
          | ok t1 =>
          simp only [hn1, ok_bind] at h
          exact hb w t1 code w' h
        · rw [if_neg hpa] at h
          exact absurd h (by simp)
  | None =>
    simp only [hty] at h
    exact absurd h (by simp)

theorem classF_ok {bld : Builder} (hb : BuilderOk bld) {w : VmWriter}
    {t : TokenTreeItem} {code : List String} {w' : VmWriter}
    (h : build_classF bld w t = .ok (code, w')) :
    w.current_id ≤ w'.current_id ∧ GoodCode w.current_id w'.current_id code := by
  unfold build_classF at h
  cases hv : validate_name t "class" with
  | error e =>
    simp only [hv, error_bind] at h
    exact absurd h (by simp)
  | ok u =>
  simp only [hv, ok_bind] at h
  by_cases h4 : t.get_nodes.length ≤ 4
  · rw [if_pos h4] at h
    injection h with h5
    injection h5 with hcode hw
    subst hcode
    subst hw
    exact ⟨le_rfl, goodCode_nil _ _⟩
  · rw [if_neg h4] at h
    cases hcn : t.valueAt 1 with
    | error e =>
      simp only [hcn, error_bind] at h
      exact absurd h (by simp)
    | ok cn =>
    simp only [hcn, ok_bind] at h
    exact buildFold_ok hb _ (w.set_class_name cn) code w' h

theorem subdec_assemble {a b c : Nat} (cn nm cnt : String) (pro ca cb : List String)
    (hpro : ∀ s ∈ pro, PlainLine s) (g1 : GoodCode a b ca) (g2 : GoodCode b c cb)
    (le1 : a ≤ b) (le2 : b ≤ c) :
    GoodCode a c
      (("function " ++ cn ++ "." ++ nm ++ " " ++ cnt) :: (pro ++ ca ++ cb)) := by
  refine goodCode_plain_cons (function_line_plain cn nm cnt) ?_ (le_trans le1 le2)
  rw [List.append_assoc]
  exact goodCode_plains pro hpro (goodCode_append g1 g2 le1 le2) (le_trans le1 le2)

theorem subroutine_decF_ok {bld : Builder} (hb : BuilderOk bld) {w : VmWriter}
    {t : TokenTreeItem} {code : List String} {w' : VmWriter}
    (h : build_subroutine_decF bld w t = .ok (code, w')) :
    w.current_id ≤ w'.current_id ∧ GoodCode w.current_id w'.current_id code := by
  unfold build_subroutine_decF at h
  cases hv : validate_name t "subroutineDec" with
  | error e =>
    simp only [hv, error_bind] at h
    exact absurd h (by simp)
  | ok u =>
  simp only [hv, ok_bind] at h
  cases hrt : t.valueAt 0 with
  | error e =>
    simp only [hrt, error_bind] at h
    exact absurd h (by simp)
  | ok rt =>
  simp only [hrt, ok_bind] at h
  cases hnm : t.valueAt 2 with
  | error e =>
    simp only [hnm, error_bind] at h
    exact absurd h (by simp)
  | ok nm =>
  simp only [hnm, ok_bind] at h
  cases hargs : t.getNode 4 with
  | error e =>
    simp only [hargs, error_bind] at h
    exact absurd h (by simp)
  | ok args =>
  simp only [hargs, ok_bind] at h
  cases hbody : t.getNode 6 with
  | error e =>
    simp only [hbody, error_bind] at h
    exact absurd h (by simp)
  | ok body =>
  simp only [hbody, ok_bind] at h
  cases hcl : countLocals (body.get_nodes.drop 1) with
  | error e =>
    simp only [hcl, error_bind] at h
    exact absurd h (by simp)
  | ok nl =>
  simp only [hcl, ok_bind] at h
  split_ifs at h
  all_goals try (simp only [error_bind] at h; exact absurd h (by simp))
  all_goals
    try simp only [ok_bind] at h
    cases hca : bld w args with
    | error e =>
      simp only [hca, error_bind] at h
      exact absurd h (by simp)
    | ok q1 =>
    obtain ⟨ca, w1⟩ := q1
    simp only [hca, ok_bind] at h
    cases hcb : bld w1 body with
    | error e =>
      simp only [hcb, error_bind] at h
      exact absurd h (by simp)
    | ok q2 =>
    obtain ⟨cb, w2⟩ := q2
    simp only [hcb, ok_bind] at h
    injection h with h5
    injection h5 with hcode hw
    subst hcode
    subst hw
    obtain ⟨le1, g1⟩ := hb w args ca w1 hca
    obtain ⟨le2, g2⟩ := hb w1 body cb w2 hcb
    refine ⟨le_trans le1 le2, subdec_assemble _ _ _ _ _ _ ?_ g1 g2 le1 le2⟩
    intro s hs
    simp only [List.mem_cons, List.not_mem_nil, or_false] at hs
    all_goals first
      | (rcases hs with hs | hs | hs <;> rw [hs] <;>
         first
           | exact push_constant_plain _
           | exact plainLine_concrete (by decide) (by decide))
      | (rcases hs with hs | hs <;> rw [hs] <;>
         exact plainLine_concrete (by decide) (by decide))
      | (rw [hs]
         exact plainLine_concrete (by decide) (by decide))

/-! ### C7 — the while and if templates are label-sound -/

theorem while_labels (k : Nat) (c1 c2 : List String) :
    labelPayloads (["label WHILE_EXP" ++ natStr k] ++ c1 ++
      ["not", "if-goto WHILE_END" ++ natStr k] ++ c2 ++
      ["goto WHILE_EXP" ++ natStr k, "label WHILE_END" ++ natStr k]) =
    famWE k :: (labelPayloads c1 ++ (labelPayloads c2 ++ [famWEnd k])) := by
  rw [labelPayloads_append, labelPayloads_append, labelPayloads_append,
    labelPayloads_append, labelPayloads_pair, labelPayloads_pair,
    lp_labelWE, lp_not, lp_igWEnd, lp_gWE, lp_labelWEnd]
  simp

theorem while_gotos (k : Nat) (c1 c2 : List String) :
    gotoPayloads (["label WHILE_EXP" ++ natStr k] ++ c1 ++
      ["not", "if-goto WHILE_END" ++ natStr k] ++ c2 ++
      ["goto WHILE_EXP" ++ natStr k, "label WHILE_END" ++ natStr k]) =
    gotoPayloads c1 ++ (famWEnd k :: (gotoPayloads c2 ++ [famWE k])) := by
  rw [gotoPayloads_append, gotoPayloads_append, gotoPayloads_append,
    gotoPayloads_append, gotoPayloads_pair, gotoPayloads_pair,
    gp_labelWE, gp_not, gp_igWEnd, gp_gWE, gp_labelWEnd]
  simp

theorem while_good {k b c : Nat} {c1 c2 : List String}
    (h1 : GoodCode (k + 1) b c1) (h2 : GoodCode b c c2)
    (hkb : k + 1 ≤ b) (hbc : b ≤ c) :
    GoodCode k c
      (["label WHILE_EXP" ++ natStr k] ++ c1 ++
        ["not", "if-goto WHILE_END" ++ natStr k] ++ c2 ++
        ["goto WHILE_EXP" ++ natStr k, "label WHILE_END" ++ natStr k]) := by
  refine ⟨?_, ?_, ?_⟩
  · rw [while_labels]
    refine List.nodup_cons.mpr ⟨?_, ?_⟩
    · intro hmem
      rw [List.mem_append] at hmem
      rcases hmem with hm | hm
      · exact label_notMem h1 (famWE_mem k) (by omega) hm
      · rw [List.mem_append, List.mem_singleton] at hm
        rcases hm with hm | hm
        · exact label_notMem h2 (famWE_mem k) (by omega) hm
        · exact famWE_ne_famWEnd k hm
    · rw [List.nodup_append]
      refine ⟨h1.1, ?_, ?_⟩
      · rw [List.nodup_append]
        refine ⟨h2.1, List.nodup_singleton _, ?_⟩
        intro p hp hp2
        rw [List.mem_singleton] at hp2
        subst hp2
        exact label_notMem h2 (famWEnd_mem k) (by omega) hp
      · intro p hp1 hp2
        rw [List.mem_append, List.mem_singleton] at hp2
        rcases hp2 with hp2 | hp2
        · exact labels_disjoint h1 h2 le_rfl hp1 hp2
        · subst hp2
          exact label_notMem h1 (famWEnd_mem k) (by omega) hp1
  · rw [while_labels]
    intro p hp
    rw [List.mem_cons] at hp
    rcases hp with hp | hp
    · exact ⟨k, le_rfl, by omega, by rw [hp]; exact famWE_mem k⟩
    · rw [List.mem_append] at hp
      rcases hp with hp | hp
      · obtain ⟨q, a1, a2, a3⟩ := h1.2.1 p hp
        exact ⟨q, by omega, by omega, a3⟩
      · rw [List.mem_append, List.mem_singleton] at hp
        rcases hp with hp | hp
        · obtain ⟨q, a1, a2, a3⟩ := h2.2.1 p hp
          exact ⟨q, by omega, by omega, a3⟩
        · exact ⟨k, le_rfl, by omega, by rw [hp]; exact famWEnd_mem k⟩
  · rw [while_labels, while_gotos]
    intro p hp
    rw [List.mem_append, List.mem_cons, List.mem_append, List.mem_singleton] at hp
    rw [List.mem_cons, List.mem_append, List.mem_append, List.mem_singleton]
    rcases hp with hp | hp | hp | hp
    · exact Or.inr (Or.inl (h1.2.2 p hp))
    · exact Or.inr (Or.inr (Or.inr hp))
    · exact Or.inr (Or.inr (Or.inl (h2.2.2 p hp)))
    · exact Or.inl hp

theorem whileF_ok {bld : Builder} (hb : BuilderOk bld) {w : VmWriter}
    {t : TokenTreeItem} {code : List String} {w' : VmWriter}
    (h : build_whileF bld w t = .ok (code, w')) :
    w.current_id ≤ w'.current_id ∧ GoodCode w.current_id w'.current_id code := by
  unfold build_whileF at h
  cases hv : validate_name t "whileStatement" with
  | error e =>
    simp only [hv, error_bind] at h
    exact absurd h (by simp)
  | ok u =>
  simp only [hv, ok_bind, VmWriter.get_next_id] at h
  cases hn2 : t.getNode 2 with
  | error e =>
    simp only [hn2, error_bind] at h
    exact absurd h (by simp)
  | ok e2 =>
  simp only [hn2, ok_bind] at h
  cases h1 : bld { w with current_id := w.current_id + 1 } e2 with
  | error e =>
    simp only [h1, error_bind] at h
    exact absurd h (by simp)
  | ok q1 =>
  obtain ⟨c1, w1⟩ := q1
  simp only [h1, ok_bind] at h
  cases hn5 : t.getNode 5 with
  | error e =>
    simp only [hn5, error_bind] at h
    exact absurd h (by simp)
  | ok e5 =>
  simp only [hn5, ok_bind] at h
  cases h2 : bld w1 e5 with
  | error e =>
    simp only [h2, error_bind] at h
    exact absurd h (by simp)
  | ok q2 =>
  obtain ⟨c2, w2⟩ := q2
  simp only [h2, ok_bind] at h
  injection h with h5
  injection h5 with hcode hw
  subst hcode
  subst hw
  obtain ⟨le1, g1⟩ := hb _ e2 c1 w1 h1
  obtain ⟨le2, g2⟩ := hb w1 e5 c2 w2 h2
  have hcur : ({ w with current_id := w.current_id + 1 } : VmWriter).current_id
      = w.current_id + 1 := rfl
  rw [hcur] at le1 g1
  exact ⟨by omega, while_good g1 g2 le1 le2⟩

theorem if7_labels (k : Nat) (c1 c2 : List String) :
    labelPayloads (c1 ++ ["if-goto IF_TRUE" ++ natStr k,
      "goto IF_FALSE" ++ natStr k, "label IF_TRUE" ++ natStr k] ++ c2 ++
      ["label IF_FALSE" ++ natStr k]) =
    labelPayloads c1 ++ (famIT k :: (labelPayloads c2 ++ [famIF k])) := by
  rw [labelPayloads_append, labelPayloads_append, labelPayloads_append,
    labelPayloads_triple, lp_igIT, lp_gIF, lp_labelIT, lp_labelIF]
  simp

theorem if7_gotos (k : Nat) (c1 c2 : List String) :
    gotoPayloads (c1 ++ ["if-goto IF_TRUE" ++ natStr k,
      "goto IF_FALSE" ++ natStr k, "label IF_TRUE" ++ natStr k] ++ c2 ++
      ["label IF_FALSE" ++ natStr k]) =
    gotoPayloads c1 ++ (famIT k :: (famIF k :: gotoPayloads c2)) := by
  rw [gotoPayloads_append, gotoPayloads_append, gotoPayloads_append,
    gotoPayloads_triple, gp_igIT, gp_gIF, gp_labelIT, gp_labelIF]
  simp

theorem if7_good {k b c : Nat} {c1 c2 : List String}
    (h1 : GoodCode (k + 1) b c1) (h2 : GoodCode b c c2)
    (hkb : k + 1 ≤ b) (hbc : b ≤ c) :
    GoodCode k c
      (c1 ++ ["if-goto IF_TRUE" ++ natStr k, "goto IF_FALSE" ++ natStr k,
        "label IF_TRUE" ++ natStr k] ++ c2 ++
        ["label IF_FALSE" ++ natStr k]) := by
  refine ⟨?_, ?_, ?_⟩
  · rw [if7_labels]
    rw [List.nodup_append]
    refine ⟨h1.1, ?_, ?_⟩
    · rw [List.nodup_cons]
      refine ⟨?_, ?_⟩
      · intro hm
        rw [List.mem_append, List.mem_singleton] at hm
        rcases hm with hm | hm
        · exact label_notMem h2 (famIT_mem k) (by omega) hm
        · exact famIT_ne_famIF k hm
      · rw [List.nodup_append]
        refine ⟨h2.1, List.nodup_singleton _, ?_⟩
        intro p hp1 hp2
        rw [List.mem_singleton] at hp2
        subst hp2
        exact label_notMem h2 (famIF_mem k) (by omega) hp1
    · intro p hp1 hp2
      rw [List.mem_cons, List.mem_append, List.mem_singleton] at hp2
      rcases hp2 with hp2 | hp2 | hp2
      · subst hp2
        exact label_notMem h1 (famIT_mem k) (by omega) hp1
      · exact labels_disjoint h1 h2 le_rfl hp1 hp2
      · subst hp2
        exact label_notMem h1 (famIF_mem k) (by omega) hp1
  · rw [if7_labels]
    intro p hp
    rw [List.mem_append, List.mem_cons, List.mem_append, List.mem_singleton] at hp
    rcases hp with hp | hp | hp | hp
    · obtain ⟨q, a1, a2, a3⟩ := h1.2.1 p hp
      exact ⟨q, by omega, by omega, a3⟩
    · exact ⟨k, le_rfl, by omega, by rw [hp]; exact famIT_mem k⟩
    · obtain ⟨q, a1, a2, a3⟩ := h2.2.1 p hp
      exact ⟨q, by omega, by omega, a3⟩
    · exact ⟨k, le_rfl, by omega, by rw [hp]; exact famIF_mem k⟩
  · rw [if7_labels, if7_gotos]
    intro p hp
    rw [List.mem_append, List.mem_cons, List.mem_cons] at hp
    rw [List.mem_append, List.mem_cons, List.mem_append, List.mem_singleton]
    rcases hp with hp | hp | hp | hp
    · exact Or.inl (h1.2.2 p hp)
    · exact Or.inr (Or.inl hp)
    · exact Or.inr (Or.inr (Or.inr hp))
    · exact Or.inr (Or.inr (Or.inl (h2.2.2 p hp)))

theorem ifE_labels (k : Nat) (c1 c2 c3 : List String) :
    labelPayloads (c1 ++ ["if-goto IF_TRUE" ++ natStr k,
      "goto IF_FALSE" ++ natStr k, "label IF_TRUE" ++ natStr k] ++ c2 ++
      ["goto IF_END" ++ natStr k, "label IF_FALSE" ++ natStr k] ++ c3 ++
      ["label IF_END" ++ natStr k]) =
    labelPayloads c1 ++ (famIT k :: (labelPayloads c2 ++
      (famIF k :: (labelPayloads c3 ++ [famIE k])))) := by
  rw [labelPayloads_append, labelPayloads_append, labelPayloads_append,
    labelPayloads_append, labelPayloads_append, labelPayloads_triple,
    labelPayloads_pair, lp_igIT, lp_gIF, lp_labelIT, lp_gIE, lp_labelIF,
    lp_labelIE]
  simp

theorem ifE_gotos (k : Nat) (c1 c2 c3 : List String) :
    gotoPayloads (c1 ++ ["if-goto IF_TRUE" ++ natStr k,
      "goto IF_FALSE" ++ natStr k, "label IF_TRUE" ++ natStr k] ++ c2 ++
      ["goto IF_END" ++ natStr k, "label IF_FALSE" ++ natStr k] ++ c3 ++
      ["label IF_END" ++ natStr k]) =
    gotoPayloads c1 ++ (famIT k :: (famIF k :: (gotoPayloads c2 ++
      (famIE k :: gotoPayloads c3)))) := by
  rw [gotoPayloads_append, gotoPayloads_append, gotoPayloads_append,
    gotoPayloads_append, gotoPayloads_append, gotoPayloads_triple,
    gotoPayloads_pair, gp_igIT, gp_gIF, gp_labelIT, gp_gIE, gp_labelIF,
    gp_labelIE]
  simp

theorem ifE_good {k b c d : Nat} {c1 c2 c3 : List String}
    (h1 : GoodCode (k + 1) b c1) (h2 : GoodCode b c c2) (h3 : GoodCode c d c3)
    (hkb : k + 1 ≤ b) (hbc : b ≤ c) (hcd : c ≤ d) :
    GoodCode k d
      (c1 ++ ["if-goto IF_TRUE" ++ natStr k, "goto IF_FALSE" ++ natStr k,
        "label IF_TRUE" ++ natStr k] ++ c2 ++
        ["goto IF_END" ++ natStr k, "label IF_FALSE" ++ natStr k] ++ c3 ++
        ["label IF_END" ++ natStr k]) := by
  refine ⟨?_, ?_, ?_⟩
  · rw [ifE_labels]
    rw [List.nodup_append]
    refine ⟨h1.1, ?_, ?_⟩
    · rw [List.nodup_cons]
      refine ⟨?_, ?_⟩
      · intro hm
        rw [List.mem_append, List.mem_cons, List.mem_append,
          List.mem_singleton] at hm
        rcases hm with hm | hm | hm | hm
        · exact label_notMem h2 (famIT_mem k) (by omega) hm
        · exact famIT_ne_famIF k hm
        · exact label_notMem h3 (famIT_mem k) (by omega) hm
        · exact famIT_ne_famIE k hm
      · rw [List.nodup_append]
        refine ⟨h2.1, ?_, ?_⟩
        · rw [List.nodup_cons]
          refine ⟨?_, ?_⟩
          · intro hm
            rw [List.mem_append, List.mem_singleton] at hm
            rcases hm with hm | hm
            · exact label_notMem h3 (famIF_mem k) (by omega) hm
            · exact famIF_ne_famIE k hm
          · rw [List.nodup_append]
            refine ⟨h3.1, List.nodup_singleton _, ?_⟩
            intro p hp1 hp2
            rw [List.mem_singleton] at hp2
            subst hp2
            exact label_notMem h3 (famIE_mem k) (by omega) hp1
        · intro p hp1 hp2
          rw [List.mem_cons, List.mem_append, List.mem_singleton] at hp2
          rcases hp2 with hp2 | hp2 | hp2
          · subst hp2
            exact label_notMem h2 (famIF_mem k) (by omega) hp1
          · exact labels_disjoint h2 h3 le_rfl hp1 hp2
          · subst hp2
            exact label_notMem h2 (famIE_mem k) (by omega) hp1
    · intro p hp1 hp2
      rw [List.mem_cons, List.mem_append, List.mem_cons, List.mem_append,
        List.mem_singleton] at hp2
      rcases hp2 with hp2 | hp2 | hp2 | hp2 | hp2
      · subst hp2
        exact label_notMem h1 (famIT_mem k) (by omega) hp1
      · exact labels_disjoint h1 h2 le_rfl hp1 hp2
      · subst hp2
        exact label_notMem h1 (famIF_mem k) (by omega) hp1
      · exact labels_disjoint h1 h3 hbc hp1 hp2
      · subst hp2
        exact label_notMem h1 (famIE_mem k) (by omega) hp1
  · rw [ifE_labels]
    intro p hp
    rw [List.mem_append, List.mem_cons, List.mem_append, List.mem_cons,
      List.mem_append, List.mem_singleton] at hp
    rcases hp with hp | hp | hp | hp | hp | hp
    · obtain ⟨q, a1, a2, a3⟩ := h1.2.1 p hp
      exact ⟨q, by omega, by omega, a3⟩
    · exact ⟨k, le_rfl, by omega, by rw [hp]; exact famIT_mem k⟩
    · obtain ⟨q, a1, a2, a3⟩ := h2.2.1 p hp
      exact ⟨q, by omega, by omega, a3⟩
    · exact ⟨k, le_rfl, by omega, by rw [hp]; exact famIF_mem k⟩
    · obtain ⟨q, a1, a2, a3⟩ := h3.2.1 p hp
      exact ⟨q, by omega, by omega, a3⟩
    · exact ⟨k, le_rfl, by omega, by rw [hp]; exact famIE_mem k⟩
  · rw [ifE_labels, ifE_gotos]
    intro p hp
    rw [List.mem_append, List.mem_cons, List.mem_cons, List.mem_append,
      List.mem_cons] at hp
    rw [List.mem_append, List.mem_cons, List.mem_append, List.mem_cons,
      List.mem_append, List.mem_singleton]
    rcases hp with hp | hp | hp | hp | hp | hp
    · exact Or.inl (h1.2.2 p hp)
    · exact Or.inr (Or.inl hp)
    · exact Or.inr (Or.inr (Or.inr (Or.inl hp)))
    · exact Or.inr (Or.inr (Or.inl (h2.2.2 p hp)))
    · exact Or.inr (Or.inr (Or.inr (Or.inr (Or.inr hp))))
    · exact Or.inr (Or.inr (Or.inr (Or.inr (Or.inl (h3.2.2 p hp)))))

theorem ifF_ok {bld : Builder} (hb : BuilderOk bld) {w : VmWriter}
    {t : TokenTreeItem} {code : List String} {w' : VmWriter}
    (h : build_ifF bld w t = .ok (code, w')) :
    w.current_id ≤ w'.current_id ∧ GoodCode w.current_id w'.current_id code := by
  unfold build_ifF at h
  cases hv : validate_name t "ifStatement" with
  | error e =>
    simp only [hv, error_bind] at h
    exact absurd h (by simp)
  | ok u =>
  simp only [hv, ok_bind, VmWriter.get_next_id] at h
  cases hn2 : t.getNode 2 with
  | error e =>
    simp only [hn2, error_bind] at h
    exact absurd h (by simp)
  | ok e2 =>
  simp only [hn2, ok_bind] at h
  cases h1 : bld { w with current_id := w.current_id + 1 } e2 with
  | error e =>
    simp only [h1, error_bind] at h
    exact absurd h (by simp)
  | ok q1 =>
  obtain ⟨c1, w1⟩ := q1
  simp only [h1, ok_bind] at h
  cases hn5 : t.getNode 5 with
  | error e =>
    simp only [hn5, error_bind] at h
    exact absurd h (by simp)
  | ok e5 =>
  simp only [hn5, ok_bind] at h
  cases h2 : bld w1 e5 with
  | error e =>
    simp only [h2, error_bind] at h
    exact absurd h (by simp)
  | ok q2 =>
  obtain ⟨c2, w2⟩ := q2
  simp only [h2, ok_bind] at h
  have hcur : ({ w with current_id := w.current_id + 1 } : VmWriter).current_id
      = w.current_id + 1 := rfl
  by_cases h7 : t.get_nodes.length = 7
  · rw [if_pos h7] at h
    injection h with h5
    injection h5 with hcode hw
    subst hcode
    subst hw
    obtain ⟨le1, g1⟩ := hb _ e2 c1 w1 h1
    obtain ⟨le2, g2⟩ := hb w1 e5 c2 w2 h2
    rw [hcur] at le1 g1
    exact ⟨by omega, if7_good g1 g2 le1 le2⟩
  · rw [if_neg h7] at h
    cases hn9 : t.getNode 9 with
    | error e =>
      simp only [hn9, error_bind] at h
      exact absurd h (by simp)
    | ok e9 =>
    simp only [hn9, ok_bind] at h
    cases h3 : bld w2 e9 with
    | error e =>
      simp only [h3, error_bind] at h
      exact absurd h (by simp)
    | ok q3 =>
    obtain ⟨c3, w3⟩ := q3
    simp only [h3, ok_bind] at h
    injection h with h5
    injection h5 with hcode hw
    subst hcode
    subst hw
    obtain ⟨le1, g1⟩ := hb _ e2 c1 w1 h1
    obtain ⟨le2, g2⟩ := hb w1 e5 c2 w2 h2
    obtain ⟨le3, g3⟩ := hb w2 e9 c3 w3 h3
    rw [hcur] at le1 g1
    exact ⟨by omega, ifE_good g1 g2 g3 le1 le2 le3⟩

/-! ### C7 — the full walk keeps the label invariant -/

theorem count_one_of_nodup_mem {α : Type} [BEq α] [LawfulBEq α] {l : List α}
    {a : α} (hn : l.Nodup) (ha : a ∈ l) : l.count a = 1 := by
  induction l with
  | nil => exact absurd ha (List.not_mem_nil a)
  | cons x xs ih =>
    rw [List.count_cons]
    rw [List.nodup_cons] at hn
    rcases List.mem_cons.mp ha with h | h
    · subst h
      have h0 : xs.count a = 0 := List.count_eq_zero.mpr hn.1
      rw [h0, if_pos (beq_self_eq_true a)]
    · have hax : ¬ (x == a) = true := by
        intro hax
        have hax2 : x = a := eq_of_beq hax
        subst hax2
        exact hn.1 h
      rw [if_neg hax, ih hn.2 h]

theorem builderOk_build : ∀ fuel : Nat, BuilderOk (VmWriter.build fuel) := by
  intro fuel
  induction fuel with
  | zero =>
    intro w t code w' hcall
    exact absurd hcall (by simp [VmWriter.build])
  | succ fuel ih =>
    intro w t code w' hcall
    cases hname : t.get_name with
    | none =>
      rw [build_eq_none hname] at hcall
      injection hcall with h2
      injection h2 with hc hw
      subst hc
      subst hw
      exact ⟨le_rfl, goodCode_nil _ _⟩
    | some g =>
      by_cases h1 : g = "expression"
      · subst h1
        rw [build_eq_expression hname] at hcall
        exact expressionF_ok ih hcall
      by_cases h2 : g = "term"
      · subst h2
        rw [build_eq_term hname] at hcall
        exact termF_ok ih hcall
      by_cases h3 : g = "statements"
      · subst h3
        rw [build_eq_statements hname] at hcall
        exact statementsF_ok ih hcall
      by_cases h4 : g = "letStatement"
      · subst h4
        rw [build_eq_let hname] at hcall
        exact letF_ok ih hcall
      by_cases h5 : g = "returnStatement"
      · subst h5
        rw [build_eq_return hname] at hcall
        exact returnF_ok ih hcall
      by_cases h6 : g = "doStatement"
      · subst h6
        rw [build_eq_do hname] at hcall
        exact doF_ok ih hcall
      by_cases h7 : g = "whileStatement"
      · subst h7
        rw [build_eq_while hname] at hcall
        exact whileF_ok ih hcall
      by_cases h8 : g = "ifStatement"
      · subst h8
        rw [build_eq_if hname] at hcall
        exact ifF_ok ih hcall
      by_cases h9 : g = "expressionList"
      · subst h9
        rw [build_eq_expression_list hname] at hcall
        exact expression_listF_ok ih hcall
      by_cases h10 : g = "class"
      · subst h10
        rw [build_eq_class hname] at hcall
        exact classF_ok ih hcall
      by_cases h11 : g = "classVarDec"
      · subst h11
        rw [build_eq_class_var_dec hname] at hcall
        cases hst : build_class_var_dec t w.class_symbol_table with
        | error e =>
          simp only [hst, error_bind] at hcall
          exact absurd hcall (by simp)
        | ok st =>
        simp only [hst, ok_bind] at hcall
        injection hcall with hp2
        injection hp2 with hc hw
        subst hc
        subst hw
        exact ⟨le_rfl, goodCode_nil _ _⟩
      by_cases h12 : g = "subroutineDec"
      · subst h12
        rw [build_eq_subroutine_dec hname] at hcall
        exact subroutine_decF_ok ih hcall
      by_cases h13 : g = "parameterList"
      · subst h13
        rw [build_eq_parameter_list hname] at hcall
        cases hst : build_parameter_list t w.get_class_symbol_table with
        | error e =>
          simp only [hst, error_bind] at hcall
          exact absurd hcall (by simp)
        | ok st =>
        simp only [hst, ok_bind] at hcall
        injection hcall with hp2
        injection hp2 with hc hw
        subst hc
        subst hw
        exact ⟨le_rfl, goodCode_nil _ _⟩
      by_cases h14 : g = "varDec"
      · subst h14
        rw [build_eq_var_dec hname] at hcall
        cases hst : build_var_dec t w.get_symbol_table with
        | error e =>
          simp only [hst, error_bind] at hcall
          exact absurd hcall (by simp)
        | ok st =>
        simp only [hst, ok_bind] at hcall
        injection hcall with hp2
        injection hp2 with hc hw
        subst hc
        subst hw
        exact ⟨le_rfl, goodCode_nil _ _⟩
      by_cases h15 : g = "subroutineBody"
      · subst h15
        rw [build_eq_subroutine_body hname] at hcall
        exact subroutine_bodyF_ok ih hcall
      rw [build_eq_other hname
        (by simp [h1, h2, h3, h4, h5, h6, h7, h8, h9, h10, h11, h12, h13,
          h14, h15])] at hcall
      exact absurd hcall (by simp)

/-- **C7.** Within the emission of a single class: each `whileStatement` draws
a fresh counter value `k` (`current_id`, bumped before either sub-build) and
emits exactly the template `label WHILE_EXP<k>`, condition, `not`,
`if-goto WHILE_END<k>`, body, `goto WHILE_EXP<k>`, `label WHILE_END<k>`; each
`ifStatement` draws a fresh `k` and emits the no-else template whose labels
are exactly `IF_TRUE<k>` and `IF_FALSE<k>` when the node has 7 children, and
the else template whose labels are exactly `IF_TRUE<k>`, `IF_FALSE<k>` and
`IF_END<k>` otherwise; and consequently, on any successful build (the class
node included), the emitted `label L` texts are pairwise distinct and every
emitted `goto`/`if-goto` target has exactly one matching label. -/
theorem C7_label_freshness_and_matching :
    (∀ (fuel : Nat) (w : VmWriter) (t : TokenTreeItem) (e2 e5 : TokenTreeItem),
      t.get_name = some "whileStatement" →
      t.getNode 2 = .ok e2 → t.getNode 5 = .ok e5 →
      VmWriter.build (fuel + 1) w t =
        (VmWriter.build fuel { w with current_id := w.current_id + 1 } e2 >>=
          fun (c1, w1) => VmWriter.build fuel w1 e5 >>= fun (c2, w2) =>
            .ok (["label WHILE_EXP" ++ natStr w.current_id] ++ c1 ++
              ["not", "if-goto WHILE_END" ++ natStr w.current_id] ++ c2 ++
              ["goto WHILE_EXP" ++ natStr w.current_id,
               "label WHILE_END" ++ natStr w.current_id], w2))) ∧
    (∀ (fuel : Nat) (w : VmWriter) (t : TokenTreeItem) (e2 e5 : TokenTreeItem),
      t.get_name = some "ifStatement" → t.get_nodes.length = 7 →
      t.getNode 2 = .ok e2 → t.getNode 5 = .ok e5 →
      VmWriter.build (fuel + 1) w t =
        (VmWriter.build fuel { w with current_id := w.current_id + 1 } e2 >>=
          fun (c1, w1) => VmWriter.build fuel w1 e5 >>= fun (c2, w2) =>
            .ok (c1 ++ ["if-goto IF_TRUE" ++ natStr w.current_id,
              "goto IF_FALSE" ++ natStr w.current_id,
              "label IF_TRUE" ++ natStr w.current_id] ++ c2 ++
              ["label IF_FALSE" ++ natStr w.current_id], w2))) ∧
    (∀ (fuel : Nat) (w : VmWriter) (t : TokenTreeItem)
      (e2 e5 e9 : TokenTreeItem),
      t.get_name = some "ifStatement" → t.get_nodes.length ≠ 7 →
      t.getNode 2 = .ok e2 → t.getNode 5 = .ok e5 → t.getNode 9 = .ok e9 →
      VmWriter.build (fuel + 1) w t =
        (VmWriter.build fuel { w with current_id := w.current_id + 1 } e2 >>=
          fun (c1, w1) => VmWriter.build fuel w1 e5 >>= fun (c2, w2) =>
            VmWriter.build fuel w2 e9 >>= fun (c3, w3) =>
            .ok (c1 ++ ["if-goto IF_TRUE" ++ natStr w.current_id,
              "goto IF_FALSE" ++ natStr w.current_id,
              "label IF_TRUE" ++ natStr w.current_id] ++ c2 ++
              ["goto IF_END" ++ natStr w.current_id,
               "label IF_FALSE" ++ natStr w.current_id] ++ c3 ++
              ["label IF_END" ++ natStr w.current_id], w3))) ∧
    (∀ (fuel : Nat) (w : VmWriter) (t : TokenTreeItem) (code : List String)
      (w' : VmWriter), VmWriter.build fuel w t = .ok (code, w') →
      w.current_id ≤ w'.current_id ∧ (labelPayloads code).Nodup ∧
      ∀ g ∈ gotoPayloads code, (labelPayloads code).count g = 1) := by
  refine ⟨?_, ?_, ?_, ?_⟩
  · intro fuel w t e2 e5 hname hn2 hn5
    rw [build_eq_while hname]
    simp only [build_whileF, validate_name_of hname, ok_bind,
      VmWriter.get_next_id, hn2, hn5]
  · intro fuel w t e2 e5 hname hlen hn2 hn5
    rw [build_eq_if hname]
    simp only [build_ifF, validate_name_of hname, ok_bind,
      VmWriter.get_next_id, hn2, hn5, hlen, eq_self_iff_true, if_true,
      ite_true]
  · intro fuel w t e2 e5 e9 hname hlen hn2 hn5 hn9
    rw [build_eq_if hname]
    simp only [build_ifF, validate_name_of hname, ok_bind,
      VmWriter.get_next_id, hn2, hn5, hn9, hlen, if_false, ite_false]
  · intro fuel w t code w' hcall
    obtain ⟨le1, g⟩ := builderOk_build fuel w t code w' hcall
    refine ⟨le1, g.1, ?_⟩
    intro gp hgp
    exact count_one_of_nodup_mem g.1 (g.2.2 gp hgp)

set_option maxRecDepth 10000 in
theorem C7_witness :
    (VmWriter.build 3 VmWriter.new c7tree =
      (VmWriter.build 2 { VmWriter.new with
          current_id := VmWriter.new.current_id + 1 } c7cond >>=
        fun (c1, w1) => VmWriter.build 2 w1 c7body >>= fun (c2, w2) =>
          .ok (["label WHILE_EXP" ++ natStr VmWriter.new.current_id] ++ c1 ++
            ["not", "if-goto WHILE_END" ++ natStr VmWriter.new.current_id] ++
            c2 ++
            ["goto WHILE_EXP" ++ natStr VmWriter.new.current_id,
             "label WHILE_END" ++ natStr VmWriter.new.current_id], w2))) ∧
    (VmWriter.new.current_id ≤ c7writerEnd.current_id ∧
      (labelPayloads c7code).Nodup ∧
      ∀ g ∈ gotoPayloads c7code, (labelPayloads c7code).count g = 1) :=
  ⟨C7_label_freshness_and_matching.1 2 VmWriter.new c7tree c7cond c7body
      rfl rfl rfl,
   C7_label_freshness_and_matching.2.2.2 3 VmWriter.new c7tree c7code
      c7writerEnd rfl⟩

end Jack
